import Mathlib

/-!
# govaluate: the lexer, the planner's token passes and the evaluation stages

A shallow embedding of `parsing.go`, `lexerStream.go`, `tokenStream.go`,
`evaluationStage.go`, `parameters.go` and `sanitizedParameters.go`.

Conventions of the embedding.

* A Go `string` produced by the lexer is a sequence of code points; it is a
  Lean `String`. The `[]rune` of a stream is a `List Char`.
* Go `int` positions are `Int`; the lengths involved are far below `2^63`.
* A Go function that can panic returns a `Result`: `ok` for a normal return,
  `panic` for a run-time panic (index out of range, failed type assertion),
  `fuel` when the bounded unrolling of a loop was too short.
* An `error` is `Option String`: `none` is `nil`, `some msg` an error value.
-/

namespace Govaluate

/-! ## Outcomes -/

/-- The outcome of running a Go function. -/
inductive Result (α : Type) where
  | ok (value : α)
  | panic
  | fuel
deriving DecidableEq, Repr

/-- A Go `error` value: `none` is `nil`. -/
abbrev error := Option String

/-! ## IEEE-754 binary64 -/

/-- A Go `float64`. `finite s m e` is `(-1)^s * m * 2^e`; the canonical
    encodings have `m < 2^53`, `-1074 ≤ e ≤ 971` and `2^52 ≤ m` unless
    `e = -1074`. -/
inductive float64 where
  | finite (negative : Bool) (mantissa : Nat) (exponent : Int)
  | inf (negative : Bool)
  | nan
deriving DecidableEq, Repr

/-- Position of the highest set bit of `n`, by halving at most `fuel` times. -/
def log2Aux : Nat → Nat → Nat
  | 0, _ => 0
  | fuel + 1, n => if n < 2 then 0 else log2Aux fuel (n / 2) + 1

/-- The integer part of the binary logarithm of a positive natural number. -/
def floorLog2 (n : Nat) : Nat := log2Aux n n

/-- The quotient `n / d` rounded to the nearest natural number, ties to even. -/
def roundHalfEven (n d : Nat) : Nat :=
  let q := n / d
  let r := n % d
  if 2 * r < d then q
  else if d < 2 * r then q + 1
  else if q % 2 = 0 then q else q + 1

/-- Whether `num / den < 2^e`. -/
def ratioBelowPow2 (num den : Nat) (e : Int) : Bool :=
  if 0 ≤ e then decide (num < den * 2 ^ e.toNat) else decide (num * 2 ^ (-e).toNat < den)

/-- The double nearest to `(-1)^negative * num / den` (round to nearest, ties
    to even), infinite when the rounded magnitude reaches `2^1024`. -/
def float64.ofRatio (negative : Bool) (num den : Nat) : float64 :=
  if num = 0 ∨ den = 0 then float64.finite negative 0 (-1074)
  else
    let e0 : Int := (floorLog2 num : Int) - (floorLog2 den : Int)
    let e : Int := if ratioBelowPow2 num den e0 then e0 - 1 else e0
    let x : Int := max (e - 52) (-1074)
    let m : Nat :=
      if 0 ≤ x then roundHalfEven num (den * 2 ^ x.toNat)
      else roundHalfEven (num * 2 ^ (-x).toNat) den
    let m1 : Nat := if m = 2 ^ 53 then 2 ^ 52 else m
    let x1 : Int := if m = 2 ^ 53 then x + 1 else x
    if 971 < x1 then float64.inf negative else float64.finite negative m1 x1

/-- The conversion `float64(v)` of an unsigned integer. -/
def float64.ofNat (v : Nat) : float64 := float64.ofRatio false v 1

/-- The conversion `float64(v)` of a signed integer. -/
def float64.ofInt (v : Int) : float64 := float64.ofRatio (decide (v < 0)) v.natAbs 1

/-- The integer `(-1)^negative * m`. -/
def signedInt (negative : Bool) (m : Nat) : Int := if negative then -(m : Int) else (m : Int)

/-- The real number a finite double denotes. -/
def float64.toRat : float64 → Option ℚ
  | float64.finite s m e => some ((if s then -1 else 1) * (m : ℚ) * (2 : ℚ) ^ e)
  | _ => none

/-- The integer part of a finite double: the fraction is discarded
    (truncation toward zero). -/
def float64.truncate : float64 → Option Int
  | float64.finite s m e =>
    some (signedInt s (if 0 ≤ e then m * 2 ^ e.toNat else m / 2 ^ (-e).toNat))
  | _ => none

/-- The `int64` with the given 64-bit pattern, in two's complement. -/
def int64.ofBits (bits : Nat) : Int :=
  if bits % 2 ^ 64 < 2 ^ 63 then ((bits % 2 ^ 64 : Nat) : Int)
  else ((bits % 2 ^ 64 : Nat) : Int) - 2 ^ 64

/-- The 64-bit pattern of an `int64`, in two's complement. -/
def int64.toBits (v : Int) : Nat := (v % 2 ^ 64).toNat

/-- The Go conversion `int64(f)`: the fraction is discarded. When the integer
    part does not fit `int64`, or `f` is not finite, Go leaves the result to
    the implementation; it is then the `int64` that `other f` wraps to. -/
def float64.toInt64 (other : float64 → Int) (f : float64) : Int :=
  match f.truncate with
  | some v => if -2 ^ 63 ≤ v ∧ v < 2 ^ 63 then v else int64.ofBits (int64.toBits (other f))
  | none => int64.ofBits (int64.toBits (other f))

/-- The Go operator `&` on `int64`. -/
def int64.and (x y : Int) : Int := int64.ofBits (int64.toBits x &&& int64.toBits y)

/-- The Go operator `|` on `int64`. -/
def int64.or (x y : Int) : Int := int64.ofBits (int64.toBits x ||| int64.toBits y)

/-- The Go binary operator `^` on `int64`. -/
def int64.xor (x y : Int) : Int := int64.ofBits (int64.toBits x ^^^ int64.toBits y)

/-- The Go unary operator `^` on `int64`: `^x` is `m ^ x` with `m = -1`. -/
def int64.not (x : Int) : Int := int64.xor (-1) x

/-! ## The value domain -/

/-- A `time.Time`: the three fields of Go's struct, the wall-clock word, the
    extended seconds and the location pointer (given by its address). -/
structure Time where
  wall : Nat
  ext : Int
  loc : Nat
deriving DecidableEq, Repr

/-- A `*regexp.Regexp`: the expression the value behind the pointer was
    compiled from, and the address the pointer holds. -/
structure Regexp where
  expr : String
  address : Nat
deriving DecidableEq, Repr

/-- The dynamic values (`interface{}`) that reach the evaluator or a parameter
    boundary. `number`, `bool`, `string`, `time`, `pattern`, `array` and `null`
    are the value domain of the evaluator; the remaining constructors are the
    other numeric kinds of Go, which a caller's resolver may hand over. The
    integer payloads are the mathematical values; `float32` carries the double
    that is exactly equal to the single-precision value. -/
inductive Value where
  | null
  | bool (b : Bool)
  | string (s : String)
  | number (f : float64)
  | time (t : Time)
  | pattern (p : Regexp)
  | array (xs : List Value)
  | uint8 (n : Nat)
  | uint16 (n : Nat)
  | uint32 (n : Nat)
  | uint64 (n : Nat)
  | int8 (i : Int)
  | int16 (i : Int)
  | int32 (i : Int)
  | int64 (i : Int)
  | int (i : Int)
  | uint (n : Nat)
  | uintptr (n : Nat)
  | float32 (f : float64)
deriving Repr

/-- The value is a Go number of some kind (any integer width, either float width). -/
def Value.isNumericKind : Value → Bool
  | Value.number _ => true
  | Value.uint8 _ => true
  | Value.uint16 _ => true
  | Value.uint32 _ => true
  | Value.uint64 _ => true
  | Value.int8 _ => true
  | Value.int16 _ => true
  | Value.int32 _ => true
  | Value.int64 _ => true
  | Value.int _ => true
  | Value.uint _ => true
  | Value.uintptr _ => true
  | Value.float32 _ => true
  | _ => false

/-- The value is a `float64`, the evaluator's Number. -/
def Value.isNumber : Value → Bool
  | Value.number _ => true
  | _ => false

/-- An `ExpressionFunction`: `func(arguments ...interface{}) (interface{}, error)`. -/
abbrev ExpressionFunction := List Value → Value × error

/-- A `Parameters` implementation, given by its `Get` method. -/
structure Parameters where
  Get : String → Value × error

/-! ## Rendering with the verb `%v` -/

/-- The source's `isString`: the type assertion `value.(string)` succeeds. -/
def isString : Value → Bool
  | Value.string _ => true
  | _ => false

/-- The source's `ternaryIfStage`. -/
def ternaryIfStage (left right : Value) (_parameters : Parameters) : Result (Value × error) :=
  match left with
  | Value.bool b => if b then Result.ok (right, none) else Result.ok (Value.null, none)
  | _ => Result.panic

/-- The source's `ternaryElseStage`; `left != nil` fails for `Value.null` only. -/
def ternaryElseStage (left right : Value) (_parameters : Parameters) : Result (Value × error) :=
  match left with
  | Value.null => Result.ok (right, none)
  | _ => Result.ok (left, none)

/-- The value of the chain `ternaryElseStage(ternaryIfStage(c, a), b)`, the way the
    evaluator feeds the value of the TERNARY_TRUE stage to the TERNARY_FALSE stage. -/
def ternaryChain (c a b : Value) (parameters : Parameters) : Result (Value × error) :=
  match ternaryIfStage c a parameters with
  | Result.ok (v, none) => ternaryElseStage v b parameters
  | Result.ok (v, some e) => Result.ok (v, some e)
  | Result.panic => Result.panic
  | Result.fuel => Result.fuel

/-- The Go operator `==` on `float64`: false when an operand is NaN, and the
    two zeros are equal. -/
def float64.eq : float64 → float64 → Bool
  | float64.nan, _ => false
  | _, float64.nan => false
  | float64.inf a, float64.inf b => a == b
  | float64.inf _, float64.finite _ _ _ => false
  | float64.finite _ _ _, float64.inf _ => false
  | float64.finite s1 m1 e1, float64.finite s2 m2 e2 =>
    decide (signedInt s1 (m1 * 2 ^ (e1 - min e1 e2).toNat) =
      signedInt s2 (m2 * 2 ^ (e2 - min e1 e2).toNat))

/-- The source's `separatorStage`. -/
def separatorStage (left right : Value) (_parameters : Parameters) : Result (Value × error) :=
  match left with
  | Value.array xs => Result.ok (Value.array (xs ++ [right]), none)
  | _ => Result.ok (Value.array [left, right], none)

/-- The Go operator `==` on two `interface{}` values: values of different
    dynamic types are unequal, values of the same comparable type are compared,
    and two values of the uncomparable type `[]interface{}` make the comparison
    panic. Two `time.Time` structs are equal when all their fields are, and two
    `*regexp.Regexp` when they hold the same address. -/
def Value.goEq : Value → Value → Result Bool
  | Value.null, Value.null => Result.ok true
  | Value.bool a, Value.bool b => Result.ok (a == b)
  | Value.string a, Value.string b => Result.ok (a == b)
  | Value.number a, Value.number b => Result.ok (float64.eq a b)
  | Value.time a, Value.time b => Result.ok (a == b)
  | Value.pattern a, Value.pattern b => Result.ok (a.address == b.address)
  | Value.array _, Value.array _ => Result.panic
  | Value.uint8 a, Value.uint8 b => Result.ok (a == b)
  | Value.uint16 a, Value.uint16 b => Result.ok (a == b)
  | Value.uint32 a, Value.uint32 b => Result.ok (a == b)
  | Value.uint64 a, Value.uint64 b => Result.ok (a == b)
  | Value.int8 a, Value.int8 b => Result.ok (a == b)
  | Value.int16 a, Value.int16 b => Result.ok (a == b)
  | Value.int32 a, Value.int32 b => Result.ok (a == b)
  | Value.int64 a, Value.int64 b => Result.ok (a == b)
  | Value.int a, Value.int b => Result.ok (a == b)
  | Value.uint a, Value.uint b => Result.ok (a == b)
  | Value.uintptr a, Value.uintptr b => Result.ok (a == b)
  | Value.float32 a, Value.float32 b => Result.ok (float64.eq a b)
  | _, _ => Result.ok false

/-- The loop of the source's `inStage` over the elements of `right`. -/
def inStageLoop (left : Value) : List Value → Result (Value × error)
  | [] => Result.ok (Value.bool false, none)
  | value :: rest =>
    match Value.goEq left value with
    | Result.ok true => Result.ok (Value.bool true, none)
    | Result.ok false => inStageLoop left rest
    | Result.panic => Result.panic
    | Result.fuel => Result.fuel

/-- The source's `inStage`; the type assertion `right.([]interface{})` panics
    when `right` is no array. -/
def inStage (left right : Value) (_parameters : Parameters) : Result (Value × error) :=
  match right with
  | Value.array xs => inStageLoop left xs
  | _ => Result.panic

/-- The operator the source's `makeFunctionStage` builds, applied to its
    operands. Next to the two results of the operator, the argument lists of
    the calls it makes to `function` are returned, in the order of the calls. -/
def makeFunctionStage (function : ExpressionFunction) (_left right : Value)
    (_parameters : Parameters) : Result ((Value × error) × List (List Value)) :=
  match right with
  | Value.null => Result.ok (function [], [[]])
  | Value.array arguments => Result.ok (function arguments, [arguments])
  | argument => Result.ok (function [argument], [[argument]])

/-- The source's `bitwiseNotStage`; `other` is the platform's conversion of a
    double outside `int64`. -/
def bitwiseNotStage (other : float64 → Int) (_left right : Value) (_parameters : Parameters) :
    Result (Value × error) :=
  match right with
  | Value.number r =>
    Result.ok (Value.number (float64.ofInt (int64.not (float64.toInt64 other r))), none)
  | _ => Result.panic

/-- The source's `bitwiseOrStage`. -/
def bitwiseOrStage (other : float64 → Int) (left right : Value) (_parameters : Parameters) :
    Result (Value × error) :=
  match left, right with
  | Value.number l, Value.number r =>
    Result.ok (Value.number (float64.ofInt
      (int64.or (float64.toInt64 other l) (float64.toInt64 other r))), none)
  | _, _ => Result.panic

/-- The source's `bitwiseAndStage`. -/
def bitwiseAndStage (other : float64 → Int) (left right : Value) (_parameters : Parameters) :
    Result (Value × error) :=
  match left, right with
  | Value.number l, Value.number r =>
    Result.ok (Value.number (float64.ofInt
      (int64.and (float64.toInt64 other l) (float64.toInt64 other r))), none)
  | _, _ => Result.panic

/-- The source's `bitwiseXORStage`. -/
def bitwiseXORStage (other : float64 → Int) (left right : Value) (_parameters : Parameters) :
    Result (Value × error) :=
  match left, right with
  | Value.number l, Value.number r =>
    Result.ok (Value.number (float64.ofInt
      (int64.xor (float64.toInt64 other l) (float64.toInt64 other r))), none)
  | _, _ => Result.panic

/-! ## Parameters (`parameters.go`) -/

/-- The source's `MapParameters`, a `map[string]interface{}`: the value stored
    under each key, `none` for a name that is no key. -/
structure MapParameters where
  entries : String → Option Value

/-- The source's `MapParameters.Get`. -/
def MapParameters.Get (p : MapParameters) (name : String) : Value × error :=
  match p.entries name with
  | none => (Value.null, some ("No parameter '" ++ name ++ "' found."))
  | some value => (value, none)

/-! ## Parameter sanitization (`sanitizedParameters.go`) -/

/-- The source's `castToFloat64`: a type switch over ten numeric kinds. -/
def castToFloat64 : Value → Value
  | Value.uint8 v => Value.number (float64.ofNat v)
  | Value.uint16 v => Value.number (float64.ofNat v)
  | Value.uint32 v => Value.number (float64.ofNat v)
  | Value.uint64 v => Value.number (float64.ofNat v)
  | Value.int8 v => Value.number (float64.ofInt v)
  | Value.int16 v => Value.number (float64.ofInt v)
  | Value.int32 v => Value.number (float64.ofInt v)
  | Value.int64 v => Value.number (float64.ofInt v)
  | Value.int v => Value.number (float64.ofInt v)
  | Value.float32 v => Value.number v
  | value => value

/-- The source's `sanitizedParameters`, a wrapper of a `Parameters`. -/
structure sanitizedParameters where
  orig : Parameters

/-- The source's `sanitizedParameters.Get`. -/
def sanitizedParameters.Get (p : sanitizedParameters) (key : String) : Value × error :=
  match p.orig.Get key with
  | (_, some err) => (Value.null, some err)
  | (value, none) => (castToFloat64 value, none)

/-! ## Go's `unicode` package -/

/-- The classification of the code points beyond ASCII by the tables of Go's
    `unicode` package. On ASCII the functions below are explicit. -/
structure UnicodeTables where
  isDigit : Char → Bool
  isLetter : Char → Bool
  toLower : Char → Char
  toUpper : Char → Char

/-- Whether the code point lies between `lo` and `hi`, ends included. -/
def inRange (lo hi c : Char) : Bool := decide (lo.toNat ≤ c.toNat) && decide (c.toNat ≤ hi.toNat)

/-- Go's `unicode.IsSpace`: the code points with the property White_Space. -/
def unicodeIsSpace (c : Char) : Bool :=
  inRange '\t' '\r' c || c = ' ' || c.toNat = 0x85 || c.toNat = 0xA0 || c.toNat = 0x1680 ||
  (decide (0x2000 ≤ c.toNat) && decide (c.toNat ≤ 0x200A)) ||
  c.toNat = 0x2028 || c.toNat = 0x2029 || c.toNat = 0x202F || c.toNat = 0x205F ||
  c.toNat = 0x3000

/-- Go's `unicode.IsDigit`. -/
def unicodeIsDigit (U : UnicodeTables) (c : Char) : Bool :=
  if c.toNat < 128 then inRange '0' '9' c else U.isDigit c

/-- Go's `unicode.IsLetter`. -/
def unicodeIsLetter (U : UnicodeTables) (c : Char) : Bool :=
  if c.toNat < 128 then inRange 'a' 'z' c || inRange 'A' 'Z' c else U.isLetter c

/-- Go's `unicode.ToLower`. -/
def unicodeToLower (U : UnicodeTables) (c : Char) : Char :=
  if c.toNat < 128 then (if inRange 'A' 'Z' c then Char.ofNat (c.toNat + 32) else c)
  else U.toLower c

/-- Go's `unicode.ToUpper`. -/
def unicodeToUpper (U : UnicodeTables) (c : Char) : Char :=
  if c.toNat < 128 then (if inRange 'a' 'z' c then Char.ofNat (c.toNat - 32) else c)
  else U.toUpper c

/-- Tables that classify no code point beyond ASCII as a digit or a letter and
    map each of them to itself. -/
def asciiTables : UnicodeTables :=
  { isDigit := fun _ => false, isLetter := fun _ => false, toLower := id, toUpper := id }

/-! ## Character predicates of the lexer (`parsing.go`) -/

/-- The source's `isHexDigit`. -/
def isHexDigit (U : UnicodeTables) (character : Char) : Bool :=
  let character := unicodeToLower U character
  unicodeIsDigit U character ||
    character = 'a' ||
    character = 'b' ||
    character = 'c' ||
    character = 'd' ||
    character = 'e' ||
    character = 'f'

/-- The source's `isNumeric`. -/
def isNumeric (U : UnicodeTables) (character : Char) : Bool :=
  unicodeIsDigit U character || character = '.'

/-- The source's `isNotQuote`. -/
def isNotQuote (character : Char) : Bool :=
  character ≠ '\'' && character ≠ '"'

/-- The source's `isNotAlphanumeric`. -/
def isNotAlphanumeric (U : UnicodeTables) (character : Char) : Bool :=
  !(unicodeIsDigit U character ||
    unicodeIsLetter U character ||
    character = '(' ||
    character = ')' ||
    character = '[' ||
    character = ']' ||
    !isNotQuote character)

/-- The source's `isVariableName`. -/
def isVariableName (U : UnicodeTables) (character : Char) : Bool :=
  unicodeIsLetter U character ||
    unicodeIsDigit U character ||
    character = '_' ||
    character = '.'

/-- The source's `isNotClosingBracket`. -/
def isNotClosingBracket (character : Char) : Bool :=
  character ≠ ']'

/-! ## The character stream (`lexerStream.go`) -/

/-- The source's `lexerStream`. -/
structure lexerStream where
  source : List Char
  position : Int
  length : Int
deriving DecidableEq, Repr

/-- The source's `newLexerStream`. -/
def newLexerStream (source : String) : lexerStream :=
  { source := source.toList, position := 0, length := source.toList.length }

/-- The source's `readCharacter`; indexing outside `source` panics. -/
def lexerStream.readCharacter (s : lexerStream) : Result (Char × lexerStream) :=
  if 0 ≤ s.position then
    match s.source.get? s.position.toNat with
    | some c => Result.ok (c, { s with position := s.position + 1 })
    | none => Result.panic
  else Result.panic

/-- The source's `rewind`. -/
def lexerStream.rewind (s : lexerStream) (amount : Int) : lexerStream :=
  { s with position := s.position - amount }

/-- The source's `canRead`. -/
def lexerStream.canRead (s : lexerStream) : Bool :=
  decide (s.position < s.length)

/-! ## Tokens -/

/-- Modelled from the spec: the token kinds of section 3.2 (the declaration of
    `TokenKind` is not among the sources); `UNKNOWN` is the zero value. -/
inductive TokenKind where
  | UNKNOWN | PREFIX | NUMERIC | BOOLEAN | STRING | PATTERN | TIME | VARIABLE | FUNCTION
  | SEPARATOR | COMPARATOR | LOGICALOP | MODIFIER | CLAUSE | CLAUSE_CLOSE | TERNARY | ACCESSOR
deriving DecidableEq, Repr

/-- Modelled from the spec: `TokenKind.String` (the method is not among the
    sources, only its test `tokenKind_test.go` is) renders a kind as the name
    section 3.2 gives it. -/
def TokenKind.String : TokenKind → String
  | TokenKind.UNKNOWN => "UNKNOWN"
  | TokenKind.PREFIX => "PREFIX"
  | TokenKind.NUMERIC => "NUMERIC"
  | TokenKind.BOOLEAN => "BOOLEAN"
  | TokenKind.STRING => "STRING"
  | TokenKind.PATTERN => "PATTERN"
  | TokenKind.TIME => "TIME"
  | TokenKind.VARIABLE => "VARIABLE"
  | TokenKind.FUNCTION => "FUNCTION"
  | TokenKind.SEPARATOR => "SEPARATOR"
  | TokenKind.COMPARATOR => "COMPARATOR"
  | TokenKind.LOGICALOP => "LOGICALOP"
  | TokenKind.MODIFIER => "MODIFIER"
  | TokenKind.CLAUSE => "CLAUSE"
  | TokenKind.CLAUSE_CLOSE => "CLAUSE_CLOSE"
  | TokenKind.TERNARY => "TERNARY"
  | TokenKind.ACCESSOR => "ACCESSOR"

/-- The slice `kinds` of `TestTokenKindStrings` (`tokenKind_test.go`). -/
def testedKinds : List TokenKind :=
  [TokenKind.UNKNOWN, TokenKind.PREFIX, TokenKind.NUMERIC, TokenKind.BOOLEAN, TokenKind.STRING,
   TokenKind.PATTERN, TokenKind.TIME, TokenKind.VARIABLE, TokenKind.COMPARATOR,
   TokenKind.LOGICALOP, TokenKind.MODIFIER, TokenKind.CLAUSE, TokenKind.CLAUSE_CLOSE,
   TokenKind.TERNARY]

/-- The payloads the lexer and the planner store in `ExpressionToken.Value`. -/
inductive TokenValue where
  | nil
  | number (f : float64)
  | string (s : String)
  | bool (b : Bool)
  | time (t : Time)
  | rune (c : Char)
  | strings (path : List String)
  | function (f : ExpressionFunction)
  | pattern (p : Regexp)

/-- The source's `ExpressionToken`. -/
structure ExpressionToken where
  Kind : TokenKind
  Value : TokenValue

/-- The zero value `ExpressionToken{}`. -/
def ExpressionToken.zero : ExpressionToken := { Kind := TokenKind.UNKNOWN, Value := TokenValue.nil }

/-- Modelled from the spec: a lexer state is the set of token kinds that may
    come next (section 3.5); the declaration of `lexerState` is not among the
    sources. -/
structure lexerState where
  validNextKinds : List TokenKind
deriving DecidableEq, Repr

/-- Modelled from the spec: `canTransitionTo` tells whether the kind is in the
    allowed set of the state (section 3.5). -/
def lexerState.canTransitionTo (state : lexerState) (kind : TokenKind) : Bool :=
  state.validNextKinds.contains kind

/-- Modelled from the spec: the operator symbols behind the tables of section
    4.2 (the declaration of `OperatorSymbol` is not among the sources). -/
inductive OperatorSymbol where
  | NEGATE | INVERT | BITWISE_NOT
  | PLUS | MINUS | MULTIPLY | DIVIDE | MODULUS | EXPONENT
  | BITWISE_AND | BITWISE_OR | BITWISE_XOR | BITWISE_LSHIFT | BITWISE_RSHIFT
  | AND | OR
  | EQ | NEQ | LT | LTE | GT | GTE | REQ | NREQ | IN
  | TERNARY_TRUE | TERNARY_FALSE | COALESCE
deriving DecidableEq, Repr

/-- Modelled from the spec: the prefix table of section 4.2. -/
def prefixSymbols : List (String × OperatorSymbol) :=
  [("-", OperatorSymbol.NEGATE), ("!", OperatorSymbol.INVERT), ("~", OperatorSymbol.BITWISE_NOT)]

/-- Modelled from the spec: the modifier table of section 4.2. -/
def modifierSymbols : List (String × OperatorSymbol) :=
  [("+", OperatorSymbol.PLUS), ("-", OperatorSymbol.MINUS), ("*", OperatorSymbol.MULTIPLY),
   ("/", OperatorSymbol.DIVIDE), ("%", OperatorSymbol.MODULUS), ("**", OperatorSymbol.EXPONENT),
   ("&", OperatorSymbol.BITWISE_AND), ("|", OperatorSymbol.BITWISE_OR),
   ("^", OperatorSymbol.BITWISE_XOR), ("<<", OperatorSymbol.BITWISE_LSHIFT),
   (">>", OperatorSymbol.BITWISE_RSHIFT)]

/-- Modelled from the spec: the logical table of section 4.2. -/
def logicalSymbols : List (String × OperatorSymbol) :=
  [("&&", OperatorSymbol.AND), ("||", OperatorSymbol.OR)]

/-- Modelled from the spec: the comparator table of section 4.2. -/
def comparatorSymbols : List (String × OperatorSymbol) :=
  [("==", OperatorSymbol.EQ), ("!=", OperatorSymbol.NEQ), ("<", OperatorSymbol.LT),
   ("<=", OperatorSymbol.LTE), (">", OperatorSymbol.GT), (">=", OperatorSymbol.GTE),
   ("=~", OperatorSymbol.REQ), ("!~", OperatorSymbol.NREQ), ("in", OperatorSymbol.IN)]

/-- Modelled from the spec: the ternary table of section 4.2. -/
def ternarySymbols : List (String × OperatorSymbol) :=
  [("?", OperatorSymbol.TERNARY_TRUE), (":", OperatorSymbol.TERNARY_FALSE),
   ("??", OperatorSymbol.COALESCE)]

/-- The second result of the map index expression `_, found = table[key]`. -/
def hasKey (table : List (String × OperatorSymbol)) (key : String) : Bool :=
  (table.lookup key).isSome

/-! ## Reading runs of characters (`parsing.go`) -/

/-- The loop of the source's `readUntilFalse`, unrolled at most `fuel` times.
    `tokenBuffer` is the text written so far. -/
def readUntilFalseLoop (includeWhitespace breakWhitespace : Bool) (condition : Char → Bool) :
    Nat → lexerStream → String → Result (String × Bool × lexerStream)
  | 0, _, _ => Result.fuel
  | fuel + 1, stream, tokenBuffer =>
    if !stream.canRead then Result.ok (tokenBuffer, false, stream)
    else
      match stream.readCharacter with
      | Result.panic => Result.panic
      | Result.fuel => Result.fuel
      | Result.ok (character, stream) =>
        if character = '\\' then
          match stream.readCharacter with
          | Result.panic => Result.panic
          | Result.fuel => Result.fuel
          | Result.ok (character, stream) =>
            readUntilFalseLoop includeWhitespace breakWhitespace condition fuel stream
              (tokenBuffer.push character)
        else if unicodeIsSpace character && (breakWhitespace && decide (0 < tokenBuffer.length)) then
          Result.ok (tokenBuffer, true, stream)
        else if unicodeIsSpace character && !includeWhitespace then
          readUntilFalseLoop includeWhitespace breakWhitespace condition fuel stream tokenBuffer
        else if condition character then
          readUntilFalseLoop includeWhitespace breakWhitespace condition fuel stream
            (tokenBuffer.push character)
        else
          Result.ok (tokenBuffer, true, stream.rewind 1)

/-- The number of iterations that exhausts the unread part of the stream. -/
def lexerStream.remaining (s : lexerStream) : Nat := (s.length - s.position).toNat + 1

/-- The source's `readUntilFalse`. -/
def readUntilFalse (stream : lexerStream) (includeWhitespace breakWhitespace : Bool)
    (condition : Char → Bool) : Result (String × Bool × lexerStream) :=
  readUntilFalseLoop includeWhitespace breakWhitespace condition stream.remaining stream ""

/-- The source's `readTokenUntilFalse`. -/
def readTokenUntilFalse (stream : lexerStream) (condition : Char → Bool) :
    Result (String × lexerStream) :=
  match readUntilFalse (stream.rewind 1) false true condition with
  | Result.ok (ret, _, stream) => Result.ok (ret, stream)
  | Result.panic => Result.panic
  | Result.fuel => Result.fuel

/-! ## Library functions the lexer calls -/

/-- The value of a digit in `strconv.ParseUint`: `0`-`9`, then the letters of
    either case from ten on. A byte outside ASCII is no digit. -/
def digitValue (c : Char) : Option Nat :=
  if inRange '0' '9' c then some (c.toNat - '0'.toNat)
  else if inRange 'a' 'z' c then some (c.toNat - 'a'.toNat + 10)
  else if inRange 'A' 'Z' c then some (c.toNat - 'A'.toNat + 10)
  else none

/-- The digit loop of `strconv.ParseUint` for an explicit base: `none` stands
    for a syntax or range error. -/
def ParseUintLoop (base cutoff maxVal : Nat) : List Char → Nat → Option Nat
  | [], n => some n
  | c :: cs, n =>
    match digitValue c with
    | none => none
    | some d =>
      if base ≤ d then none
      else if cutoff ≤ n then none
      else if 2 ^ 64 ≤ n * base + d ∨ maxVal < n * base + d then none
      else ParseUintLoop base cutoff maxVal cs (n * base + d)

/-- Go's `strconv.ParseUint(s, base, bitSize)` for `2 ≤ base ≤ 36`; `none` when
    it returns an error. -/
def ParseUint (s : String) (base bitSize : Nat) : Option Nat :=
  if s.toList = [] then none
  else ParseUintLoop base ((2 ^ 64 - 1) / base + 1) (2 ^ bitSize - 1) s.toList 0

/-- The number written by a list of decimal digits, continuing from `n`. -/
def decimalValue : List Char → Nat → Nat
  | [], n => n
  | c :: cs, n => decimalValue cs (n * 10 + (c.toNat - '0'.toNat))

/-- The result of `strconv.ParseFloat` once the nearest double is known: a
    value that rounds to an infinity is a range error. -/
def finiteOrError : float64 → Option float64
  | float64.inf _ => none
  | f => some f

/-- Go's `strconv.ParseFloat(s, 64)`; `none` when it returns an error. A text
    of ASCII digits and points is a decimal literal when it has one point at
    most and one digit at least, and its value is the nearest double; the
    result for any other text is left to `other`. -/
def ParseFloat (other : String → Option float64) (s : String) : Option float64 :=
  if s.toList.all (fun c => inRange '0' '9' c || c = '.') then
    let whole := s.toList.takeWhile (fun c => c ≠ '.')
    match s.toList.dropWhile (fun c => c ≠ '.') with
    | [] => if whole = [] then none else finiteOrError (float64.ofRatio false (decimalValue whole 0) 1)
    | _ :: fraction =>
      if fraction.any (fun c => c = '.') then none
      else if whole = [] ∧ fraction = [] then none
      else finiteOrError
        (float64.ofRatio false (decimalValue (whole ++ fraction) 0) (10 ^ fraction.length))
  else other s

/-- Go's `strings.Index(s, ".")`, counted in code points; `-1` when absent. -/
def stringsIndexDot (s : String) : Int :=
  if s.toList.contains '.' then (s.toList.indexOf '.' : Int) else -1

/-- Go's `strings.Split(s, ".")` on the code points of `s`. -/
def splitOnDot : List Char → List String
  | [] => [""]
  | c :: cs =>
    if c = '.' then "" :: splitOnDot cs
    else
      match splitOnDot cs with
      | [] => [String.singleton c]
      | segment :: segments => String.mk (c :: segment.toList) :: segments

/-- The source's `getFirstRune`. -/
def getFirstRune (candidate : String) : Char :=
  match candidate.toList with
  | character :: _ => character
  | [] => Char.ofNat 0

/-- What the lexer takes from the Go library: the `unicode` tables,
    `strconv.ParseFloat` outside plain decimal literals, and the outcome of the
    source's `tryParseTime` (`time.ParseInLocation` over its fourteen layouts). -/
structure Library where
  unicode : UnicodeTables
  parseFloatOther : String → Option float64
  tryParseTime : String → Option Time

/-- A library over `asciiTables` in which no text is a timestamp. -/
def plainLibrary : Library :=
  { unicode := asciiTables, parseFloatOther := fun _ => none, tryParseTime := fun _ => none }

/-! ## The lexer (`parsing.go`) -/

/-- What `readToken` hands back: its three results and the stream it leaves. -/
abbrev ReadTokenReturn := Result (ExpressionToken × Bool × error × lexerStream)

/-- The statements after the loop of `readToken`, reached by every `break`. -/
def readTokenFinish (kind : TokenKind) (tokenValue : TokenValue) (stream : lexerStream) :
    ReadTokenReturn :=
  Result.ok ({ Kind := kind, Value := tokenValue }, decide (kind ≠ TokenKind.UNKNOWN), none, stream)

/-- An error return of `readToken`: `ExpressionToken{}, false, err`. -/
def readTokenError (message : String) (stream : lexerStream) : ReadTokenReturn :=
  Result.ok (ExpressionToken.zero, false, some message, stream)

/-- The branch "numeric constant" of `readToken`, entered after `character` was read. -/
def readTokenNumeric (L : Library) (character : Char) (stream : lexerStream) : ReadTokenReturn :=
  let decimal (stream : lexerStream) : ReadTokenReturn :=
    match readTokenUntilFalse stream (isNumeric L.unicode) with
    | Result.panic => Result.panic
    | Result.fuel => Result.fuel
    | Result.ok (tokenString, stream) =>
      match ParseFloat L.parseFloatOther tokenString with
      | none =>
        readTokenError ("Unable to parse numeric value '" ++ tokenString ++ "' to float64") stream
      | some tokenValue => readTokenFinish TokenKind.NUMERIC (TokenValue.number tokenValue) stream
  if stream.canRead && character = '0' then
    match stream.readCharacter with
    | Result.panic => Result.panic
    | Result.fuel => Result.fuel
    | Result.ok (character, stream) =>
      if stream.canRead && character = 'x' then
        match readUntilFalse stream false true (isHexDigit L.unicode) with
        | Result.panic => Result.panic
        | Result.fuel => Result.fuel
        | Result.ok (tokenString, _, stream) =>
          match ParseUint tokenString 16 64 with
          | none =>
            readTokenError ("Unable to parse hex value '" ++ tokenString ++ "' to uint64") stream
          | some tokenValueInt =>
            readTokenFinish TokenKind.NUMERIC (TokenValue.number (float64.ofNat tokenValueInt)) stream
      else decimal (stream.rewind 1)
  else decimal stream

/-- The branch "regular variable - or function?" of `readToken`. -/
def readTokenVariable (L : Library) (functions : String → Option ExpressionFunction)
    (stream : lexerStream) : ReadTokenReturn :=
  match readTokenUntilFalse stream (isVariableName L.unicode) with
  | Result.panic => Result.panic
  | Result.fuel => Result.fuel
  | Result.ok (tokenString, stream) =>
    let (kind, tokenValue) := (TokenKind.VARIABLE, TokenValue.string tokenString)
    let (kind, tokenValue) :=
      if tokenString = "true" then (TokenKind.BOOLEAN, TokenValue.bool true)
      else if tokenString = "false" then (TokenKind.BOOLEAN, TokenValue.bool false)
      else (kind, tokenValue)
    let (kind, tokenValue) :=
      if tokenString = "in" ∨ tokenString = "IN" then (TokenKind.COMPARATOR, TokenValue.string "in")
      else (kind, tokenValue)
    let (kind, tokenValue) :=
      match functions tokenString with
      | some function => (TokenKind.FUNCTION, TokenValue.function function)
      | none => (kind, tokenValue)
    if 0 < stringsIndexDot tokenString then
      if tokenString.toList.getLast? = some '.' then
        readTokenError ("Hanging accessor on token '" ++ tokenString ++ "'") stream
      else
        let splits := splitOnDot tokenString.toList
        match (splits.drop 1).find?
            (fun split => unicodeToUpper L.unicode (getFirstRune split) ≠ getFirstRune split) with
        | some split =>
          readTokenError ("Unable to access unexported field '" ++ split ++ "' in token '" ++
            tokenString ++ "'") stream
        | none => readTokenFinish TokenKind.ACCESSOR (TokenValue.strings splits) stream
    else readTokenFinish kind tokenValue stream

/-- The last part of `readToken`: "must be a known symbol". -/
def readTokenSymbol (L : Library) (state : lexerState) (stream : lexerStream) : ReadTokenReturn :=
  match readTokenUntilFalse stream (isNotAlphanumeric L.unicode) with
  | Result.panic => Result.panic
  | Result.fuel => Result.fuel
  | Result.ok (tokenString, stream) =>
    let tokenValue := TokenValue.string tokenString
    if state.canTransitionTo TokenKind.PREFIX && hasKey prefixSymbols tokenString then
      readTokenFinish TokenKind.PREFIX tokenValue stream
    else if hasKey modifierSymbols tokenString then
      readTokenFinish TokenKind.MODIFIER tokenValue stream
    else if hasKey logicalSymbols tokenString then
      readTokenFinish TokenKind.LOGICALOP tokenValue stream
    else if hasKey comparatorSymbols tokenString then
      readTokenFinish TokenKind.COMPARATOR tokenValue stream
    else if hasKey ternarySymbols tokenString then
      readTokenFinish TokenKind.TERNARY tokenValue stream
    else
      Result.ok (ExpressionToken.zero, false, some ("Invalid token: '" ++ tokenString ++ "'"), stream)

/-- The loop of the source's `readToken`, unrolled at most `fuel` times; only
    the skipping of white space iterates. -/
def readTokenLoop (L : Library) (state : lexerState)
    (functions : String → Option ExpressionFunction) : Nat → lexerStream → ReadTokenReturn
  | 0, _ => Result.fuel
  | fuel + 1, stream =>
    if !stream.canRead then readTokenFinish TokenKind.UNKNOWN TokenValue.nil stream
    else
      match stream.readCharacter with
      | Result.panic => Result.panic
      | Result.fuel => Result.fuel
      | Result.ok (character, stream) =>
        if unicodeIsSpace character then readTokenLoop L state functions fuel stream
        else if isNumeric L.unicode character then readTokenNumeric L character stream
        else if character = ',' then
          readTokenFinish TokenKind.SEPARATOR (TokenValue.string ",") stream
        else if character = '[' then
          match readUntilFalse stream true false isNotClosingBracket with
          | Result.panic => Result.panic
          | Result.fuel => Result.fuel
          | Result.ok (tokenValue, completed, stream) =>
            if !completed then readTokenError "Unclosed parameter bracket" stream
            else readTokenFinish TokenKind.VARIABLE (TokenValue.string tokenValue) (stream.rewind (-1))
        else if unicodeIsLetter L.unicode character then readTokenVariable L functions stream
        else if !isNotQuote character then
          match readUntilFalse stream true false isNotQuote with
          | Result.panic => Result.panic
          | Result.fuel => Result.fuel
          | Result.ok (tokenValue, completed, stream) =>
            if !completed then readTokenError "Unclosed string literal" stream
            else
              match L.tryParseTime tokenValue with
              | some tokenTime =>
                readTokenFinish TokenKind.TIME (TokenValue.time tokenTime) (stream.rewind (-1))
              | none =>
                readTokenFinish TokenKind.STRING (TokenValue.string tokenValue) (stream.rewind (-1))
        else if character = '(' then
          readTokenFinish TokenKind.CLAUSE (TokenValue.rune character) stream
        else if character = ')' then
          readTokenFinish TokenKind.CLAUSE_CLOSE (TokenValue.rune character) stream
        else readTokenSymbol L state stream

/-- The source's `readToken`. -/
def readToken (L : Library) (stream : lexerStream) (state : lexerState)
    (functions : String → Option ExpressionFunction) : ReadTokenReturn :=
  readTokenLoop L state functions stream.remaining stream

/-! ## Regex precompilation (`parsing.go`) -/

/-- The loop `for index, token = range tokens` of the source's
    `optimizeTokens`: `remaining` iterations are left and the range stands at
    `index`. The list is the slice, which the loop updates in place. A symbol
    text that is no key of `comparatorSymbols` yields the zero symbol, which is
    neither `REQ` nor `NREQ`. `compile` is `regexp.Compile`. -/
def optimizeTokensLoop (compile : String → Except String Regexp) :
    Nat → Nat → List ExpressionToken → Result (List ExpressionToken × error)
  | 0, _, tokens => Result.ok (tokens, none)
  | remaining + 1, index, tokens =>
    match tokens.get? index with
    | none => Result.panic
    | some token =>
      if token.Kind ≠ TokenKind.COMPARATOR then
        optimizeTokensLoop compile remaining (index + 1) tokens
      else
        match token.Value with
        | TokenValue.string text =>
          if comparatorSymbols.lookup text ≠ some OperatorSymbol.REQ ∧
              comparatorSymbols.lookup text ≠ some OperatorSymbol.NREQ then
            optimizeTokensLoop compile remaining (index + 1) tokens
          else
            match tokens.get? (index + 1) with
            | none => Result.panic
            | some token =>
              if token.Kind = TokenKind.STRING then
                match token.Value with
                | TokenValue.string expr =>
                  match compile expr with
                  | Except.error err => Result.ok (tokens, some err)
                  | Except.ok compiled =>
                    optimizeTokensLoop compile remaining (index + 1)
                      (tokens.set (index + 1)
                        { Kind := TokenKind.PATTERN, Value := TokenValue.pattern compiled })
                | _ => Result.panic
              else optimizeTokensLoop compile remaining (index + 1) tokens
        | _ => Result.panic

/-- The source's `optimizeTokens`. -/
def optimizeTokens (compile : String → Except String Regexp) (tokens : List ExpressionToken) :
    Result (List ExpressionToken × error) :=
  optimizeTokensLoop compile tokens.length 0 tokens

/-! ## The balance check (`tokenStream.go`, `parsing.go`) -/

/-- The source's `tokenStream`. -/
structure tokenStream where
  tokens : List ExpressionToken
  index : Int
  tokenLength : Int

/-- The source's `newTokenStream`. -/
def newTokenStream (tokens : List ExpressionToken) : tokenStream :=
  { tokens := tokens, index := 0, tokenLength := tokens.length }

/-- The source's `tokenStream.rewind`. -/
def tokenStream.rewind (s : tokenStream) : tokenStream :=
  { s with index := s.index - 1 }

/-- The source's `tokenStream.next`; indexing outside `tokens` panics. -/
def tokenStream.next (s : tokenStream) : Result (ExpressionToken × tokenStream) :=
  if 0 ≤ s.index then
    match s.tokens.get? s.index.toNat with
    | some t => Result.ok (t, { s with index := s.index + 1 })
    | none => Result.panic
  else Result.panic

/-- The source's `tokenStream.hasNext`. -/
def tokenStream.hasNext (s : tokenStream) : Bool :=
  decide (s.index < s.tokenLength)

/-- The loop of the source's `checkBalance`, unrolled at most `fuel` times;
    the result is the final value of `parens`. -/
def checkBalanceLoop : Nat → tokenStream → Int → Result Int
  | 0, _, _ => Result.fuel
  | fuel + 1, stream, parens =>
    if !stream.hasNext then Result.ok parens
    else
      match stream.next with
      | Result.panic => Result.panic
      | Result.fuel => Result.fuel
      | Result.ok (token, stream) =>
        if token.Kind = TokenKind.CLAUSE then checkBalanceLoop fuel stream (parens + 1)
        else if token.Kind = TokenKind.CLAUSE_CLOSE then checkBalanceLoop fuel stream (parens - 1)
        else checkBalanceLoop fuel stream parens

/-- The source's `checkBalance`. -/
def checkBalance (tokens : List ExpressionToken) : Result error :=
  match checkBalanceLoop (tokens.length + 1) (newTokenStream tokens) 0 with
  | Result.panic => Result.panic
  | Result.fuel => Result.fuel
  | Result.ok parens => if parens ≠ 0 then Result.ok (some "Unbalanced parenthesis") else Result.ok none

/-! ## The main loop of the lexer (`parsing.go`) -/

/-- Modelled from the spec: the token state machine of section 3.5 as
    `parseTokens` reads it (the declarations of `validLexerStates` and
    `getLexerStateForToken` are not among the sources). `initial` is
    `validLexerStates[0]`, the state an expression begins in;
    `getLexerStateForToken` gives the state indexed by a token kind, and the
    error of the lookup. -/
structure lexerStates where
  initial : lexerState
  getLexerStateForToken : TokenKind → lexerState × error

/-- The loop `for stream.canRead()` of the source's `parseTokens`, unrolled at
    most `fuel` times. An error in the result is a `return ret, err` from
    inside the loop; no error means that the loop was left normally. -/
def parseTokensLoop (L : Library) (states : lexerStates)
    (functions : String → Option ExpressionFunction) :
    Nat → lexerStream → lexerState → List ExpressionToken → Result (List ExpressionToken × error)
  | 0, _, _, _ => Result.fuel
  | fuel + 1, stream, state, ret =>
    if !stream.canRead then Result.ok (ret, none)
    else
      match readToken L stream state functions with
      | Result.panic => Result.panic
      | Result.fuel => Result.fuel
      | Result.ok (token, found, err, stream) =>
        match err with
        | some e => Result.ok (ret, some e)
        | none =>
          if !found then Result.ok (ret, none)
          else
            match states.getLexerStateForToken token.Kind with
            | (_, some e) => Result.ok (ret, some e)
            | (state, none) =>
              parseTokensLoop L states functions fuel stream state (ret ++ [token])

/-- The source's `parseTokens`. -/
def parseTokens (L : Library) (states : lexerStates) (expression : String)
    (functions : String → Option ExpressionFunction) : Result (List ExpressionToken × error) :=
  let stream := newLexerStream expression
  match parseTokensLoop L states functions stream.remaining stream states.initial [] with
  | Result.panic => Result.panic
  | Result.fuel => Result.fuel
  | Result.ok (ret, some err) => Result.ok (ret, some err)
  | Result.ok (ret, none) =>
    match checkBalance ret with
    | Result.panic => Result.panic
    | Result.fuel => Result.fuel
    | Result.ok (some err) => Result.ok ([], some err)
    | Result.ok none => Result.ok (ret, none)

/-! ## Notions the statements below are phrased in -/

/-- Proper nesting from depth `depth`: no `CLAUSE_CLOSE` arrives at depth zero
    and the depth is zero at the end. -/
def nestedFrom : Nat → List ExpressionToken → Bool
  | depth, [] => decide (depth = 0)
  | depth, token :: rest =>
    if token.Kind = TokenKind.CLAUSE then nestedFrom (depth + 1) rest
    else if token.Kind = TokenKind.CLAUSE_CLOSE then
      match depth with
      | 0 => false
      | d + 1 => nestedFrom d rest
    else nestedFrom depth rest

/-- The parentheses of a token list are properly nested. -/
def properlyNested (tokens : List ExpressionToken) : Bool := nestedFrom 0 tokens

/-- The number of `CLAUSE` tokens minus the number of `CLAUSE_CLOSE` tokens. -/
def parenSurplus : List ExpressionToken → Int
  | [] => 0
  | token :: rest =>
    if token.Kind = TokenKind.CLAUSE then parenSurplus rest + 1
    else if token.Kind = TokenKind.CLAUSE_CLOSE then parenSurplus rest - 1
    else parenSurplus rest

/-- The token stream over `pre ++ rest` that stands after `pre`. -/
def tokenStream.split (pre rest : List ExpressionToken) : tokenStream :=
  { tokens := pre ++ rest, index := pre.length, tokenLength := (pre ++ rest).length }

/-- The character stream over `pre ++ rest` that stands after `pre`. -/
def lexerStream.split (pre rest : List Char) : lexerStream :=
  { source := pre ++ rest, position := pre.length, length := (pre ++ rest).length }

/-- Applying a function to the value of a normal return. -/
def Result.map {α β : Type} (f : α → β) : Result α → Result β
  | Result.ok a => Result.ok (f a)
  | Result.panic => Result.panic
  | Result.fuel => Result.fuel

/-- The run that `readUntilFalse` reads, told on the unread characters alone:
    the text read (continuing `tokenBuffer`), the flag `conditioned`, the
    characters the stream has moved past, and the characters left unread. -/
def scanRun (includeWhitespace breakWhitespace : Bool) (condition : Char → Bool) :
    List Char → String → Result (String × Bool × List Char × List Char)
  | [], tokenBuffer => Result.ok (tokenBuffer, false, [], [])
  | c :: rest, tokenBuffer =>
    if c = '\\' then
      match rest with
      | [] => Result.panic
      | d :: rest2 =>
        (scanRun includeWhitespace breakWhitespace condition rest2 (tokenBuffer.push d)).map
          (fun r => (r.1, r.2.1, c :: d :: r.2.2.1, r.2.2.2))
    else if unicodeIsSpace c && (breakWhitespace && decide (0 < tokenBuffer.length)) then
      Result.ok (tokenBuffer, true, [c], rest)
    else if unicodeIsSpace c && !includeWhitespace then
      (scanRun includeWhitespace breakWhitespace condition rest tokenBuffer).map
        (fun r => (r.1, r.2.1, c :: r.2.2.1, r.2.2.2))
    else if condition c then
      (scanRun includeWhitespace breakWhitespace condition rest (tokenBuffer.push c)).map
        (fun r => (r.1, r.2.1, c :: r.2.2.1, r.2.2.2))
    else Result.ok (tokenBuffer, true, [], c :: rest)

/-- The body of a string literal with each escaping backslash removed and the
    code point after it kept. -/
def unescape : List Char → List Char
  | [] => []
  | c :: rest =>
    if c = '\\' then
      match rest with
      | [] => []
      | d :: rest2 => d :: unescape rest2
    else c :: unescape rest

/-- No quote character of the text is unescaped, and the text does not end in
    a backslash that escapes nothing. -/
def closedBody : List Char → Bool
  | [] => true
  | c :: rest =>
    if c = '\\' then
      match rest with
      | [] => false
      | _ :: rest2 => closedBody rest2
    else isNotQuote c && closedBody rest

/-- The token `readToken` makes of the payload of a string literal: a TIME
    token when the payload parses as a timestamp, a STRING token otherwise. -/
def stringLiteralToken (L : Library) (payload : String) : ExpressionToken :=
  match L.tryParseTime payload with
  | some tokenTime => { Kind := TokenKind.TIME, Value := TokenValue.time tokenTime }
  | none => { Kind := TokenKind.STRING, Value := TokenValue.string payload }

/-- A lexer state that allows no token kind. -/
def deadState : lexerState := { validNextKinds := [] }

/-- An empty function table. -/
def noFunctions : String → Option ExpressionFunction := fun _ => none

/-- The hexadecimal digits `0`-`9`, `a`-`f`, `A`-`F`. -/
def asciiHexDigits : List Char := "0123456789abcdefABCDEF".toList

/-- The number a list of hexadecimal digits writes, continuing from `n`. -/
def hexValueFrom : List Char → Nat → Nat
  | [], n => n
  | c :: cs, n => hexValueFrom cs (n * 16 + (digitValue c).getD 0)

/-- The number a list of hexadecimal digits writes. -/
def hexValue (digits : List Char) : Nat := hexValueFrom digits 0

/-- The payload is a string. -/
def TokenValue.isString : TokenValue → Bool
  | TokenValue.string _ => true
  | _ => false

/-- The token is a COMPARATOR whose symbol is `=~` or `!~`. -/
def isRegexComparator (token : ExpressionToken) : Bool :=
  match token.Value with
  | TokenValue.string text =>
    token.Kind == TokenKind.COMPARATOR &&
      (comparatorSymbols.lookup text == some OperatorSymbol.REQ ||
        comparatorSymbols.lookup text == some OperatorSymbol.NREQ)
  | _ => false

/-- Every `=~` or `!~` COMPARATOR of the list is followed by another token. -/
def regexComparatorsFollowed : List ExpressionToken → Bool
  | [] => true
  | token :: rest =>
    (if isRegexComparator token then !rest.isEmpty else true) && regexComparatorsFollowed rest

/-- The tokens are typed the way the lexer types them: a COMPARATOR token
    carries its symbol text and a STRING token carries a string. -/
def lexerTyped (token : ExpressionToken) : Prop :=
  (token.Kind = TokenKind.COMPARATOR ∨ token.Kind = TokenKind.STRING) →
    ∃ text, token.Value = TokenValue.string text

/-- Putting a token in front of a list that was computed without error. -/
def consToken (token : ExpressionToken) :
    Except String (List ExpressionToken) → Except String (List ExpressionToken)
  | Except.ok tokens => Except.ok (token :: tokens)
  | Except.error err => Except.error err

/-- The regex precompilation as the specification words it: going through the
    list, a token is replaced by the PATTERN token of its compiled regex
    exactly when it is a STRING token that stands immediately after a `=~` or
    `!~` COMPARATOR (`afterRegex`), every other token is kept, and the first
    expression that does not compile gives its compile error. -/
def patternsExpected (compile : String → Except String Regexp) :
    Bool → List ExpressionToken → Except String (List ExpressionToken)
  | _, [] => Except.ok []
  | afterRegex, token :: rest =>
    if afterRegex && token.Kind == TokenKind.STRING then
      match token.Value with
      | TokenValue.string expr =>
        match compile expr with
        | Except.error err => Except.error err
        | Except.ok compiled =>
          consToken { Kind := TokenKind.PATTERN, Value := TokenValue.pattern compiled }
            (patternsExpected compile false rest)
      | _ => consToken token (patternsExpected compile false rest)
    else consToken token (patternsExpected compile (isRegexComparator token) rest)

/-- The regex precompilation told on the tokens from the current one on: the
    list the loop of `optimizeTokens` leaves for them, and its error. -/
def rewriteTokens (compile : String → Except String Regexp) :
    List ExpressionToken → Result (List ExpressionToken × error)
  | [] => Result.ok ([], none)
  | token :: rest =>
    if isRegexComparator token then
      match rest with
      | [] => Result.panic
      | operand :: rest2 =>
        if operand.Kind = TokenKind.STRING then
          match operand.Value with
          | TokenValue.string expr =>
            match compile expr with
            | Except.error err => Result.ok (token :: operand :: rest2, some err)
            | Except.ok compiled =>
              (rewriteTokens compile rest2).map (fun r =>
                (token :: { Kind := TokenKind.PATTERN, Value := TokenValue.pattern compiled } :: r.1,
                  r.2))
          | _ => Result.panic
        else (rewriteTokens compile (operand :: rest2)).map (fun r => (token :: r.1, r.2))
    else if token.Kind == TokenKind.COMPARATOR && !token.Value.isString then Result.panic
    else (rewriteTokens compile rest).map (fun r => (token :: r.1, r.2))

/-- What `readToken` makes of the identifier `tokenString` once it has read
    it: the statements of the variable branch behind `readTokenUntilFalse`. -/
def identifierOutcome (L : Library) (functions : String → Option ExpressionFunction)
    (tokenString : String) (stream : lexerStream) : ReadTokenReturn :=
  let (kind, tokenValue) := (TokenKind.VARIABLE, TokenValue.string tokenString)
  let (kind, tokenValue) :=
    if tokenString = "true" then (TokenKind.BOOLEAN, TokenValue.bool true)
    else if tokenString = "false" then (TokenKind.BOOLEAN, TokenValue.bool false)
    else (kind, tokenValue)
  let (kind, tokenValue) :=
    if tokenString = "in" ∨ tokenString = "IN" then (TokenKind.COMPARATOR, TokenValue.string "in")
    else (kind, tokenValue)
  let (kind, tokenValue) :=
    match functions tokenString with
    | some function => (TokenKind.FUNCTION, TokenValue.function function)
    | none => (kind, tokenValue)
  if 0 < stringsIndexDot tokenString then
    if tokenString.toList.getLast? = some '.' then
      readTokenError ("Hanging accessor on token '" ++ tokenString ++ "'") stream
    else
      let splits := splitOnDot tokenString.toList
      match (splits.drop 1).find?
          (fun split => unicodeToUpper L.unicode (getFirstRune split) ≠ getFirstRune split) with
      | some split =>
        readTokenError ("Unable to access unexported field '" ++ split ++ "' in token '" ++
          tokenString ++ "'") stream
      | none => readTokenFinish TokenKind.ACCESSOR (TokenValue.strings splits) stream
  else readTokenFinish kind tokenValue stream

/-- A function table that registers `function` under `name` and nothing else. -/
def singleFunction (name : String) (function : ExpressionFunction) :
    String → Option ExpressionFunction :=
  fun key => if key = name then some function else none

/-- A function that returns `nil` and no error. -/
def nilFunction : ExpressionFunction := fun _ => (Value.null, none)

/-- Tables that agree with Go's on the letter `ß` (U+00DF): a lower-case
    letter that `unicode.ToUpper` maps to itself. -/
def sharpSTables : UnicodeTables :=
  { isDigit := fun _ => false, isLetter := fun c => c = 'ß', toLower := id, toUpper := id }

/-- A library over `sharpSTables` in which no text is a timestamp. -/
def sharpSLibrary : Library :=
  { unicode := sharpSTables, parseFloatOther := fun _ => none, tryParseTime := fun _ => none }

/-- An address for the value compiled from an expression, different for
    different expressions. -/
def sampleAddress (expr : String) : Nat :=
  expr.toList.foldl (fun n c => n * 1114112 + (c.toNat + 1)) 0

/-- A `regexp.Compile` that accepts every expression but `(`. -/
def sampleCompile : String → Except String Regexp :=
  fun expr =>
    if expr = "(" then Except.error "missing closing )"
    else Except.ok { expr := expr, address := sampleAddress expr }

/-- The tokens of `x =~ "^a"`. -/
def sampleRegexTokens : List ExpressionToken :=
  [{ Kind := TokenKind.VARIABLE, Value := TokenValue.string "x" },
   { Kind := TokenKind.COMPARATOR, Value := TokenValue.string "=~" },
   { Kind := TokenKind.STRING, Value := TokenValue.string "^a" }]

/-- The unread characters `name ++ rest` start with the identifier `name`:
    its first character is a letter, all its characters belong to variable
    names (none is a backslash or white space), and `rest` is empty or starts
    with white space or with a character that belongs to no variable name. -/
def identifierAt (U : UnicodeTables) (name rest : List Char) : Prop :=
  (∃ c cs, name = c :: cs ∧ unicodeIsLetter U c = true ∧ isNumeric U c = false) ∧
  (∀ x ∈ name, x ≠ '\\' ∧ unicodeIsSpace x = false ∧ isVariableName U x = true) ∧
  (rest = [] ∨ ∃ d tail, rest = d :: tail ∧ d ≠ '\\' ∧
    (unicodeIsSpace d = true ∨ isVariableName U d = false))

/-- The lower-case letters `a`-`z`. -/
def asciiLowercase : List Char := "abcdefghijklmnopqrstuvwxyz".toList

/-- What holds of every ACCESSOR token the lexer makes: its value is an
    identifier split at every `.`, the identifier does not end in `.`, and no
    segment behind the first begins with a character that `unicode.ToUpper`
    changes. -/
def accessorInvariant (L : Library) (token : ExpressionToken) : Prop :=
  token.Kind = TokenKind.ACCESSOR →
    ∃ tokenString : String,
      token.Value = TokenValue.strings (splitOnDot tokenString.toList) ∧
      tokenString.toList.getLast? ≠ some '.' ∧
      ∀ segment ∈ (splitOnDot tokenString.toList).drop 1,
        unicodeToUpper L.unicode (getFirstRune segment) = getFirstRune segment

/-- Every token a call of `readToken` returns satisfies `P`. -/
def returnsWith (P : ExpressionToken → Prop) (r : ReadTokenReturn) : Prop :=
  ∀ token found err stream, r = Result.ok (token, found, err, stream) → P token

/-- The stream stands inside its source: `length` is the number of code
    points and `0 ≤ position ≤ length`. -/
def lexerStream.inBounds (s : lexerStream) : Prop :=
  s.length = (s.source.length : Int) ∧ 0 ≤ s.position ∧ s.position ≤ s.length

/-- What a return of `readUntilFalse` started on `s` with the text `buffer`
    satisfies: the unrolling was long enough, the stream is still over the same
    source and in bounds, it did not move back, it stands before the end when the
    scan was stopped by a character that fails the condition, and no character was
    added to the text when it did not move. -/
def scanBounded (s : lexerStream) (breakWhitespace : Bool) (buffer : String)
    (r : Result (String × Bool × lexerStream)) : Prop :=
  r ≠ Result.fuel ∧
  ∀ text completed stream, r = Result.ok (text, completed, stream) →
    stream.source = s.source ∧ stream.length = s.length ∧ s.position ≤ stream.position ∧
    stream.position ≤ s.length ∧
    (completed = true → breakWhitespace = false → stream.position < s.length) ∧
    (stream.position = s.position → text = buffer)

/-- What a return of `readToken` satisfies when the call started at `position`
    of a source of `length` code points: the unrolling was long enough, the
    stream is over the same source and in bounds, and it stands behind
    `position` when a token is yielded. -/
def readBounded (source : List Char) (length position : Int) (r : ReadTokenReturn) : Prop :=
  r ≠ Result.fuel ∧
  ∀ token found err stream, r = Result.ok (token, found, err, stream) →
    stream.source = source ∧ stream.length = length ∧ 0 ≤ stream.position ∧
    stream.position ≤ length ∧ (found = true → position < stream.position)

/-- The initial state of section 3.5: the kinds that may begin an expression
    (literals, variables, functions, prefix, open clause, accessor). -/
def initialState : lexerState :=
  { validNextKinds := [TokenKind.PREFIX, TokenKind.NUMERIC, TokenKind.BOOLEAN, TokenKind.STRING,
      TokenKind.PATTERN, TokenKind.TIME, TokenKind.VARIABLE, TokenKind.FUNCTION,
      TokenKind.CLAUSE, TokenKind.ACCESSOR] }

/-- A state in which an operator, a separator or a closing clause may come next. -/
def afterOperandState : lexerState :=
  { validNextKinds := [TokenKind.MODIFIER, TokenKind.COMPARATOR, TokenKind.LOGICALOP,
      TokenKind.TERNARY, TokenKind.SEPARATOR, TokenKind.CLAUSE_CLOSE] }

/-- A state in which only an open clause may come next. -/
def afterFunctionState : lexerState := { validNextKinds := [TokenKind.CLAUSE] }

/-- A sample state table in the sense of section 3.5. An expression begins in
    `initialState`, which is also the state after an operator, a separator or
    an open clause (where section 4.2 lets `-` be a prefix);
    `afterOperandState` follows an operand or a closing clause, and
    `afterFunctionState` a function name. No lookup fails. -/
def sampleStates : lexerStates :=
  { initial := initialState,
    getLexerStateForToken := fun kind =>
      match kind with
      | TokenKind.NUMERIC | TokenKind.BOOLEAN | TokenKind.STRING | TokenKind.PATTERN
      | TokenKind.TIME | TokenKind.VARIABLE | TokenKind.ACCESSOR | TokenKind.CLAUSE_CLOSE =>
        (afterOperandState, none)
      | TokenKind.FUNCTION => (afterFunctionState, none)
      | _ => (initialState, none) }

/-- The state table `states` with every allowed set cut down to PREFIX, where
    it had PREFIX, and to nothing elsewhere. -/
def lexerStates.onlyPrefixKept (states : lexerStates) : lexerStates :=
  let cut (state : lexerState) : lexerState :=
    { validNextKinds := state.validNextKinds.filter (fun kind => kind = TokenKind.PREFIX) }
  { initial := cut states.initial,
    getLexerStateForToken := fun kind =>
      (cut (states.getLexerStateForToken kind).1, (states.getLexerStateForToken kind).2) }

/-- Two state tables answer alike what `parseTokens` asks of them: whether
    PREFIX may come next, in the initial state and in the state of each token
    kind, and whether the lookup of that state gives an error. -/
def lexerStates.sameAnswers (a b : lexerStates) : Prop :=
  a.initial.canTransitionTo TokenKind.PREFIX = b.initial.canTransitionTo TokenKind.PREFIX ∧
  ∀ kind : TokenKind,
    (a.getLexerStateForToken kind).2 = (b.getLexerStateForToken kind).2 ∧
    (a.getLexerStateForToken kind).1.canTransitionTo TokenKind.PREFIX =
      (b.getLexerStateForToken kind).1.canTransitionTo TokenKind.PREFIX

/-- The last token of the list is a `=~` or `!~` COMPARATOR. -/
def endsInRegexComparator (tokens : List ExpressionToken) : Bool :=
  match tokens.getLast? with
  | some token => isRegexComparator token
  | none => false

/-- The tokens of the text `x =~`. -/
def trailingRegexTokens : List ExpressionToken :=
  [{ Kind := TokenKind.VARIABLE, Value := TokenValue.string "x" },
   { Kind := TokenKind.COMPARATOR, Value := TokenValue.string "=~" }]

/-- The integer a rational number is truncated to: the fraction is dropped,
    toward zero. -/
def truncateTowardZero (q : ℚ) : Int := if 0 ≤ q then ⌊q⌋ else ⌈q⌉

/-- A resolver that knows no name. -/
def noParameters : Parameters := { Get := fun name => (Value.null, some ("No parameter '" ++ name ++ "' found.")) }

/-! # Theorems -/

/-! ## Indexing at the end of a prefix -/

theorem getElem?_at_prefix {α : Type} (pre : List α) (x : α) (rest : List α) :
    (pre ++ x :: rest)[pre.length]? = some x := by
  induction pre with
  | nil => simp
  | cons p pre ih => simpa using ih

theorem get?_at_prefix {α : Type} (pre : List α) (x : α) (rest : List α) :
    (pre ++ x :: rest).get? pre.length = some x := by
  rw [List.get?_eq_getElem?]; exact getElem?_at_prefix pre x rest

theorem get?_at_end {α : Type} (pre : List α) : pre.get? pre.length = none := by
  rw [List.get?_eq_getElem?]; simp

/-! ## The character stream -/

theorem lexerStream.canRead_split_nil (pre : List Char) :
    (lexerStream.split pre []).canRead = false := by
  simp [lexerStream.canRead, lexerStream.split]

theorem lexerStream.canRead_split_cons (pre : List Char) (c : Char) (rest : List Char) :
    (lexerStream.split pre (c :: rest)).canRead = true := by
  simp [lexerStream.canRead, lexerStream.split]

theorem lexerStream.readCharacter_split_nil (pre : List Char) :
    (lexerStream.split pre []).readCharacter = Result.panic := by
  simp only [lexerStream.readCharacter, lexerStream.split, List.append_nil, Int.toNat_ofNat,
    get?_at_end]
  simp

theorem lexerStream.readCharacter_split_cons (pre : List Char) (c : Char) (rest : List Char) :
    (lexerStream.split pre (c :: rest)).readCharacter =
      Result.ok (c, lexerStream.split (pre ++ [c]) rest) := by
  simp only [lexerStream.readCharacter, lexerStream.split, get?_at_prefix, Int.toNat_ofNat]
  simp

theorem lexerStream.rewind_split (pre : List Char) (c : Char) (rest : List Char) :
    (lexerStream.split (pre ++ [c]) rest).rewind 1 = lexerStream.split pre (c :: rest) := by
  simp [lexerStream.rewind, lexerStream.split]

theorem lexerStream.advance_split (pre : List Char) (c : Char) (rest : List Char) :
    (lexerStream.split pre (c :: rest)).rewind (-1) = lexerStream.split (pre ++ [c]) rest := by
  simp [lexerStream.rewind, lexerStream.split]

theorem lexerStream.remaining_split (pre rest : List Char) :
    (lexerStream.split pre rest).remaining = rest.length + 1 := by
  simp [lexerStream.remaining, lexerStream.split]

theorem newLexerStream_eq_split (source : String) :
    newLexerStream source = lexerStream.split [] source.toList := by
  simp [newLexerStream, lexerStream.split]

/-! ## `readUntilFalse` on the unread characters -/

theorem scanRun_nil (includeWhitespace breakWhitespace : Bool) (condition : Char → Bool)
    (tokenBuffer : String) :
    scanRun includeWhitespace breakWhitespace condition [] tokenBuffer =
      Result.ok (tokenBuffer, false, [], []) := by
  rw [scanRun.eq_def]

theorem scanRun_cons (includeWhitespace breakWhitespace : Bool) (condition : Char → Bool)
    (c : Char) (rest : List Char) (tokenBuffer : String) :
    scanRun includeWhitespace breakWhitespace condition (c :: rest) tokenBuffer =
      if c = '\\' then
        match rest with
        | [] => Result.panic
        | d :: rest2 =>
          (scanRun includeWhitespace breakWhitespace condition rest2 (tokenBuffer.push d)).map
            (fun r => (r.1, r.2.1, c :: d :: r.2.2.1, r.2.2.2))
      else if unicodeIsSpace c && (breakWhitespace && decide (0 < tokenBuffer.length)) then
        Result.ok (tokenBuffer, true, [c], rest)
      else if unicodeIsSpace c && !includeWhitespace then
        (scanRun includeWhitespace breakWhitespace condition rest tokenBuffer).map
          (fun r => (r.1, r.2.1, c :: r.2.2.1, r.2.2.2))
      else if condition c then
        (scanRun includeWhitespace breakWhitespace condition rest (tokenBuffer.push c)).map
          (fun r => (r.1, r.2.1, c :: r.2.2.1, r.2.2.2))
      else Result.ok (tokenBuffer, true, [], c :: rest) := by
  rw [scanRun.eq_def]

theorem readUntilFalseLoop_split (includeWhitespace breakWhitespace : Bool)
    (condition : Char → Bool) (n : Nat) :
    ∀ (rest pre : List Char) (tokenBuffer : String) (fuel : Nat),
      rest.length ≤ n → rest.length < fuel →
      readUntilFalseLoop includeWhitespace breakWhitespace condition fuel
          (lexerStream.split pre rest) tokenBuffer =
        (scanRun includeWhitespace breakWhitespace condition rest tokenBuffer).map
          (fun r => (r.1, r.2.1, lexerStream.split (pre ++ r.2.2.1) r.2.2.2)) := by
  induction n with
  | zero =>
    intro rest pre tokenBuffer fuel hn hfuel
    have hrest : rest = [] := List.length_eq_zero.mp (Nat.le_zero.mp hn)
    subst hrest
    cases fuel with
    | zero => simp at hfuel
    | succ fuel =>
      simp [readUntilFalseLoop, lexerStream.canRead_split_nil, scanRun_nil, Result.map]
  | succ n ih =>
    intro rest pre tokenBuffer fuel hn hfuel
    cases fuel with
    | zero => simp at hfuel
    | succ fuel =>
      cases rest with
      | nil => simp [readUntilFalseLoop, lexerStream.canRead_split_nil, scanRun_nil, Result.map]
      | cons c rest =>
        have hn1 : rest.length ≤ n := by simpa using hn
        have hf1 : rest.length < fuel := by simpa using hfuel
        rw [readUntilFalseLoop, scanRun_cons]
        simp only [lexerStream.canRead_split_cons, lexerStream.readCharacter_split_cons,
          Bool.not_true, Bool.false_eq_true, if_false]
        by_cases hc : c = '\\'
        · simp only [hc, if_true]
          cases rest with
          | nil => simp [lexerStream.readCharacter_split_nil, Result.map]
          | cons d rest2 =>
            have hn2 : rest2.length ≤ n := by simp at hn1; omega
            have hf2 : rest2.length < fuel := by simp at hf1; omega
            simp only [lexerStream.readCharacter_split_cons]
            rw [ih rest2 _ _ fuel hn2 hf2]
            cases scanRun includeWhitespace breakWhitespace condition rest2 (tokenBuffer.push d) <;>
              simp [Result.map]
        · simp only [hc, if_false]
          by_cases h1 : (unicodeIsSpace c && (breakWhitespace && decide (0 < tokenBuffer.length))) = true
          · simp [h1, Result.map]
          · simp only [h1, if_false, Bool.false_eq_true]
            by_cases h2 : (unicodeIsSpace c && !includeWhitespace) = true
            · simp only [h2, if_true]
              rw [ih rest _ _ fuel hn1 hf1]
              cases scanRun includeWhitespace breakWhitespace condition rest tokenBuffer <;>
                simp [Result.map]
            · simp only [h2, if_false, Bool.false_eq_true]
              by_cases h3 : condition c = true
              · simp only [h3, if_true]
                rw [ih rest _ _ fuel hn1 hf1]
                cases scanRun includeWhitespace breakWhitespace condition rest (tokenBuffer.push c) <;>
                  simp [Result.map]
              · simp [h3, Result.map, lexerStream.rewind_split]

/-- The source's `readUntilFalse` computes `scanRun` on the unread characters
    and leaves the stream after the characters it has moved past. -/
theorem readUntilFalse_split (includeWhitespace breakWhitespace : Bool)
    (condition : Char → Bool) (pre rest : List Char) :
    readUntilFalse (lexerStream.split pre rest) includeWhitespace breakWhitespace condition =
      (scanRun includeWhitespace breakWhitespace condition rest "").map
        (fun r => (r.1, r.2.1, lexerStream.split (pre ++ r.2.2.1) r.2.2.2)) := by
  rw [readUntilFalse, lexerStream.remaining_split]
  exact readUntilFalseLoop_split _ _ _ rest.length rest pre "" _ (Nat.le_refl _) (Nat.lt_succ_self _)

/-! ## String literals -/

theorem unescape_cons (c : Char) (rest : List Char) :
    unescape (c :: rest) =
      if c = '\\' then
        match rest with
        | [] => []
        | d :: rest2 => d :: unescape rest2
      else c :: unescape rest := by
  rw [unescape.eq_def]

theorem closedBody_cons (c : Char) (rest : List Char) :
    closedBody (c :: rest) =
      if c = '\\' then
        match rest with
        | [] => false
        | _ :: rest2 => closedBody rest2
      else isNotQuote c && closedBody rest := by
  rw [closedBody.eq_def]

theorem String.push_append_mk (s : String) (c : Char) (l : List Char) :
    s.push c ++ String.mk l = s ++ String.mk (c :: l) := by
  apply String.ext
  simp [String.data_push, String.data_append]

theorem String.append_mk_nil (s : String) : s ++ String.mk [] = s := by
  apply String.ext
  simp [String.data_append]

/-- On a body without unescaped quote that does not end in a lone backslash,
    the string mode of `readUntilFalse` reads the unescaped body: it stops in
    front of the next quote character, or at the end of the text. -/
theorem scanRun_string (n : Nat) :
    ∀ (body : List Char) (tokenBuffer : String), body.length ≤ n → closedBody body = true →
      (∀ (q : Char) (rest : List Char), isNotQuote q = false →
        scanRun true false isNotQuote (body ++ q :: rest) tokenBuffer =
          Result.ok (tokenBuffer ++ String.mk (unescape body), true, body, q :: rest)) ∧
      scanRun true false isNotQuote body tokenBuffer =
        Result.ok (tokenBuffer ++ String.mk (unescape body), false, body, []) ∧
      scanRun true false isNotQuote (body ++ ['\\']) tokenBuffer = Result.panic := by
  induction n with
  | zero =>
    intro body tokenBuffer hn _
    have hbody : body = [] := List.length_eq_zero.mp (Nat.le_zero.mp hn)
    subst hbody
    refine ⟨?_, ?_, ?_⟩
    · intro q rest hq
      have hq2 : q ≠ '\\' := by intro h; rw [h] at hq; simp [isNotQuote] at hq
      simp [scanRun_cons, hq, hq2, unescape, String.append_mk_nil]
    · simp [scanRun_nil, unescape, String.append_mk_nil]
    · simp [scanRun_cons]
  | succ n ih =>
    intro body tokenBuffer hn hclosed
    cases body with
    | nil =>
      refine ⟨?_, ?_, ?_⟩
      · intro q rest hq
        have hq2 : q ≠ '\\' := by intro h; rw [h] at hq; simp [isNotQuote] at hq
        simp [scanRun_cons, hq, hq2, unescape, String.append_mk_nil]
      · simp [scanRun_nil, unescape, String.append_mk_nil]
      · simp [scanRun_cons]
    | cons c body =>
      rw [closedBody_cons] at hclosed
      by_cases hc : c = '\\'
      · subst hc
        cases body with
        | nil => simp at hclosed
        | cons d body2 =>
          simp only [if_true] at hclosed
          have hn2 : body2.length ≤ n := by simp at hn; omega
          obtain ⟨ih1, ih2, ih3⟩ := ih body2 (tokenBuffer.push d) hn2 hclosed
          refine ⟨?_, ?_, ?_⟩
          · intro q rest hq
            simp [scanRun_cons, ih1 q rest hq, Result.map, unescape_cons, String.push_append_mk]
          · simp [scanRun_cons, ih2, Result.map, unescape_cons, String.push_append_mk]
          · simp [scanRun_cons, ih3, Result.map]
      · simp only [hc, if_false, Bool.and_eq_true] at hclosed
        have hn1 : body.length ≤ n := by simpa using hn
        obtain ⟨ih1, ih2, ih3⟩ := ih body (tokenBuffer.push c) hn1 hclosed.2
        refine ⟨?_, ?_, ?_⟩
        · intro q rest hq
          simp [scanRun_cons, hc, hclosed.1, ih1 q rest hq, Result.map, unescape_cons,
            String.push_append_mk]
        · simp [scanRun_cons, hc, hclosed.1, ih2, Result.map, unescape_cons,
            String.push_append_mk]
        · simp [scanRun_cons, hc, hclosed.1, ih3, Result.map]

theorem isNotQuote_eq_false (q : Char) : isNotQuote q = false ↔ q = '\'' ∨ q = '"' := by
  simp only [isNotQuote, ne_eq, Bool.and_eq_false_imp, decide_eq_true_eq, decide_eq_false_iff_not,
    not_not]
  tauto

/-- The first character of a string literal: `readToken` reaches its quote
    branch and reads on with `readUntilFalse` in string mode. -/
theorem readToken_quote (L : Library) (state : lexerState)
    (functions : String → Option ExpressionFunction) (pre : List Char) (q : Char)
    (tail : List Char) (hq : isNotQuote q = false) :
    readToken L (lexerStream.split pre (q :: tail)) state functions =
      match readUntilFalse (lexerStream.split (pre ++ [q]) tail) true false isNotQuote with
      | Result.panic => Result.panic
      | Result.fuel => Result.fuel
      | Result.ok (tokenValue, completed, stream) =>
        if !completed then readTokenError "Unclosed string literal" stream
        else
          match L.tryParseTime tokenValue with
          | some tokenTime =>
            readTokenFinish TokenKind.TIME (TokenValue.time tokenTime) (stream.rewind (-1))
          | none =>
            readTokenFinish TokenKind.STRING (TokenValue.string tokenValue) (stream.rewind (-1)) := by
  have hspace : unicodeIsSpace q = false := by
    rcases (isNotQuote_eq_false q).mp hq with h | h <;> subst h <;> decide
  have hnum : isNumeric L.unicode q = false := by
    rcases (isNotQuote_eq_false q).mp hq with h | h <;> subst h <;>
      simp [isNumeric, unicodeIsDigit, inRange]
  have hletter : unicodeIsLetter L.unicode q = false := by
    rcases (isNotQuote_eq_false q).mp hq with h | h <;> subst h <;>
      simp [unicodeIsLetter, inRange]
  have hcomma : q ≠ ',' := by
    rcases (isNotQuote_eq_false q).mp hq with h | h <;> subst h <;> decide
  have hbracket : q ≠ '[' := by
    rcases (isNotQuote_eq_false q).mp hq with h | h <;> subst h <;> decide
  rw [readToken, lexerStream.remaining_split, readTokenLoop]
  simp only [lexerStream.canRead_split_cons, lexerStream.readCharacter_split_cons, hspace, hnum,
    hletter, hcomma, hbracket, hq, Bool.not_true, Bool.not_false, Bool.false_eq_true, if_false,
    if_true]

theorem String.empty_append_mk (l : List Char) : "" ++ String.mk l = String.mk l := by
  apply String.ext
  simp [String.data_append]

/-- A string literal whose body is closed by a quote character of either kind. -/
theorem readToken_string_literal (L : Library) (state : lexerState)
    (functions : String → Option ExpressionFunction) (pre : List Char) (q q2 : Char)
    (body rest : List Char) (hq : isNotQuote q = false) (hq2 : isNotQuote q2 = false)
    (hbody : closedBody body = true) :
    readToken L (lexerStream.split pre (q :: (body ++ q2 :: rest))) state functions =
      Result.ok (stringLiteralToken L (String.mk (unescape body)), true, none,
        lexerStream.split (pre ++ q :: (body ++ [q2])) rest) := by
  rw [readToken_quote L state functions pre q _ hq, readUntilFalse_split,
    (scanRun_string body.length body "" (Nat.le_refl _) hbody).1 q2 rest hq2]
  simp only [Result.map, String.empty_append_mk, Bool.not_true, Bool.false_eq_true, if_false,
    lexerStream.advance_split, stringLiteralToken]
  have hpre : pre ++ [q] ++ body ++ [q2] = pre ++ q :: (body ++ [q2]) := by simp
  rw [hpre]
  cases L.tryParseTime (String.mk (unescape body)) <;> rfl

/-- A string literal that runs to the end of the input without a closing quote. -/
theorem readToken_unclosed_string (L : Library) (state : lexerState)
    (functions : String → Option ExpressionFunction) (pre : List Char) (q : Char)
    (body : List Char) (hq : isNotQuote q = false) (hbody : closedBody body = true) :
    readToken L (lexerStream.split pre (q :: body)) state functions =
      Result.ok (ExpressionToken.zero, false, some "Unclosed string literal",
        lexerStream.split (pre ++ q :: body) []) := by
  rw [readToken_quote L state functions pre q _ hq, readUntilFalse_split,
    (scanRun_string body.length body "" (Nat.le_refl _) hbody).2.1]
  simp [Result.map, readTokenError]

theorem readToken_unclosed_string_witness :
    readToken plainLibrary (lexerStream.split [] ['"', 'a', '\\', '"', ' ']) deadState
        noFunctions =
      Result.ok (ExpressionToken.zero, false, some "Unclosed string literal",
        lexerStream.split ([] ++ '"' :: ['a', '\\', '"', ' ']) []) :=
  readToken_unclosed_string plainLibrary deadState noFunctions [] '"' ['a', '\\', '"', ' ']
    (by decide) (by decide)

/-- C5 as stated fails: in the single-quoted literal `'a"b'` the double quote
    is not content; `readToken` ends the literal there, with the payload `a`
    and the stream left at position 3, in front of `b`. -/
theorem readToken_other_quote_counterexample :
    readToken plainLibrary (newLexerStream "'a\"b'") deadState noFunctions =
      Result.ok ({ Kind := TokenKind.STRING, Value := TokenValue.string "a" }, true, none,
        { source := ['\'', 'a', '"', 'b', '\''], position := 3, length := 5 }) ∧
    "a" ≠ "a\"b" := by
  constructor
  · rfl
  · decide

/-- C5, amended. A string literal ends at the next unescaped quote character
    of either kind, whichever quote opened it: when the input at the stream
    position is a quote `q`, a body without unescaped quote, and a quote `q2`
    (equal to `q` or not), `readToken` returns the token of the unescaped body
    and leaves the stream just behind `q2`. -/
theorem readToken_literal_ends_at_next_quote (L : Library) (state : lexerState)
    (functions : String → Option ExpressionFunction) (pre : List Char) (q q2 : Char)
    (body rest : List Char) (hq : q = '\'' ∨ q = '"') (hq2 : q2 = '\'' ∨ q2 = '"')
    (hbody : closedBody body = true) :
    readToken L (lexerStream.split pre (q :: (body ++ q2 :: rest))) state functions =
      Result.ok (stringLiteralToken L (String.mk (unescape body)), true, none,
        lexerStream.split (pre ++ q :: (body ++ [q2])) rest) :=
  readToken_string_literal L state functions pre q q2 body rest
    ((isNotQuote_eq_false q).mpr hq) ((isNotQuote_eq_false q2).mpr hq2) hbody

theorem readToken_literal_ends_at_next_quote_witness :
    readToken plainLibrary (lexerStream.split [] ('\'' :: (['a'] ++ '"' :: ['b', '\'']))) deadState
        noFunctions =
      Result.ok (stringLiteralToken plainLibrary (String.mk (unescape ['a'])), true, none,
        lexerStream.split ([] ++ '\'' :: (['a'] ++ ['"'])) ['b', '\'']) :=
  readToken_literal_ends_at_next_quote plainLibrary deadState noFunctions [] '\'' '"' ['a']
    ['b', '\''] (Or.inl rfl) (Or.inr rfl) (by decide)

/-- A string literal whose text ends, at the end of the input, in a backslash
    that escapes nothing: `readToken` panics. -/
theorem readToken_dangling_backslash (L : Library) (state : lexerState)
    (functions : String → Option ExpressionFunction) (pre : List Char) (q : Char)
    (body : List Char) (hq : isNotQuote q = false) (hbody : closedBody body = true) :
    readToken L (lexerStream.split pre (q :: (body ++ ['\\']))) state functions = Result.panic := by
  rw [readToken_quote L state functions pre q _ hq, readUntilFalse_split,
    (scanRun_string body.length body "" (Nat.le_refl _) hbody).2.2]
  rfl

theorem readToken_dangling_backslash_witness :
    readToken plainLibrary (lexerStream.split [] ('"' :: (['a', ' '] ++ ['\\']))) deadState
        noFunctions = Result.panic :=
  readToken_dangling_backslash plainLibrary deadState noFunctions [] '"' ['a', ' ']
    (by decide) (by decide)

/-- C6, at the failing input: the input `'abc\` (an opening quote, then a text
    without any quote that ends in a backslash) makes `readToken` panic: after
    the backslash `readUntilFalse` reads one more character without asking
    `canRead`, past the end of the source. No "Unclosed string literal" error
    is returned. -/
theorem readToken_trailing_backslash_panics :
    readToken plainLibrary (newLexerStream "'abc\\") deadState noFunctions = Result.panic := by
  rfl

/-- C7. For a terminated string literal whose body has no unescaped quote and
    whose payload is not a timestamp, `readToken` returns the STRING token of
    the unescaped body: every backslash is dropped and the code point behind it
    kept whatever it is, and every other code point, white space included, is
    kept in order. -/
theorem readToken_string_payload (L : Library) (state : lexerState)
    (functions : String → Option ExpressionFunction) (pre : List Char) (q q2 : Char)
    (body rest : List Char) (hq : q = '\'' ∨ q = '"') (hq2 : q2 = '\'' ∨ q2 = '"')
    (hbody : closedBody body = true)
    (htime : L.tryParseTime (String.mk (unescape body)) = none) :
    readToken L (lexerStream.split pre (q :: (body ++ q2 :: rest))) state functions =
      Result.ok ({ Kind := TokenKind.STRING, Value := TokenValue.string (String.mk (unescape body)) },
        true, none, lexerStream.split (pre ++ q :: (body ++ [q2])) rest) ∧
    unescape [] = [] ∧
    (∀ (d : Char) (text : List Char), unescape ('\\' :: d :: text) = d :: unescape text) ∧
    (∀ (c : Char) (text : List Char), c ≠ '\\' → unescape (c :: text) = c :: unescape text) := by
  refine ⟨?_, rfl, ?_, ?_⟩
  · rw [readToken_string_literal L state functions pre q q2 body rest
      ((isNotQuote_eq_false q).mpr hq) ((isNotQuote_eq_false q2).mpr hq2) hbody]
    simp [stringLiteralToken, htime]
  · intro d text; simp [unescape_cons]
  · intro c text hc; simp [unescape_cons, hc]

theorem readToken_string_payload_witness :
    readToken plainLibrary
        (lexerStream.split ['x', '='] ('"' :: (['a', ' ', '\\', '"', '\\', '\\', 'b'] ++ '"' :: [')'])))
        deadState noFunctions =
      Result.ok ({ Kind := TokenKind.STRING,
                   Value := TokenValue.string (String.mk (unescape ['a', ' ', '\\', '"', '\\', '\\', 'b'])) },
        true, none,
        lexerStream.split (['x', '='] ++ '"' :: (['a', ' ', '\\', '"', '\\', '\\', 'b'] ++ ['"'])) [')']) ∧
    unescape ['a', ' ', '\\', '"', '\\', '\\', 'b'] = ['a', ' ', '"', '\\', 'b'] :=
  ⟨(readToken_string_payload plainLibrary deadState noFunctions ['x', '='] '"' '"'
      ['a', ' ', '\\', '"', '\\', '\\', 'b'] [')'] (Or.inr rfl) (Or.inr rfl) (by decide) rfl).1,
    by decide⟩

/-! ## The symbol `-` -/

theorem scanRun_minus (U : UnicodeTables) (rest : List Char)
    (hrest : rest = [] ∨ ∃ c tail, rest = c :: tail ∧
      (unicodeIsSpace c = true ∨ isNotAlphanumeric U c = false)) :
    ∃ completed used left,
      scanRun false true (isNotAlphanumeric U) ('-' :: rest) "" =
        Result.ok ("-", completed, used, left) := by
  have hminus : isNotAlphanumeric U '-' = true := by
    simp [isNotAlphanumeric, unicodeIsDigit, unicodeIsLetter, inRange, isNotQuote]
  have hspace : unicodeIsSpace '-' = false := by decide
  have hpush : "".push '-' = "-" := rfl
  rw [scanRun_cons]
  simp only [hminus, hspace, hpush, Bool.false_and, Bool.false_eq_true, if_false, if_true]
  have hne : ('-' : Char) ≠ '\\' := by decide
  simp only [hne, if_false]
  rcases hrest with h | ⟨c, tail, h, hc⟩
  · subst h
    exact ⟨false, ['-'], [], by simp [scanRun_nil, Result.map]⟩
  · subst h
    have hback : isNotAlphanumeric U '\\' = true := by
      simp [isNotAlphanumeric, unicodeIsDigit, unicodeIsLetter, inRange, isNotQuote]
    have hbs : unicodeIsSpace '\\' = false := by decide
    have hcne : c ≠ '\\' := by
      intro h
      subst h
      rcases hc with hc | hc
      · rw [hbs] at hc; cases hc
      · rw [hback] at hc; cases hc
    rw [scanRun_cons]
    simp only [hcne, if_false]
    by_cases hsp : unicodeIsSpace c = true
    · refine ⟨true, ['-', c], tail, ?_⟩
      have hlen : (0 : Nat) < ("-" : String).length := by decide
      simp [hsp, hlen, Result.map]
    · have hcond : isNotAlphanumeric U c = false := by
        rcases hc with hc | hc
        · exact absurd hc hsp
        · exact hc
      refine ⟨true, ['-'], c :: tail, ?_⟩
      simp [hsp, hcond, Result.map]

/-- C8. When the symbol run at the stream position is the single character
    `-` (the input ends behind it, or the next character is white space or
    cannot belong to a symbol), `readToken` returns a PREFIX token if the
    lexer state permits PREFIX and a MODIFIER token in every other state; the
    value is `"-"` in both cases. -/
theorem readToken_minus (L : Library) (state : lexerState)
    (functions : String → Option ExpressionFunction) (pre rest : List Char)
    (hrest : rest = [] ∨ ∃ c tail, rest = c :: tail ∧
      (unicodeIsSpace c = true ∨ isNotAlphanumeric L.unicode c = false)) :
    ∃ stream,
      readToken L (lexerStream.split pre ('-' :: rest)) state functions =
        Result.ok ({ Kind := if state.canTransitionTo TokenKind.PREFIX = true then TokenKind.PREFIX
                             else TokenKind.MODIFIER,
                     Value := TokenValue.string "-" }, true, none, stream) := by
  obtain ⟨completed, used, left, hscan⟩ := scanRun_minus L.unicode rest hrest
  have hspace : unicodeIsSpace '-' = false := by decide
  have hnum : isNumeric L.unicode '-' = false := by simp [isNumeric, unicodeIsDigit, inRange]
  have hletter : unicodeIsLetter L.unicode '-' = false := by simp [unicodeIsLetter, inRange]
  have hquote : isNotQuote '-' = true := by decide
  have h1 : ('-' : Char) ≠ ',' := by decide
  have h2 : ('-' : Char) ≠ '[' := by decide
  have h3 : ('-' : Char) ≠ '(' := by decide
  have h4 : ('-' : Char) ≠ ')' := by decide
  have hp : hasKey prefixSymbols "-" = true := by decide
  have hm : hasKey modifierSymbols "-" = true := by decide
  refine ⟨lexerStream.split (pre ++ used) left, ?_⟩
  rw [readToken, lexerStream.remaining_split, readTokenLoop]
  simp only [lexerStream.canRead_split_cons, lexerStream.readCharacter_split_cons, hspace, hnum,
    hletter, hquote, h1, h2, h3, h4, Bool.not_true, Bool.false_eq_true, if_false,
    readTokenSymbol, readTokenUntilFalse, lexerStream.rewind_split, readUntilFalse_split, hscan,
    Result.map, hp, hm, Bool.and_true, if_true]
  by_cases hs : state.canTransitionTo TokenKind.PREFIX = true
  · simp [hs, readTokenFinish]
  · simp [hs, readTokenFinish]

theorem readToken_minus_witness :
    ∃ stream,
      readToken plainLibrary (lexerStream.split ['a', ' '] ('-' :: [' ', 'b'])) deadState
          noFunctions =
        Result.ok ({ Kind := if deadState.canTransitionTo TokenKind.PREFIX = true then TokenKind.PREFIX
                             else TokenKind.MODIFIER,
                     Value := TokenValue.string "-" }, true, none, stream) :=
  readToken_minus plainLibrary deadState noFunctions ['a', ' '] [' ', 'b']
    (Or.inr ⟨' ', ['b'], rfl, Or.inl (by decide)⟩)

/-! ## Conversion of integers to `float64` -/

theorem two_pow_log2Aux_le (fuel : Nat) : ∀ n : Nat, 0 < n → 2 ^ log2Aux fuel n ≤ n := by
  induction fuel with
  | zero => intro n hn; simpa [log2Aux] using hn
  | succ fuel ih =>
    intro n hn
    rw [log2Aux]
    by_cases h : n < 2
    · simpa [h] using hn
    · simp only [h, if_false]
      have h2 : 0 < n / 2 := Nat.div_pos (by omega) (by decide)
      have := ih (n / 2) h2
      have hdiv : 2 * (n / 2) ≤ n := Nat.mul_div_le n 2
      rw [pow_succ]
      omega

theorem roundHalfEven_one (n : Nat) : roundHalfEven n 1 = n := by
  simp [roundHalfEven, Nat.mod_one]

theorem float64.ofNat_exact (v : Nat) (hv : v < 2 ^ 53) :
    (float64.ofNat v).toRat = some (v : ℚ) := by
  by_cases h0 : v = 0
  · subst h0
    simp [float64.ofNat, float64.ofRatio, float64.toRat]
  · have hpos : 0 < v := Nat.pos_of_ne_zero h0
    have hlow : 2 ^ floorLog2 v ≤ v := two_pow_log2Aux_le v v hpos
    have hk : floorLog2 v < 53 := by
      by_contra hcon
      have : 2 ^ 53 ≤ 2 ^ floorLog2 v := Nat.pow_le_pow_right (by decide) (by omega)
      omega
    have hone : floorLog2 1 = 0 := by decide
    generalize hkk : floorLog2 v = k at hlow hk
    have hbelow : ratioBelowPow2 v 1 (k : Int) = false := by
      simp [ratioBelowPow2]; exact hlow
    have hx : max ((k : Int) - 52) (-1074) = (k : Int) - 52 := by omega
    unfold float64.ofNat float64.ofRatio
    simp only [h0, hone, hkk, Nat.cast_zero, sub_zero, hbelow, hx, false_or, if_false,
      Bool.false_eq_true, one_ne_zero]
    obtain ⟨j, hj⟩ : ∃ j : Nat, k + j = 52 := ⟨52 - k, by omega⟩
    have hkz : (k : Int) - 52 = -(j : Int) := by omega
    have hm : (if 0 ≤ (k : Int) - 52 then roundHalfEven v (1 * 2 ^ ((k : Int) - 52).toNat)
        else roundHalfEven (v * 2 ^ (-((k : Int) - 52)).toNat) 1) = v * 2 ^ j := by
      rw [hkz]
      by_cases hj0 : j = 0
      · subst hj0; simp [roundHalfEven_one]
      · have hneg : ¬ (0 ≤ -(j : Int)) := by omega
        simp [hneg, roundHalfEven_one]
    rw [hm, hkz]
    have hpow : ((2 : ℚ) ^ j) ≠ 0 := pow_ne_zero _ (by norm_num)
    by_cases h53 : v * 2 ^ j = 2 ^ 53
    · have hnot : ¬ (971 < -(j : Int) + 1) := by omega
      simp only [h53, if_true, hnot, if_false, float64.toRat]
      have hq : (v : ℚ) * 2 ^ j = 2 ^ 53 := by exact_mod_cast h53
      have hv2 : (v : ℚ) = 2 ^ 53 / 2 ^ j := by field_simp; exact hq
      rw [hv2, zpow_add₀ (by norm_num : (2 : ℚ) ≠ 0), zpow_neg, zpow_natCast]
      simp only [Bool.false_eq_true, if_false, Nat.cast_pow, Nat.cast_ofNat, zpow_one, Option.some.injEq]
      field_simp
      ring
    · have hnot : ¬ (971 < -(j : Int)) := by omega
      simp only [h53, if_false, hnot, float64.toRat]
      rw [zpow_neg, zpow_natCast]
      simp only [Bool.false_eq_true, if_false, Nat.cast_mul, Nat.cast_pow, Nat.cast_ofNat, Option.some.injEq]
      field_simp

/-! ## Runs of plain characters -/

/-- A run of characters that are neither a backslash nor white space and that
    satisfy the condition is read whole. -/
theorem scanRun_run (includeWhitespace breakWhitespace : Bool) (condition : Char → Bool)
    (rest : List Char) (run : List Char) :
    ∀ (tokenBuffer : String),
      (∀ c ∈ run, c ≠ '\\' ∧ unicodeIsSpace c = false ∧ condition c = true) →
      scanRun includeWhitespace breakWhitespace condition (run ++ rest) tokenBuffer =
        (scanRun includeWhitespace breakWhitespace condition rest (tokenBuffer ++ String.mk run)).map
          (fun r => (r.1, r.2.1, run ++ r.2.2.1, r.2.2.2)) := by
  induction run with
  | nil =>
    intro tokenBuffer _
    rw [String.append_mk_nil, List.nil_append]
    generalize scanRun includeWhitespace breakWhitespace condition rest tokenBuffer = r
    cases r <;> simp [Result.map]
  | cons c run ih =>
    intro tokenBuffer hrun
    obtain ⟨h1, h2, h3⟩ := hrun c (List.mem_cons_self _ _)
    have hrest : ∀ d ∈ run, d ≠ '\\' ∧ unicodeIsSpace d = false ∧ condition d = true :=
      fun d hd => hrun d (List.mem_cons_of_mem _ hd)
    rw [List.cons_append, scanRun_cons]
    simp only [h1, h2, h3, Bool.false_and, Bool.false_eq_true, if_false, if_true]
    rw [ih (tokenBuffer.push c) hrest, String.push_append_mk]
    generalize scanRun includeWhitespace breakWhitespace condition rest
        (tokenBuffer ++ String.mk (c :: run)) = r
    cases r <;> simp [Result.map]

/-! ## Hexadecimal literals -/

theorem asciiHexDigit_facts (U : UnicodeTables) (c : Char) (hc : c ∈ asciiHexDigits) :
    (c ≠ '\\' ∧ unicodeIsSpace c = false ∧ isHexDigit U c = true) ∧
      ∃ d, digitValue c = some d ∧ d < 16 := by
  simp only [asciiHexDigits, String.toList, List.mem_cons, List.mem_singleton, List.not_mem_nil,
    or_false] at hc
  rcases hc with h | h | h | h | h | h | h | h | h | h | h | h | h | h | h | h | h | h | h | h | h | h <;>
    subst h <;>
    refine ⟨⟨by decide, by decide, ?_⟩, ?_⟩ <;>
    first
      | simp [isHexDigit, unicodeToLower, unicodeIsDigit, inRange]
      | exact ⟨_, rfl, by decide⟩

theorem le_hexValueFrom (digits : List Char) : ∀ n : Nat, n ≤ hexValueFrom digits n := by
  induction digits with
  | nil => intro n; simp [hexValueFrom]
  | cons c cs ih =>
    intro n
    rw [hexValueFrom]
    exact le_trans (by omega) (ih _)

/-- On hexadecimal digits `strconv.ParseUint(s, 16, 64)` returns the value
    written when it fits 64 bits, and an error when it does not. -/
theorem ParseUintLoop_hex (digits : List Char) (hdigits : ∀ c ∈ digits, c ∈ asciiHexDigits) :
    ∀ n : Nat, n < 2 ^ 64 →
      ParseUintLoop 16 ((2 ^ 64 - 1) / 16 + 1) (2 ^ 64 - 1) digits n =
        if hexValueFrom digits n < 2 ^ 64 then some (hexValueFrom digits n) else none := by
  induction digits with
  | nil => intro n hn; rw [ParseUintLoop, hexValueFrom, if_pos hn]
  | cons c cs ih =>
    intro n hn
    obtain ⟨_, d, hd, hd16⟩ := asciiHexDigit_facts asciiTables c (hdigits c (List.mem_cons_self _ _))
    have hcs : ∀ x ∈ cs, x ∈ asciiHexDigits := fun x hx => hdigits x (List.mem_cons_of_mem _ hx)
    rw [ParseUintLoop, hexValueFrom]
    simp only [hd, Option.getD_some]
    have hnot : ¬ (16 ≤ d) := by omega
    simp only [hnot, if_false]
    by_cases hcut : (2 ^ 64 - 1) / 16 + 1 ≤ n
    · have hbig : 2 ^ 64 ≤ n * 16 + d := by
        have : (2 ^ 64 - 1) / 16 + 1 = 2 ^ 60 := by norm_num
        omega
      have hmono := le_hexValueFrom cs (n * 16 + d)
      have hge : ¬ (hexValueFrom cs (n * 16 + d) < 2 ^ 64) := by omega
      rw [if_pos hcut, if_neg hge]
    · have hsmall : n * 16 + d < 2 ^ 64 := by
        have : (2 ^ 64 - 1) / 16 + 1 = 2 ^ 60 := by norm_num
        omega
      have h1 : ¬ (2 ^ 64 ≤ n * 16 + d ∨ 2 ^ 64 - 1 < n * 16 + d) := by omega
      rw [if_neg hcut, if_neg h1]
      exact ih hcs _ hsmall

theorem ParseUint_hex (digits : List Char) (hne : digits ≠ [])
    (hdigits : ∀ c ∈ digits, c ∈ asciiHexDigits) :
    ParseUint (String.mk digits) 16 64 =
      if hexValue digits < 2 ^ 64 then some (hexValue digits) else none := by
  simp only [ParseUint, String.toList, hne, if_false]
  exact ParseUintLoop_hex digits hdigits 0 (by norm_num)

theorem readToken_zero_x (L : Library) (state : lexerState)
    (functions : String → Option ExpressionFunction) (pre : List Char) (c : Char)
    (tail : List Char) :
    readToken L (lexerStream.split pre ('0' :: 'x' :: c :: tail)) state functions =
      match readUntilFalse (lexerStream.split (pre ++ ['0'] ++ ['x']) (c :: tail)) false true
          (isHexDigit L.unicode) with
      | Result.panic => Result.panic
      | Result.fuel => Result.fuel
      | Result.ok (tokenString, _, stream) =>
        match ParseUint tokenString 16 64 with
        | none =>
          readTokenError ("Unable to parse hex value '" ++ tokenString ++ "' to uint64") stream
        | some tokenValueInt =>
          readTokenFinish TokenKind.NUMERIC (TokenValue.number (float64.ofNat tokenValueInt))
            stream := by
  have hspace : unicodeIsSpace '0' = false := by decide
  have hnum : isNumeric L.unicode '0' = true := by simp [isNumeric, unicodeIsDigit, inRange]
  rw [readToken, lexerStream.remaining_split, readTokenLoop]
  simp only [lexerStream.canRead_split_cons, lexerStream.readCharacter_split_cons, hspace, hnum,
    Bool.not_true, Bool.false_eq_true, if_false, if_true, readTokenNumeric, Bool.and_true,
    decide_True]

/-- The hexadecimal literal `0x` followed by the digits `h`, at the end of the input. -/
theorem readToken_hex (L : Library) (state : lexerState)
    (functions : String → Option ExpressionFunction) (pre h : List Char) (hne : h ≠ [])
    (hh : ∀ c ∈ h, c ∈ asciiHexDigits) :
    readToken L (lexerStream.split pre ('0' :: 'x' :: h)) state functions =
      if hexValue h < 2 ^ 64 then
        readTokenFinish TokenKind.NUMERIC (TokenValue.number (float64.ofNat (hexValue h)))
          (lexerStream.split (pre ++ '0' :: 'x' :: h) [])
      else
        readTokenError ("Unable to parse hex value '" ++ String.mk h ++ "' to uint64")
          (lexerStream.split (pre ++ '0' :: 'x' :: h) []) := by
  cases h with
  | nil => exact absurd rfl hne
  | cons c cs =>
    have hrun := scanRun_run false true (isHexDigit L.unicode) [] (c :: cs) ""
      (fun x hx => (asciiHexDigit_facts L.unicode x (hh x hx)).1)
    rw [List.append_nil, scanRun_nil, String.empty_append_mk] at hrun
    rw [readToken_zero_x, readUntilFalse_split, hrun]
    simp only [Result.map, List.append_nil, ParseUint_hex (c :: cs) hne hh]
    have hpre : pre ++ ['0'] ++ ['x'] ++ c :: cs = pre ++ '0' :: 'x' :: c :: cs := by simp
    rw [hpre]
    by_cases hv : hexValue (c :: cs) < 2 ^ 64
    · simp only [hv, if_true]
    · simp only [hv, if_false]

/-- C9 as stated fails: in `0x 1f` the `0x` is followed directly by a space,
    which is no hexadecimal digit, yet `readToken` returns the NUMERIC token
    of `0x1f` (31): the hex run is read with white space skipped. -/
theorem readToken_hex_space_counterexample :
    isHexDigit asciiTables ' ' = false ∧
    readToken plainLibrary (newLexerStream "0x 1f") deadState noFunctions =
      Result.ok ({ Kind := TokenKind.NUMERIC, Value := TokenValue.number (float64.ofNat 31) },
        true, none, { source := ['0', 'x', ' ', '1', 'f'], position := 5, length := 5 }) := by
  constructor
  · decide
  · rfl

/-- C9, amended. For every non-empty string `h` of hexadecimal digits with
    value `v`, `readToken` on `0x` followed by `h` returns one NUMERIC token
    whose value is `float64(v)` when `v ≤ 2^64 - 1`, which is exactly `v` when
    `v < 2^53`, and returns an error when `v > 2^64 - 1`; it also returns an
    error when `0x` is followed directly by a character that is neither a
    hexadecimal digit, nor white space, nor a backslash. -/
theorem readToken_hex_literal (L : Library) (state : lexerState)
    (functions : String → Option ExpressionFunction) (pre h : List Char) (hne : h ≠ [])
    (hh : ∀ c ∈ h, c ∈ asciiHexDigits) :
    (hexValue h ≤ 2 ^ 64 - 1 →
      readToken L (lexerStream.split pre ('0' :: 'x' :: h)) state functions =
        Result.ok ({ Kind := TokenKind.NUMERIC,
                     Value := TokenValue.number (float64.ofNat (hexValue h)) },
          true, none, lexerStream.split (pre ++ '0' :: 'x' :: h) [])) ∧
    (hexValue h < 2 ^ 53 → (float64.ofNat (hexValue h)).toRat = some (hexValue h : ℚ)) ∧
    (2 ^ 64 - 1 < hexValue h →
      ∃ message, readToken L (lexerStream.split pre ('0' :: 'x' :: h)) state functions =
        Result.ok (ExpressionToken.zero, false, some message,
          lexerStream.split (pre ++ '0' :: 'x' :: h) [])) ∧
    (∀ (c : Char) (tail : List Char), isHexDigit L.unicode c = false →
      unicodeIsSpace c = false → c ≠ '\\' →
      ∃ message stream,
        readToken L (lexerStream.split pre ('0' :: 'x' :: c :: tail)) state functions =
          Result.ok (ExpressionToken.zero, false, some message, stream)) := by
  refine ⟨?_, ?_, ?_, ?_⟩
  · intro hv
    have hv2 : hexValue h < 2 ^ 64 := by omega
    rw [readToken_hex L state functions pre h hne hh, if_pos hv2]
    rfl
  · intro hv
    exact float64.ofNat_exact _ hv
  · intro hv
    have hv2 : ¬ (hexValue h < 2 ^ 64) := by omega
    rw [readToken_hex L state functions pre h hne hh, if_neg hv2]
    exact ⟨_, rfl⟩
  · intro c tail hc hsp hbs
    rw [readToken_zero_x, readUntilFalse_split, scanRun_cons]
    simp only [hbs, hsp, hc, Bool.false_and, Bool.false_eq_true, if_false, Result.map]
    exact ⟨_, _, rfl⟩

theorem readToken_hex_literal_witness :
    readToken plainLibrary (lexerStream.split [] ('0' :: 'x' :: ['1', 'F'])) deadState noFunctions =
        Result.ok ({ Kind := TokenKind.NUMERIC,
                     Value := TokenValue.number (float64.ofNat (hexValue ['1', 'F'])) },
          true, none, lexerStream.split ([] ++ '0' :: 'x' :: ['1', 'F']) []) ∧
    (float64.ofNat (hexValue ['1', 'F'])).toRat = some (hexValue ['1', 'F'] : ℚ) ∧
    (∃ message, readToken plainLibrary
        (lexerStream.split [] ('0' :: 'x' :: "10000000000000000".toList)) deadState noFunctions =
        Result.ok (ExpressionToken.zero, false, some message,
          lexerStream.split ([] ++ '0' :: 'x' :: "10000000000000000".toList) [])) ∧
    (∃ message stream,
        readToken plainLibrary (lexerStream.split [] ('0' :: 'x' :: 'g' :: ['1'])) deadState
          noFunctions = Result.ok (ExpressionToken.zero, false, some message, stream)) :=
  ⟨(readToken_hex_literal plainLibrary deadState noFunctions [] ['1', 'F'] (by decide)
      (by decide)).1 (by decide),
   (readToken_hex_literal plainLibrary deadState noFunctions [] ['1', 'F'] (by decide)
      (by decide)).2.1 (by decide),
   (readToken_hex_literal plainLibrary deadState noFunctions [] "10000000000000000".toList
      (by decide) (by decide)).2.2.1 (by decide),
   (readToken_hex_literal plainLibrary deadState noFunctions [] ['1'] (by decide)
      (by decide)).2.2.2 'g' ['1'] (by decide) (by decide) (by decide)⟩

/-! ## Decimal literals -/

theorem tokenStream.hasNext_split_nil (pre : List ExpressionToken) :
    (tokenStream.split pre []).hasNext = false := by
  simp [tokenStream.hasNext, tokenStream.split]

theorem tokenStream.hasNext_split_cons (pre : List ExpressionToken) (t : ExpressionToken)
    (rest : List ExpressionToken) : (tokenStream.split pre (t :: rest)).hasNext = true := by
  simp [tokenStream.hasNext, tokenStream.split]

theorem tokenStream.next_split_cons (pre : List ExpressionToken) (t : ExpressionToken)
    (rest : List ExpressionToken) :
    (tokenStream.split pre (t :: rest)).next = Result.ok (t, tokenStream.split (pre ++ [t]) rest) := by
  simp only [tokenStream.next, tokenStream.split, get?_at_prefix, Int.toNat_ofNat]
  simp

theorem checkBalanceLoop_eq (rest : List ExpressionToken) :
    ∀ (pre : List ExpressionToken) (parens : Int) (fuel : Nat), rest.length < fuel →
      checkBalanceLoop fuel (tokenStream.split pre rest) parens
        = Result.ok (parens + parenSurplus rest) := by
  induction rest with
  | nil =>
    intro pre parens fuel hfuel
    cases fuel with
    | zero => simp at hfuel
    | succ fuel => simp [checkBalanceLoop, tokenStream.hasNext_split_nil, parenSurplus]
  | cons t rest ih =>
    intro pre parens fuel hfuel
    cases fuel with
    | zero => simp at hfuel
    | succ fuel =>
      have hfuel2 : rest.length < fuel := by simpa using hfuel
      rw [checkBalanceLoop]
      simp only [tokenStream.hasNext_split_cons, tokenStream.next_split_cons, Bool.not_true,
        Bool.false_eq_true, if_false]
      by_cases h1 : t.Kind = TokenKind.CLAUSE
      · rw [if_pos h1, ih _ _ _ hfuel2, parenSurplus, if_pos h1]; congr 1; ring
      · rw [if_neg h1]
        by_cases h2 : t.Kind = TokenKind.CLAUSE_CLOSE
        · rw [if_pos h2, ih _ _ _ hfuel2, parenSurplus, if_neg h1, if_pos h2]; congr 1; ring
        · rw [if_neg h2, ih _ _ _ hfuel2, parenSurplus, if_neg h1, if_neg h2]

/-- The balance check compares the two counts only: it returns the error
    exactly when the numbers of `CLAUSE` and `CLAUSE_CLOSE` tokens differ. -/
theorem checkBalance_eq (tokens : List ExpressionToken) :
    checkBalance tokens =
      Result.ok (if parenSurplus tokens ≠ 0 then some "Unbalanced parenthesis" else none) := by
  have h := checkBalanceLoop_eq tokens [] 0 (tokens.length + 1) (Nat.lt_succ_self _)
  have hs : newTokenStream tokens = tokenStream.split [] tokens := by
    simp [newTokenStream, tokenStream.split]
  simp only [checkBalance, hs, h, zero_add]
  split <;> rfl

theorem parenSurplus_of_nestedFrom (tokens : List ExpressionToken) :
    ∀ depth : Nat, nestedFrom depth tokens = true → parenSurplus tokens = -(depth : Int) := by
  induction tokens with
  | nil => intro depth h; simp [nestedFrom] at h; simp [parenSurplus, h]
  | cons t rest ih =>
    intro depth h
    by_cases h1 : t.Kind = TokenKind.CLAUSE
    · simp only [nestedFrom, if_pos h1] at h
      rw [parenSurplus, if_pos h1, ih _ h]; push_cast; ring
    · by_cases h2 : t.Kind = TokenKind.CLAUSE_CLOSE
      · cases depth with
        | zero => simp [nestedFrom, if_neg h1, if_pos h2] at h
        | succ d =>
          simp only [nestedFrom, if_neg h1, if_pos h2] at h
          rw [parenSurplus, if_neg h1, if_pos h2, ih _ h]; push_cast; ring
      · simp only [nestedFrom, if_neg h1, if_neg h2] at h
        rw [parenSurplus, if_neg h1, if_neg h2, ih _ h]

/-- The half of the balance contract that the code keeps: a properly nested
    token list passes the check. -/
theorem checkBalance_of_properlyNested (tokens : List ExpressionToken)
    (h : properlyNested tokens = true) : checkBalance tokens = Result.ok none := by
  rw [checkBalance_eq, parenSurplus_of_nestedFrom tokens 0 h]; simp

theorem checkBalance_of_properlyNested_witness :
    checkBalance [⟨TokenKind.CLAUSE, TokenValue.rune '('⟩,
      ⟨TokenKind.CLAUSE_CLOSE, TokenValue.rune ')'⟩] = Result.ok none :=
  checkBalance_of_properlyNested _ (by decide)

/-- C1, at the failing input: the token list `)` `(` is not properly nested
    (its first token closes a clause that was never opened), yet `checkBalance`
    returns no error for it, because it only compares the two counts. -/
theorem checkBalance_close_before_open :
    properlyNested [⟨TokenKind.CLAUSE_CLOSE, TokenValue.rune ')'⟩,
      ⟨TokenKind.CLAUSE, TokenValue.rune '('⟩] = false ∧
    checkBalance [⟨TokenKind.CLAUSE_CLOSE, TokenValue.rune ')'⟩,
      ⟨TokenKind.CLAUSE, TokenValue.rune '('⟩] = Result.ok none := by
  constructor <;> decide

/-! ## The ternary stages -/

/-- C3 as stated fails: with the condition true and the then-value `Null`, the
    chained stages return the else-value, not the then-value. -/
theorem ternaryChain_null_then_counterexample :
    ternaryChain (Value.bool true) Value.null (Value.string "b") noParameters =
      Result.ok (Value.string "b", none) ∧
    Value.string "b" ≠ Value.null := by
  constructor
  · rfl
  · intro h; cases h

/-- C3, amended. For every Bool `c` and all values `a` and `b`, the chain
    `ternaryElseStage(ternaryIfStage(c, a), b)` returns without fault: it is `a`
    when `c` is true and `a` is not `Null`, and `b` when `c` is false or `a` is
    `Null`. -/
theorem ternaryChain_contract (c : Bool) (a b : Value) (parameters : Parameters) :
    (c = true → a ≠ Value.null →
      ternaryChain (Value.bool c) a b parameters = Result.ok (a, none)) ∧
    (c = false → ternaryChain (Value.bool c) a b parameters = Result.ok (b, none)) ∧
    (a = Value.null → ternaryChain (Value.bool c) a b parameters = Result.ok (b, none)) := by
  refine ⟨?_, ?_, ?_⟩
  · intro hc ha
    subst hc
    cases a <;> simp [ternaryChain, ternaryIfStage, ternaryElseStage] at ha ⊢
  · intro hc
    subst hc
    simp [ternaryChain, ternaryIfStage, ternaryElseStage]
  · intro ha
    subst ha
    cases c <;> simp [ternaryChain, ternaryIfStage, ternaryElseStage]

theorem ternaryChain_contract_witness :
    ternaryChain (Value.bool true) (Value.string "a") (Value.string "b") noParameters =
      Result.ok (Value.string "a", none) ∧
    ternaryChain (Value.bool false) (Value.string "a") (Value.string "b") noParameters =
      Result.ok (Value.string "b", none) ∧
    ternaryChain (Value.bool true) Value.null (Value.string "b") noParameters =
      Result.ok (Value.string "b", none) :=
  ⟨(ternaryChain_contract true (Value.string "a") (Value.string "b") noParameters).1 rfl
      (by intro h; cases h),
   (ternaryChain_contract false (Value.string "a") (Value.string "b") noParameters).2.1 rfl,
   (ternaryChain_contract true Value.null (Value.string "b") noParameters).2.2 rfl⟩

/-! ## Parameter sanitization -/

/-- C4, at the failing input: a resolver that returns the platform-width
    unsigned integer `uint(5)` (a numeric value that is not a Number) gets it
    back unchanged from `sanitizedParameters.Get`; the same holds for a
    `uintptr`. The signed platform-width `int` is converted. -/
theorem sanitizedParameters_Get_uint :
    (Value.uint 5).isNumericKind = true ∧ (Value.uint 5).isNumber = false ∧
    sanitizedParameters.Get ⟨⟨fun _ => (Value.uint 5, none)⟩⟩ "x" = (Value.uint 5, none) ∧
    sanitizedParameters.Get ⟨⟨fun _ => (Value.uintptr 5, none)⟩⟩ "x" = (Value.uintptr 5, none) ∧
    sanitizedParameters.Get ⟨⟨fun _ => (Value.int 5, none)⟩⟩ "x" =
      (Value.number (float64.ofInt 5), none) := by
  refine ⟨rfl, rfl, rfl, rfl, rfl⟩

/-- Every numeric kind that the type switch of `castToFloat64` lists, and a
    `float64` itself, leaves `sanitizedParameters.Get` as a Number. -/
theorem sanitizedParameters_Get_listed (orig : Parameters) (key : String) (v : Value)
    (hget : orig.Get key = (v, none)) (hnum : v.isNumericKind = true)
    (huint : ∀ n, v ≠ Value.uint n) (huintptr : ∀ n, v ≠ Value.uintptr n) :
    ∃ f, sanitizedParameters.Get ⟨orig⟩ key = (Value.number f, none) := by
  cases v <;> simp [Value.isNumericKind] at hnum huint huintptr <;>
    simp [sanitizedParameters.Get, hget, castToFloat64]

theorem sanitizedParameters_Get_listed_witness :
    ∃ f, sanitizedParameters.Get ⟨⟨fun _ => (Value.int8 (-3), none)⟩⟩ "x" =
      (Value.number f, none) :=
  sanitizedParameters_Get_listed ⟨fun _ => (Value.int8 (-3), none)⟩ "x" (Value.int8 (-3)) rfl rfl
    (by intro n h; cases h) (by intro n h; cases h)

/-! ## Identifiers -/

theorem readTokenVariable_eq (L : Library) (functions : String → Option ExpressionFunction)
    (stream : lexerStream) :
    readTokenVariable L functions stream =
      match readTokenUntilFalse stream (isVariableName L.unicode) with
      | Result.panic => Result.panic
      | Result.fuel => Result.fuel
      | Result.ok (tokenString, stream) => identifierOutcome L functions tokenString stream := by
  rfl

/-! ## Comparators -/

/-- A left operand that is no array is compared with every element without
    fault: `inStage` returns whether `==` holds for some element. -/
theorem inStageLoop_of_not_array (left : Value) (hleft : ∀ xs, left ≠ Value.array xs)
    (elements : List Value) :
    inStageLoop left elements =
      Result.ok (Value.bool (elements.any fun value => decide (Value.goEq left value = Result.ok true)),
        none) := by
  induction elements with
  | nil => rfl
  | cons value rest ih =>
    have hok : ∃ b, Value.goEq left value = Result.ok b := by
      cases left <;> cases value <;> first
        | exact ⟨_, rfl⟩
        | exact absurd rfl (hleft _)
    obtain ⟨b, hb⟩ := hok
    cases b with
    | true => simp [inStageLoop, hb]
    | false => simp [inStageLoop, hb, ih]

theorem inStageLoop_of_not_array_witness :
    inStageLoop (Value.string "b") [Value.array [], Value.string "b"] =
      Result.ok (Value.bool ([Value.array [], Value.string "b"].any fun value =>
        decide (Value.goEq (Value.string "b") value = Result.ok true)), none) :=
  inStageLoop_of_not_array (Value.string "b") (by intro xs h; cases h) _

/-- C16, at the failing input: with the left operand the array `[1]` and the
    right operand the array `[[1]]`, whose one element is an array, `inStage`
    panics: `left == value` compares two values of the uncomparable type
    `[]interface{}`. No Bool is returned. -/
theorem inStage_array_in_arrays_panics :
    inStage (Value.array [Value.number (float64.ofNat 1)])
      (Value.array [Value.array [Value.number (float64.ofNat 1)]]) noParameters = Result.panic := by
  rfl

/-! ## The separator -/

/-- C17. `separatorStage(left, right)` returns, for an Array `left` of `n`
    elements, the Array of `n + 1` elements made of the elements of `left` in
    order followed by `right`, and for any other `left` the two-element Array
    `[left, right]`; folding `a, b, c` from the left with `a` no Array yields
    `[a, b, c]`. -/
theorem separatorStage_contract (parameters : Parameters) :
    (∀ (elements : List Value) (right : Value),
      separatorStage (Value.array elements) right parameters =
        Result.ok (Value.array (elements ++ [right]), none) ∧
      (elements ++ [right]).length = elements.length + 1 ∧
      (∀ i (h : i < elements.length), (elements ++ [right])[i]? = some elements[i]) ∧
      (elements ++ [right])[elements.length]? = some right) ∧
    (∀ left right : Value, (∀ elements, left ≠ Value.array elements) →
      separatorStage left right parameters = Result.ok (Value.array [left, right], none)) ∧
    (∀ a b c : Value, (∀ elements, a ≠ Value.array elements) →
      ∃ ab, separatorStage a b parameters = Result.ok (ab, none) ∧
        separatorStage ab c parameters = Result.ok (Value.array [a, b, c], none)) := by
  refine ⟨?_, ?_, ?_⟩
  · intro elements right
    refine ⟨rfl, by simp, ?_, ?_⟩
    · intro i h
      rw [List.getElem?_append_left h, List.getElem?_eq_getElem h]
    · simp
  · intro left right hleft
    cases left <;> first
      | rfl
      | exact absurd rfl (hleft _)
  · intro a b c ha
    refine ⟨Value.array [a, b], ?_, rfl⟩
    cases a <;> first
      | rfl
      | exact absurd rfl (ha _)

theorem separatorStage_contract_witness :
    separatorStage (Value.string "a") (Value.string "b") noParameters =
        Result.ok (Value.array [Value.string "a", Value.string "b"], none) ∧
    ∃ ab, separatorStage Value.null (Value.bool true) noParameters = Result.ok (ab, none) ∧
      separatorStage ab (Value.string "c") noParameters =
        Result.ok (Value.array [Value.null, Value.bool true, Value.string "c"], none) :=
  ⟨(separatorStage_contract noParameters).2.1 _ _ (by intro xs h; cases h),
   (separatorStage_contract noParameters).2.2 Value.null (Value.bool true) (Value.string "c")
     (by intro xs h; cases h)⟩

/-! ## Function calls -/

/-- C18. The operator built by `makeFunctionStage(f)` makes exactly one call
    of `f` and returns its value and error unchanged; the argument list of the
    call is empty when `right` is `Null`, holds the elements of `right` in order
    when `right` is an Array, and is `[right]` for every other value. -/
theorem makeFunctionStage_contract (function : ExpressionFunction) (left right : Value)
    (parameters : Parameters) :
    (∃ arguments, makeFunctionStage function left right parameters =
      Result.ok (function arguments, [arguments])) ∧
    (right = Value.null →
      makeFunctionStage function left right parameters = Result.ok (function [], [[]])) ∧
    (∀ elements, right = Value.array elements →
      makeFunctionStage function left right parameters =
        Result.ok (function elements, [elements])) ∧
    (right ≠ Value.null → (∀ elements, right ≠ Value.array elements) →
      makeFunctionStage function left right parameters =
        Result.ok (function [right], [[right]])) := by
  refine ⟨?_, ?_, ?_, ?_⟩
  · cases right <;> exact ⟨_, rfl⟩
  · intro h; subst h; rfl
  · intro elements h; subst h; rfl
  · intro hnull harray
    cases right <;> first
      | rfl
      | exact absurd rfl hnull
      | exact absurd rfl (harray _)

theorem makeFunctionStage_contract_witness :
    makeFunctionStage (fun arguments => (Value.array arguments, none)) Value.null Value.null
        noParameters = Result.ok ((Value.array [], none), [[]]) ∧
    makeFunctionStage (fun arguments => (Value.array arguments, none)) Value.null
        (Value.array [Value.bool true, Value.null]) noParameters =
      Result.ok ((Value.array [Value.bool true, Value.null], none), [[Value.bool true, Value.null]]) ∧
    makeFunctionStage (fun arguments => (Value.array arguments, some "failed")) Value.null
        (Value.string "x") noParameters =
      Result.ok ((Value.array [Value.string "x"], some "failed"), [[Value.string "x"]]) :=
  ⟨(makeFunctionStage_contract (fun arguments => (Value.array arguments, none)) Value.null
      Value.null noParameters).2.1 rfl,
   (makeFunctionStage_contract (fun arguments => (Value.array arguments, none)) Value.null
      (Value.array [Value.bool true, Value.null]) noParameters).2.2.1 _ rfl,
   (makeFunctionStage_contract (fun arguments => (Value.array arguments, some "failed")) Value.null
      (Value.string "x") noParameters).2.2.2 (by intro h; cases h) (by intro xs h; cases h)⟩

/-! ## Map parameters -/

/-- C19. `MapParameters.Get(name)` returns an error exactly when `name` is no
    key of the map, and the error is `No parameter '<name>' found.`; when `name`
    is a key it returns the stored value unchanged and no error, also when the
    stored value is `Null`. -/
theorem MapParameters_Get_contract (p : MapParameters) (name : String) :
    ((p.Get name).2 ≠ none ↔ p.entries name = none) ∧
    (p.entries name = none →
      p.Get name = (Value.null, some ("No parameter '" ++ name ++ "' found."))) ∧
    (∀ value, p.entries name = some value → p.Get name = (value, none)) ∧
    (p.entries name = some Value.null → p.Get name = (Value.null, none)) := by
  refine ⟨?_, ?_, ?_, ?_⟩
  · cases h : p.entries name <;> simp [MapParameters.Get, h]
  · intro h; simp [MapParameters.Get, h]
  · intro value h; simp [MapParameters.Get, h]
  · intro h; simp [MapParameters.Get, h]

theorem MapParameters_Get_contract_witness :
    MapParameters.Get ⟨fun key => if key = "x" then some Value.null else none⟩ "y" =
      (Value.null, some ("No parameter '" ++ "y" ++ "' found.")) ∧
    MapParameters.Get ⟨fun key => if key = "x" then some Value.null else none⟩ "x" =
      (Value.null, none) :=
  ⟨(MapParameters_Get_contract ⟨fun key => if key = "x" then some Value.null else none⟩ "y").2.1
      rfl,
   (MapParameters_Get_contract ⟨fun key => if key = "x" then some Value.null else none⟩ "x").2.2.2
      rfl⟩

/-! ## Idempotence of the coercion -/

/-- C20. `castToFloat64` is idempotent; a value that is already a `float64`
    and every value of no numeric kind is returned unchanged. -/
theorem castToFloat64_idempotent :
    (∀ v : Value, castToFloat64 (castToFloat64 v) = castToFloat64 v) ∧
    (∀ f : float64, castToFloat64 (Value.number f) = Value.number f) ∧
    (∀ v : Value, v.isNumericKind = false → castToFloat64 v = v) := by
  refine ⟨?_, ?_, ?_⟩
  · intro v; cases v <;> rfl
  · intro f; rfl
  · intro v hv
    cases v <;> first
      | rfl
      | (simp [Value.isNumericKind] at hv)

theorem castToFloat64_idempotent_witness :
    castToFloat64 (Value.string "x") = Value.string "x" :=
  castToFloat64_idempotent.2.2 (Value.string "x") rfl

/-! ## Regex precompilation -/

theorem rewriteTokens_nil (compile : String → Except String Regexp) :
    rewriteTokens compile [] = Result.ok ([], none) := by
  rw [rewriteTokens.eq_def]

theorem rewriteTokens_cons (compile : String → Except String Regexp) (token : ExpressionToken)
    (rest : List ExpressionToken) :
    rewriteTokens compile (token :: rest) =
      if isRegexComparator token then
        match rest with
        | [] => Result.panic
        | operand :: rest2 =>
          if operand.Kind = TokenKind.STRING then
            match operand.Value with
            | TokenValue.string expr =>
              match compile expr with
              | Except.error err => Result.ok (token :: operand :: rest2, some err)
              | Except.ok compiled =>
                (rewriteTokens compile rest2).map (fun r =>
                  (token :: { Kind := TokenKind.PATTERN, Value := TokenValue.pattern compiled } :: r.1,
                    r.2))
            | _ => Result.panic
          else (rewriteTokens compile (operand :: rest2)).map (fun r => (token :: r.1, r.2))
      else if token.Kind == TokenKind.COMPARATOR && !token.Value.isString then Result.panic
      else (rewriteTokens compile rest).map (fun r => (token :: r.1, r.2)) := by
  rw [rewriteTokens.eq_def]

theorem get?_second_of_rest {α : Type} (pre : List α) (x y : α) (rest : List α) :
    (pre ++ x :: y :: rest).get? (pre.length + 1) = some y := by
  have h := get?_at_prefix (pre ++ [x]) y rest
  simpa using h

theorem set_second_of_rest {α : Type} (pre : List α) (x y z : α) (rest : List α) :
    (pre ++ x :: y :: rest).set (pre.length + 1) z = pre ++ x :: z :: rest := by
  induction pre with
  | nil => rfl
  | cons p pre ih => simp

theorem isRegexComparator_pattern (compiled : Regexp) :
    isRegexComparator { Kind := TokenKind.PATTERN, Value := TokenValue.pattern compiled } = false := by
  rfl

/-- The loop of `optimizeTokens`, standing behind `pre` with the tokens `rest`
    still to visit, computes `rewriteTokens` on `rest`. -/
theorem optimizeTokensLoop_split (compile : String → Except String Regexp) (n : Nat) :
    ∀ (rest pre : List ExpressionToken), rest.length ≤ n →
      optimizeTokensLoop compile rest.length pre.length (pre ++ rest) =
        (rewriteTokens compile rest).map (fun r => (pre ++ r.1, r.2)) := by
  induction n with
  | zero =>
    intro rest pre hn
    have hrest : rest = [] := List.length_eq_zero.mp (Nat.le_zero.mp hn)
    subst hrest
    simp [optimizeTokensLoop, rewriteTokens_nil, Result.map]
  | succ n ih =>
    intro rest pre hn
    cases rest with
    | nil => simp [optimizeTokensLoop, rewriteTokens_nil, Result.map]
    | cons t rest =>
      have hn1 : rest.length ≤ n := by simpa using hn
      have hstep : ∀ rest2 : List ExpressionToken, rest2.length = rest.length →
          optimizeTokensLoop compile rest.length (pre.length + 1) (pre ++ t :: rest2) =
            (rewriteTokens compile rest2).map (fun r => (pre ++ t :: r.1, r.2)) := by
        intro rest2 hlen
        have h := ih rest2 (pre ++ [t]) (by omega)
        simp only [List.length_append, List.length_singleton, List.append_assoc,
          List.singleton_append, hlen] at h
        rw [h]
      rw [List.length_cons, optimizeTokensLoop, get?_at_prefix, rewriteTokens_cons]
      by_cases hk : t.Kind = TokenKind.COMPARATOR
      · simp only [hk, ne_eq, not_true_eq_false, if_false]
        cases hv : t.Value with
        | string text =>
          by_cases hsym : comparatorSymbols.lookup text ≠ some OperatorSymbol.REQ ∧
              comparatorSymbols.lookup text ≠ some OperatorSymbol.NREQ
          · have hreg : isRegexComparator t = false := by
              simp only [isRegexComparator, hv, hk]
              simp [hsym.1, hsym.2]
            simp only [hsym, and_self, if_true, hreg, Bool.false_eq_true, if_false, hk, hv,
              TokenValue.isString, beq_self_eq_true, Bool.not_true, Bool.and_false]
            rw [hstep rest rfl]
            generalize rewriteTokens compile rest = r
            cases r <;> simp [Result.map]
          · have hreg : isRegexComparator t = true := by
              simp only [isRegexComparator, hv, hk]
              simp only [not_and_or, not_not] at hsym
              rcases hsym with h | h <;> simp [h]
            simp only [hsym, if_false, hreg, if_true]
            cases rest with
            | nil =>
              have hnone : (pre ++ [t]).get? (pre.length + 1) = none := by
                rw [List.get?_eq_getElem?]; simp
              rw [hnone]
              simp [Result.map]
            | cons u rest2 =>
              rw [get?_second_of_rest]
              by_cases hu : u.Kind = TokenKind.STRING
              · simp only [hu, if_true]
                cases hu2 : u.Value with
                | string expr =>
                  simp only []
                  cases hc : compile expr with
                  | error err => simp [Result.map]
                  | ok compiled =>
                    simp only [set_second_of_rest]
                    rw [hstep _ (by simp), rewriteTokens_cons, isRegexComparator_pattern]
                    simp only [Bool.false_eq_true, if_false]
                    have hnc : ((TokenKind.PATTERN == TokenKind.COMPARATOR) &&
                        !(TokenValue.pattern compiled).isString) = false := rfl
                    simp only [hnc, Bool.false_eq_true, if_false]
                    generalize rewriteTokens compile rest2 = r
                    cases r <;> simp [Result.map]
                | _ => simp [Result.map]
              · simp only [hu, if_false]
                rw [hstep _ rfl]
                generalize rewriteTokens compile (u :: rest2) = r
                cases r <;> simp [Result.map]
        | _ =>
          have hreg : isRegexComparator t = false := by simp [isRegexComparator, hv]
          simp [hreg, hk, hv, TokenValue.isString, Result.map]
      · have hreg : isRegexComparator t = false := by
          simp only [isRegexComparator]
          split <;> simp [hk]
        have hnc : (t.Kind == TokenKind.COMPARATOR && !t.Value.isString) = false := by
          simp [hk]
        simp only [hk, ne_eq, not_false_eq_true, if_true, hreg, hnc, Bool.false_eq_true, if_false]
        rw [hstep rest rfl]
        generalize rewriteTokens compile rest = r
        cases r <;> simp [Result.map]

theorem consToken_eq_ok (token : ExpressionToken) (x : Except String (List ExpressionToken))
    (expected : List ExpressionToken) (h : consToken token x = Except.ok expected) :
    ∃ tail, x = Except.ok tail ∧ expected = token :: tail := by
  cases x with
  | error err => simp [consToken] at h
  | ok tail =>
    simp only [consToken, Except.ok.injEq] at h
    exact ⟨tail, rfl, h.symm⟩

theorem consToken_eq_error (token : ExpressionToken) (x : Except String (List ExpressionToken))
    (err : String) (h : consToken token x = Except.error err) : x = Except.error err := by
  cases x with
  | error err2 => simpa [consToken] using h
  | ok tail => simp [consToken] at h

theorem patternsExpected_cons_false (compile : String → Except String Regexp)
    (token : ExpressionToken) (rest : List ExpressionToken) :
    patternsExpected compile false (token :: rest) =
      consToken token (patternsExpected compile (isRegexComparator token) rest) := by
  simp [patternsExpected]

theorem patternsExpected_cons_other (compile : String → Except String Regexp) (afterRegex : Bool)
    (token : ExpressionToken) (rest : List ExpressionToken) (h : token.Kind ≠ TokenKind.STRING) :
    patternsExpected compile afterRegex (token :: rest) =
      consToken token (patternsExpected compile (isRegexComparator token) rest) := by
  simp [patternsExpected, h]

theorem patternsExpected_cons_string (compile : String → Except String Regexp)
    (token : ExpressionToken) (rest : List ExpressionToken) (expr : String)
    (hk : token.Kind = TokenKind.STRING) (hv : token.Value = TokenValue.string expr) :
    patternsExpected compile true (token :: rest) =
      match compile expr with
      | Except.error err => Except.error err
      | Except.ok compiled =>
        consToken { Kind := TokenKind.PATTERN, Value := TokenValue.pattern compiled }
          (patternsExpected compile false rest) := by
  simp [patternsExpected, hk, hv]

theorem patternsExpected_length (compile : String → Except String Regexp)
    (tokens : List ExpressionToken) :
    ∀ (afterRegex : Bool) (expected : List ExpressionToken),
      patternsExpected compile afterRegex tokens = Except.ok expected →
      expected.length = tokens.length := by
  induction tokens with
  | nil =>
    intro afterRegex expected h
    simp only [patternsExpected, Except.ok.injEq] at h
    subst h
    rfl
  | cons t rest ih =>
    intro afterRegex expected h
    rw [patternsExpected] at h
    split at h
    · split at h
      · split at h
        · cases h
        · obtain ⟨tail, htail, hexp⟩ := consToken_eq_ok _ _ _ h
          rw [hexp, List.length_cons, ih _ _ htail, List.length_cons]
      · obtain ⟨tail, htail, hexp⟩ := consToken_eq_ok _ _ _ h
        rw [hexp, List.length_cons, ih _ _ htail, List.length_cons]
    · obtain ⟨tail, htail, hexp⟩ := consToken_eq_ok _ _ _ h
      rw [hexp, List.length_cons, ih _ _ htail, List.length_cons]

theorem Result.map_eq_ok {α β : Type} (f : α → β) (r : Result α) (a : α)
    (h : r = Result.ok a) : r.map f = Result.ok (f a) := by
  rw [h]; rfl

/-- On tokens typed as the lexer types them, with every `=~` and `!~`
    followed by a token, the loop of `optimizeTokens` computes what the
    specification expects. -/
theorem rewriteTokens_expected (compile : String → Except String Regexp) (n : Nat) :
    ∀ tokens : List ExpressionToken, tokens.length ≤ n →
      (∀ t ∈ tokens, lexerTyped t) → regexComparatorsFollowed tokens = true →
      (∀ expected, patternsExpected compile false tokens = Except.ok expected →
        rewriteTokens compile tokens = Result.ok (expected, none)) ∧
      (∀ err, patternsExpected compile false tokens = Except.error err →
        ∃ out, rewriteTokens compile tokens = Result.ok (out, some err)) := by
  induction n with
  | zero =>
    intro tokens hn _ _
    have htokens : tokens = [] := List.length_eq_zero.mp (Nat.le_zero.mp hn)
    subst htokens
    refine ⟨?_, ?_⟩
    · intro expected h
      simp only [patternsExpected, Except.ok.injEq] at h
      subst h
      exact rewriteTokens_nil compile
    · intro err h
      simp [patternsExpected] at h
  | succ n ih =>
    intro tokens hn htyped hfollowed
    cases tokens with
    | nil =>
      refine ⟨?_, ?_⟩
      · intro expected h
        simp only [patternsExpected, Except.ok.injEq] at h
        subst h
        exact rewriteTokens_nil compile
      · intro err h
        simp [patternsExpected] at h
    | cons t rest =>
      have hn1 : rest.length ≤ n := by simpa using hn
      have htyped1 : ∀ x ∈ rest, lexerTyped x := fun x hx => htyped x (List.mem_cons_of_mem _ hx)
      rw [regexComparatorsFollowed, Bool.and_eq_true] at hfollowed
      obtain ⟨hhead, hfollowed1⟩ := hfollowed
      rw [patternsExpected_cons_false, rewriteTokens_cons]
      by_cases hreg : isRegexComparator t = true
      · simp only [hreg, if_true] at hhead ⊢
        cases rest with
        | nil => simp at hhead
        | cons u rest2 =>
          have hn2 : rest2.length ≤ n := by simp at hn1; omega
          have htyped2 : ∀ x ∈ rest2, lexerTyped x :=
            fun x hx => htyped1 x (List.mem_cons_of_mem _ hx)
          have hfollowed2 : regexComparatorsFollowed rest2 = true := by
            rw [regexComparatorsFollowed, Bool.and_eq_true] at hfollowed1
            exact hfollowed1.2
          by_cases hu : u.Kind = TokenKind.STRING
          · obtain ⟨expr, hexpr⟩ := htyped1 u (List.mem_cons_self _ _) (Or.inr hu)
            rw [patternsExpected_cons_string compile u rest2 expr hu hexpr]
            simp only [hu, if_true, hexpr]
            cases hc : compile expr with
            | error err2 =>
              refine ⟨?_, ?_⟩
              · intro expected h; simp [consToken] at h
              · intro err h
                simp only [consToken, Except.error.injEq] at h
                subst h
                exact ⟨_, rfl⟩
            | ok compiled =>
              obtain ⟨ih1, ih2⟩ := ih rest2 hn2 htyped2 hfollowed2
              refine ⟨?_, ?_⟩
              · intro expected h
                obtain ⟨tail, htail, hexp⟩ := consToken_eq_ok _ _ _ h
                obtain ⟨tail2, htail2, hexp2⟩ := consToken_eq_ok _ _ _ htail
                simp only []
                rw [Result.map_eq_ok _ _ _ (ih1 tail2 htail2), hexp, hexp2]
              · intro err h
                have h2 := consToken_eq_error _ _ _ (consToken_eq_error _ _ _ h)
                obtain ⟨out, hout⟩ := ih2 err h2
                simp only []
                rw [Result.map_eq_ok _ _ _ hout]
                exact ⟨_, rfl⟩
          · rw [patternsExpected_cons_other compile true u rest2 hu,
              ← patternsExpected_cons_false compile u rest2]
            simp only [hu, if_false]
            obtain ⟨ih1, ih2⟩ := ih (u :: rest2) hn1 htyped1 hfollowed1
            refine ⟨?_, ?_⟩
            · intro expected h
              obtain ⟨tail, htail, hexp⟩ := consToken_eq_ok _ _ _ h
              rw [Result.map_eq_ok _ _ _ (ih1 tail htail), hexp]
            · intro err h
              obtain ⟨out, hout⟩ := ih2 err (consToken_eq_error _ _ _ h)
              rw [Result.map_eq_ok _ _ _ hout]
              exact ⟨_, rfl⟩
      · have hreg2 : isRegexComparator t = false := by simpa using hreg
        have hnc : (t.Kind == TokenKind.COMPARATOR && !t.Value.isString) = false := by
          by_cases hk : t.Kind = TokenKind.COMPARATOR
          · obtain ⟨text, htext⟩ := htyped t (List.mem_cons_self _ _) (Or.inl hk)
            simp [htext, TokenValue.isString]
          · simp [hk]
        simp only [hreg2, hnc, Bool.false_eq_true, if_false]
        obtain ⟨ih1, ih2⟩ := ih rest hn1 htyped1 hfollowed1
        refine ⟨?_, ?_⟩
        · intro expected h
          obtain ⟨tail, htail, hexp⟩ := consToken_eq_ok _ _ _ h
          rw [Result.map_eq_ok _ _ _ (ih1 tail htail), hexp]
        · intro err h
          obtain ⟨out, hout⟩ := ih2 err (consToken_eq_error _ _ _ h)
          rw [Result.map_eq_ok _ _ _ hout]
          exact ⟨_, rfl⟩

/-- C14 as stated fails: in the one-token list that holds a COMPARATOR token
    without a symbol text, no `=~` or `!~` COMPARATOR lacks a follower, yet
    `optimizeTokens` panics on the type assertion `token.Value.(string)`; so it
    does in the list of `=~` and a STRING token that carries no string. -/
theorem optimizeTokens_untyped_counterexample :
    regexComparatorsFollowed [{ Kind := TokenKind.COMPARATOR, Value := TokenValue.nil }] = true ∧
    optimizeTokens sampleCompile [{ Kind := TokenKind.COMPARATOR, Value := TokenValue.nil }] =
      Result.panic ∧
    regexComparatorsFollowed [{ Kind := TokenKind.COMPARATOR, Value := TokenValue.string "=~" },
      { Kind := TokenKind.STRING, Value := TokenValue.nil }] = true ∧
    optimizeTokens sampleCompile [{ Kind := TokenKind.COMPARATOR, Value := TokenValue.string "=~" },
      { Kind := TokenKind.STRING, Value := TokenValue.nil }] = Result.panic := by
  refine ⟨rfl, rfl, rfl, rfl⟩

/-- C14, amended. For a token list typed as the lexer types it (a COMPARATOR
    carries its symbol text, a STRING a string) in which every `=~` or `!~`
    COMPARATOR is followed by another token, `optimizeTokens` returns without
    fault: either the list of the same length in which exactly the STRING
    tokens that stand immediately after a `=~` or `!~` COMPARATOR are replaced
    by the PATTERN token of their compiled regex, every other token unchanged,
    or, when one of those expressions does not compile, that compile error. -/
theorem optimizeTokens_contract (compile : String → Except String Regexp)
    (tokens : List ExpressionToken) (htyped : ∀ t ∈ tokens, lexerTyped t)
    (hfollowed : regexComparatorsFollowed tokens = true) :
    (∀ expected, patternsExpected compile false tokens = Except.ok expected →
      optimizeTokens compile tokens = Result.ok (expected, none) ∧
        expected.length = tokens.length) ∧
    (∀ err, patternsExpected compile false tokens = Except.error err →
      ∃ out, optimizeTokens compile tokens = Result.ok (out, some err)) := by
  have hloop := optimizeTokensLoop_split compile tokens.length tokens [] (Nat.le_refl _)
  simp only [List.length_nil, List.nil_append] at hloop
  obtain ⟨h1, h2⟩ := rewriteTokens_expected compile tokens.length tokens (Nat.le_refl _) htyped
    hfollowed
  refine ⟨?_, ?_⟩
  · intro expected h
    refine ⟨?_, patternsExpected_length compile tokens false expected h⟩
    rw [optimizeTokens, hloop, Result.map_eq_ok _ _ _ (h1 expected h)]
  · intro err h
    obtain ⟨out, hout⟩ := h2 err h
    rw [optimizeTokens, hloop, Result.map_eq_ok _ _ _ hout]
    exact ⟨_, rfl⟩

theorem optimizeTokens_contract_witness :
    optimizeTokens sampleCompile sampleRegexTokens =
      Result.ok ([{ Kind := TokenKind.VARIABLE, Value := TokenValue.string "x" },
        { Kind := TokenKind.COMPARATOR, Value := TokenValue.string "=~" },
        { Kind := TokenKind.PATTERN,
          Value := TokenValue.pattern { expr := "^a", address := sampleAddress "^a" } }], none) ∧
    [({ Kind := TokenKind.VARIABLE, Value := TokenValue.string "x" } : ExpressionToken),
        { Kind := TokenKind.COMPARATOR, Value := TokenValue.string "=~" },
        { Kind := TokenKind.PATTERN,
          Value := TokenValue.pattern { expr := "^a", address := sampleAddress "^a" } }].length =
      sampleRegexTokens.length :=
  (optimizeTokens_contract sampleCompile sampleRegexTokens
    (by
      intro t ht _
      simp only [sampleRegexTokens, List.mem_cons, List.mem_singleton, List.not_mem_nil,
        or_false] at ht
      rcases ht with h | h | h <;> subst h <;> exact ⟨_, rfl⟩)
    (by decide)).1 _ rfl

/-! ## Identifiers, functions and accessors -/

/-- A run of plain characters that ends at the end of the input, at white
    space, or at a character that fails the condition, is read whole. -/
theorem scanRun_terminated (condition : Char → Bool) (run rest : List Char) (hne : run ≠ [])
    (hrun : ∀ x ∈ run, x ≠ '\\' ∧ unicodeIsSpace x = false ∧ condition x = true)
    (hrest : rest = [] ∨ ∃ d tail, rest = d :: tail ∧ d ≠ '\\' ∧
      (unicodeIsSpace d = true ∨ condition d = false)) :
    ∃ completed used left,
      scanRun false true condition (run ++ rest) "" =
        Result.ok (String.mk run, completed, used, left) := by
  rw [scanRun_run false true condition rest run "" hrun, String.empty_append_mk]
  rcases hrest with h | ⟨d, tail, h, hd, hstop⟩
  · subst h
    exact ⟨false, run ++ [], [], by simp [scanRun_nil, Result.map]⟩
  · subst h
    have hlen : 0 < (String.mk run).length := by
      cases run with
      | nil => exact absurd rfl hne
      | cons c cs => simp [String.length]
    rw [scanRun_cons]
    simp only [hd, if_false]
    by_cases hsp : unicodeIsSpace d = true
    · have hlen2 : 0 < run.length := by simpa [String.length] using hlen
      exact ⟨true, run ++ [d], tail, by simp [hsp, hlen2, Result.map]⟩
    · have hcond : condition d = false := by
        rcases hstop with h | h
        · exact absurd h hsp
        · exact h
      exact ⟨true, run ++ [], d :: tail, by simp [hsp, hcond, Result.map]⟩

/-- At an identifier `readToken` reads the whole name and classifies it. -/
theorem readToken_identifier (L : Library) (state : lexerState)
    (functions : String → Option ExpressionFunction) (pre name rest : List Char)
    (hid : identifierAt L.unicode name rest) :
    ∃ stream, readToken L (lexerStream.split pre (name ++ rest)) state functions =
      identifierOutcome L functions (String.mk name) stream := by
  obtain ⟨⟨c, cs, hname, hletter, hnum⟩, hrun, hrest⟩ := hid
  have hne : name ≠ [] := by rw [hname]; simp
  obtain ⟨completed, used, left, hscan⟩ :=
    scanRun_terminated (isVariableName L.unicode) name rest hne hrun hrest
  have hspace : unicodeIsSpace c = false := (hrun c (by rw [hname]; simp)).2.1
  have hcomma : c ≠ ',' := by
    intro h; subst h
    simp [unicodeIsLetter, inRange] at hletter
  have hbracket : c ≠ '[' := by
    intro h; subst h
    simp [unicodeIsLetter, inRange] at hletter
  refine ⟨lexerStream.split (pre ++ used) left, ?_⟩
  subst hname
  rw [List.cons_append] at hscan ⊢
  rw [readToken, lexerStream.remaining_split, readTokenLoop]
  simp only [lexerStream.canRead_split_cons, lexerStream.readCharacter_split_cons, hspace, hnum,
    hletter, hcomma, hbracket, Bool.not_true, Bool.false_eq_true, if_false, if_true,
    readTokenVariable_eq, readTokenUntilFalse, lexerStream.rewind_split, readUntilFalse_split,
    hscan, Result.map]

theorem stringsIndexDot_of_not_mem (name : List Char) (h : '.' ∉ name) :
    stringsIndexDot (String.mk name) = -1 := by
  simp [stringsIndexDot, String.toList, h]

/-- C11 as stated fails: with a function registered under the name `true`, the
    identifier `true` lexes to a FUNCTION token, not to BOOLEAN true; the
    function table is consulted for every identifier and overrides the
    literals. -/
theorem readToken_function_named_true_counterexample :
    readToken plainLibrary (newLexerStream "true") deadState (singleFunction "true" nilFunction) =
      Result.ok ({ Kind := TokenKind.FUNCTION, Value := TokenValue.function nilFunction }, true,
        none, { source := ['t', 'r', 'u', 'e'], position := 4, length := 4 }) := by
  rfl

/-- C11, amended. When the function table does not hold the identifier,
    `true` lexes to BOOLEAN true, `false` to BOOLEAN false, and `in` and `IN`
    to a COMPARATOR whose value is `"in"`; the function table is consulted for
    every identifier, and a name found there that contains no `.` yields a
    FUNCTION token that carries the registered function, also when the name is
    `true`, `false`, `in` or `IN`. -/
theorem readToken_identifier_classes (L : Library) (state : lexerState)
    (functions : String → Option ExpressionFunction) (pre name rest : List Char)
    (hid : identifierAt L.unicode name rest) :
    ∃ stream,
      (name = "true".toList → functions "true" = none →
        readToken L (lexerStream.split pre (name ++ rest)) state functions =
          Result.ok ({ Kind := TokenKind.BOOLEAN, Value := TokenValue.bool true }, true, none,
            stream)) ∧
      (name = "false".toList → functions "false" = none →
        readToken L (lexerStream.split pre (name ++ rest)) state functions =
          Result.ok ({ Kind := TokenKind.BOOLEAN, Value := TokenValue.bool false }, true, none,
            stream)) ∧
      (name = "in".toList → functions "in" = none →
        readToken L (lexerStream.split pre (name ++ rest)) state functions =
          Result.ok ({ Kind := TokenKind.COMPARATOR, Value := TokenValue.string "in" }, true, none,
            stream)) ∧
      (name = "IN".toList → functions "IN" = none →
        readToken L (lexerStream.split pre (name ++ rest)) state functions =
          Result.ok ({ Kind := TokenKind.COMPARATOR, Value := TokenValue.string "in" }, true, none,
            stream)) ∧
      (∀ function, '.' ∉ name → functions (String.mk name) = some function →
        readToken L (lexerStream.split pre (name ++ rest)) state functions =
          Result.ok ({ Kind := TokenKind.FUNCTION, Value := TokenValue.function function }, true,
            none, stream)) := by
  obtain ⟨stream, hstream⟩ := readToken_identifier L state functions pre name rest hid
  refine ⟨stream, ?_, ?_, ?_, ?_, ?_⟩
  · intro hname hf
    subst hname
    have hf2 : functions (String.mk "true".toList) = none := hf
    rw [hstream]
    simp only [identifierOutcome, hf2]
    rfl
  · intro hname hf
    subst hname
    have hf2 : functions (String.mk "false".toList) = none := hf
    rw [hstream]
    simp only [identifierOutcome, hf2]
    rfl
  · intro hname hf
    subst hname
    have hf2 : functions (String.mk "in".toList) = none := hf
    rw [hstream]
    simp only [identifierOutcome, hf2]
    rfl
  · intro hname hf
    subst hname
    have hf2 : functions (String.mk "IN".toList) = none := hf
    rw [hstream]
    simp only [identifierOutcome, hf2]
    rfl
  · intro function hdot hf
    rw [hstream]
    simp only [identifierOutcome, hf, stringsIndexDot_of_not_mem name hdot]
    rfl

theorem readToken_identifier_classes_witness :
    (∃ stream, readToken plainLibrary (lexerStream.split ['('] ("true".toList ++ [')'])) deadState
        noFunctions =
      Result.ok ({ Kind := TokenKind.BOOLEAN, Value := TokenValue.bool true }, true, none,
        stream)) ∧
    (∃ stream, readToken plainLibrary (lexerStream.split [] ("IN".toList ++ [' ', 'x'])) deadState
        (singleFunction "IN" nilFunction) =
      Result.ok ({ Kind := TokenKind.FUNCTION, Value := TokenValue.function nilFunction }, true,
        none, stream)) :=
  ⟨(readToken_identifier_classes plainLibrary deadState noFunctions ['('] "true".toList [')']
      ⟨⟨'t', _, rfl, rfl, rfl⟩, by decide, Or.inr ⟨')', [], rfl, by decide, Or.inr rfl⟩⟩).imp
      (fun _ h => h.1 rfl rfl),
   (readToken_identifier_classes plainLibrary deadState (singleFunction "IN" nilFunction) []
      "IN".toList [' ', 'x']
      ⟨⟨'I', _, rfl, rfl, rfl⟩, by decide, Or.inr ⟨' ', ['x'], rfl, by decide, Or.inl rfl⟩⟩).imp
      (fun _ h => h.2.2.2.2 nilFunction (by decide) rfl)⟩

theorem unicodeToUpper_asciiLowercase (U : UnicodeTables) (c : Char) (hc : c ∈ asciiLowercase) :
    unicodeToUpper U c ≠ c := by
  simp only [asciiLowercase, String.toList, List.mem_cons, List.mem_singleton, List.not_mem_nil,
    or_false] at hc
  rcases hc with h | h | h | h | h | h | h | h | h | h | h | h | h | h | h | h | h | h | h | h |
    h | h | h | h | h | h <;>
    subst h <;> simp [unicodeToUpper, inRange]

theorem stringsIndexDot_pos (c : Char) (cs : List Char) (hc : c ≠ '.') (hdot : '.' ∈ c :: cs) :
    0 < stringsIndexDot (String.mk (c :: cs)) := by
  have hcs : '.' ∈ cs := by
    rcases List.mem_cons.mp hdot with h | h
    · exact absurd h.symm hc
    · exact h
  have hcont : (c :: cs).contains '.' = true := by simpa using hdot
  rw [stringsIndexDot]
  simp only [String.toList]
  rw [if_pos hcont, List.indexOf_cons_ne _ hc]
  push_cast
  omega

/-- An identifier with a `.` that ends in `.`, or in which a segment behind
    the first begins with a character that `unicode.ToUpper` changes, is
    rejected, whatever the function table holds. -/
theorem readToken_accessor_rejected (L : Library) (state : lexerState)
    (functions : String → Option ExpressionFunction) (pre name rest : List Char)
    (hid : identifierAt L.unicode name rest) (hdot : '.' ∈ name)
    (hbad : name.getLast? = some '.' ∨
      ∃ segment ∈ (splitOnDot name).drop 1,
        unicodeToUpper L.unicode (getFirstRune segment) ≠ getFirstRune segment) :
    ∃ message stream,
      readToken L (lexerStream.split pre (name ++ rest)) state functions =
        Result.ok (ExpressionToken.zero, false, some message, stream) := by
  obtain ⟨stream, hstream⟩ := readToken_identifier L state functions pre name rest hid
  obtain ⟨⟨c, cs, hname, hletter, _⟩, _, _⟩ := hid
  have hc : c ≠ '.' := by
    intro h; subst h
    simp [unicodeIsLetter, inRange] at hletter
  have hidx : 0 < stringsIndexDot (String.mk name) := by
    rw [hname] at hdot ⊢
    exact stringsIndexDot_pos c cs hc hdot
  rw [hstream]
  simp only [identifierOutcome, hidx, if_true, String.toList]
  by_cases hlast : name.getLast? = some '.'
  · simp only [hlast, if_true, readTokenError]
    exact ⟨_, _, rfl⟩
  · simp only [hlast, if_false]
    rcases hbad with h | ⟨segment, hseg, hup⟩
    · exact absurd h hlast
    · cases hfind : (List.drop 1 (splitOnDot name)).find?
          (fun split => decide (unicodeToUpper L.unicode (getFirstRune split) ≠ getFirstRune split)) with
      | none =>
        rw [List.find?_eq_none] at hfind
        have := hfind segment hseg
        simp only [decide_eq_true_eq] at this
        exact absurd hup this
      | some split =>
        simp only [readTokenError]
        exact ⟨_, _, rfl⟩

theorem readToken_accessor_rejected_witness :
    ∃ message stream,
      readToken plainLibrary (lexerStream.split [] ("a.b".toList ++ [])) deadState
          (singleFunction "a.b" nilFunction) =
        Result.ok (ExpressionToken.zero, false, some message, stream) :=
  readToken_accessor_rejected plainLibrary deadState (singleFunction "a.b" nilFunction) []
    "a.b".toList [] ⟨⟨'a', _, rfl, rfl, rfl⟩, by decide, Or.inl rfl⟩ (by decide)
    (Or.inr ⟨"b", by decide, by decide⟩)

/-- C12, at the failing inputs: for `a._b` and for `a..B` `readToken` returns
    an ACCESSOR token; the segment `_b` begins with an underscore, which is no
    uppercase letter, and the middle segment of `a..B` is empty. The check of
    the segments only rejects a first character that `unicode.ToUpper` changes. -/
theorem readToken_accessor_unexported_segments :
    readToken plainLibrary (newLexerStream "a._b") deadState noFunctions =
      Result.ok ({ Kind := TokenKind.ACCESSOR, Value := TokenValue.strings ["a", "_b"] }, true,
        none, { source := ['a', '.', '_', 'b'], position := 4, length := 4 }) ∧
    readToken plainLibrary (newLexerStream "a..B") deadState noFunctions =
      Result.ok ({ Kind := TokenKind.ACCESSOR, Value := TokenValue.strings ["a", "", "B"] }, true,
        none, { source := ['a', '.', '.', 'B'], position := 4, length := 4 }) := by
  constructor <;> rfl

/-- C13, at the failing input: the identifier `a.ß` has a second segment that
    begins with the lower-case letter `ß`, which `unicode.ToUpper` maps to
    itself; `readToken` returns an ACCESSOR token and no error. -/
theorem readToken_accessor_sharp_s :
    unicodeIsLetter sharpSTables 'ß' = true ∧ unicodeToUpper sharpSTables 'ß' = 'ß' ∧
    readToken sharpSLibrary (newLexerStream "a.ß") deadState noFunctions =
      Result.ok ({ Kind := TokenKind.ACCESSOR, Value := TokenValue.strings ["a", "ß"] }, true,
        none, { source := ['a', '.', 'ß'], position := 3, length := 3 }) := by
  refine ⟨rfl, rfl, rfl⟩

/-! ## What every ACCESSOR token satisfies -/

theorem returnsWith_finish (L : Library) (kind : TokenKind) (v : TokenValue) (s : lexerStream)
    (hk : kind ≠ TokenKind.ACCESSOR) :
    returnsWith (accessorInvariant L) (readTokenFinish kind v s) := by
  intro token found err stream h hacc
  simp only [readTokenFinish, Result.ok.injEq, Prod.mk.injEq] at h
  rw [← h.1] at hacc
  exact absurd hacc hk

theorem returnsWith_error (L : Library) (m : String) (s : lexerStream) :
    returnsWith (accessorInvariant L) (readTokenError m s) := by
  intro token found err stream h hacc
  simp only [readTokenError, Result.ok.injEq, Prod.mk.injEq] at h
  rw [← h.1] at hacc
  cases hacc

theorem returnsWith_panic (P : ExpressionToken → Prop) : returnsWith P Result.panic := by
  intro token found err stream h; cases h

theorem returnsWith_fuel (P : ExpressionToken → Prop) : returnsWith P Result.fuel := by
  intro token found err stream h; cases h

theorem returnsWith_numeric (L : Library) (c : Char) (s : lexerStream) :
    returnsWith (accessorInvariant L) (readTokenNumeric L c s) := by
  unfold readTokenNumeric
  simp only []
  repeat' split
  all_goals first
    | exact returnsWith_panic _
    | exact returnsWith_fuel _
    | exact returnsWith_error L _ _
    | exact returnsWith_finish L _ _ _ (by decide)

theorem returnsWith_symbol (L : Library) (state : lexerState) (s : lexerStream) :
    returnsWith (accessorInvariant L) (readTokenSymbol L state s) := by
  unfold readTokenSymbol
  simp only []
  repeat' split
  all_goals first
    | exact returnsWith_panic _
    | exact returnsWith_fuel _
    | exact returnsWith_error L _ _
    | exact returnsWith_finish L _ _ _ (by decide)


theorem returnsWith_identifier (L : Library) (functions : String → Option ExpressionFunction)
    (tokenString : String) (s : lexerStream) :
    returnsWith (accessorInvariant L) (identifierOutcome L functions tokenString s) := by
  unfold identifierOutcome
  simp only []
  repeat' split
  all_goals first
    | exact returnsWith_panic _
    | exact returnsWith_fuel _
    | exact returnsWith_error L _ _
    | exact returnsWith_finish L _ _ _ (by decide)
    | (dsimp only; exact returnsWith_finish L _ _ _ (by decide))
    | skip
  rename_i hlast _ hfind
  intro token found err stream h _
  simp only [readTokenFinish, Result.ok.injEq, Prod.mk.injEq] at h
  refine ⟨tokenString, by rw [← h.1], hlast, ?_⟩
  intro segment hseg
  rw [List.find?_eq_none] at hfind
  have := hfind segment hseg
  simpa using this

/-- Whenever `readToken` returns an ACCESSOR token, its value is the
    identifier split at every `.`, the identifier does not end in `.`, and no
    segment behind the first begins with a character that `unicode.ToUpper`
    changes. -/
theorem returnsWith_readTokenLoop (L : Library) (state : lexerState)
    (functions : String → Option ExpressionFunction) (fuel : Nat) :
    ∀ stream, returnsWith (accessorInvariant L) (readTokenLoop L state functions fuel stream) := by
  induction fuel with
  | zero => intro stream; exact returnsWith_fuel _
  | succ fuel ih =>
    intro stream
    rw [readTokenLoop]
    repeat' split
    all_goals first
      | exact returnsWith_panic _
      | exact returnsWith_fuel _
      | exact returnsWith_error L _ _
      | exact returnsWith_finish L _ _ _ (by decide)
      | exact ih _
      | exact returnsWith_numeric L _ _
      | exact returnsWith_symbol L _ _
      | (rw [readTokenVariable_eq]; split <;> first
          | exact returnsWith_panic _
          | exact returnsWith_fuel _
          | exact returnsWith_identifier L _ _ _)

theorem readToken_accessor_invariant (L : Library) (stream : lexerStream) (state : lexerState)
    (functions : String → Option ExpressionFunction) (token : ExpressionToken) (found : Bool)
    (err : error) (stream2 : lexerStream)
    (h : readToken L stream state functions = Result.ok (token, found, err, stream2)) :
    accessorInvariant L token :=
  returnsWith_readTokenLoop L state functions _ stream token found err stream2 h


theorem readToken_accessor_invariant_witness :
    accessorInvariant plainLibrary
      { Kind := TokenKind.ACCESSOR, Value := TokenValue.strings ["a", "B"] } :=
  readToken_accessor_invariant plainLibrary (newLexerStream "a.B") deadState noFunctions
    { Kind := TokenKind.ACCESSOR, Value := TokenValue.strings ["a", "B"] } true none
    { source := ['a', '.', 'B'], position := 3, length := 3 } rfl

/-! ## The bitwise stages -/

theorem lt_two_pow_log2Aux (fuel : Nat) : ∀ n : Nat, n ≤ fuel → n < 2 ^ (log2Aux fuel n + 1) := by
  induction fuel with
  | zero => intro n hn; simp [log2Aux]; omega
  | succ fuel ih =>
    intro n hn
    rw [log2Aux]
    by_cases h : n < 2
    · simp [h]
    · simp only [h, if_false]
      have := ih (n / 2) (by omega)
      rw [pow_succ]
      omega

theorem float64.ofRatio_integer (s : Bool) (v : Nat) (h0 : v ≠ 0) (hv : v < 2 ^ 53) :
    ∃ j : Nat, float64.ofRatio s v 1 = float64.finite s (v * 2 ^ j) (-(j : Int)) := by
  have hpos : 0 < v := Nat.pos_of_ne_zero h0
  have hlow : 2 ^ floorLog2 v ≤ v := two_pow_log2Aux_le v v hpos
  have hhigh : v < 2 ^ (floorLog2 v + 1) := lt_two_pow_log2Aux v v (le_refl v)
  have hk : floorLog2 v < 53 := by
    by_contra hcon
    have : 2 ^ 53 ≤ 2 ^ floorLog2 v := Nat.pow_le_pow_right (by decide) (by omega)
    omega
  have hone : floorLog2 1 = 0 := by decide
  generalize hkk : floorLog2 v = k at hlow hk hhigh
  have hbelow : ratioBelowPow2 v 1 (k : Int) = false := by
    simp [ratioBelowPow2]; exact hlow
  have hx : max ((k : Int) - 52) (-1074) = (k : Int) - 52 := by omega
  obtain ⟨j, hj⟩ : ∃ j : Nat, k + j = 52 := ⟨52 - k, by omega⟩
  refine ⟨j, ?_⟩
  unfold float64.ofRatio
  simp only [h0, hone, hkk, Nat.cast_zero, sub_zero, hbelow, hx, false_or, if_false,
    Bool.false_eq_true, one_ne_zero]
  have hkz : (k : Int) - 52 = -(j : Int) := by omega
  have hm : (if 0 ≤ (k : Int) - 52 then roundHalfEven v (1 * 2 ^ ((k : Int) - 52).toNat)
      else roundHalfEven (v * 2 ^ (-((k : Int) - 52)).toNat) 1) = v * 2 ^ j := by
    rw [hkz]
    by_cases hj0 : j = 0
    · subst hj0; simp [roundHalfEven_one]
    · have hneg : ¬ (0 ≤ -(j : Int)) := by omega
      simp [hneg, roundHalfEven_one]
  rw [hm, hkz]
  have hlt : v * 2 ^ j < 2 ^ 53 := by
    calc v * 2 ^ j < 2 ^ (k + 1) * 2 ^ j := Nat.mul_lt_mul_of_pos_right hhigh (by positivity)
      _ = 2 ^ 53 := by rw [← pow_add]; congr 1; omega
  have h53 : v * 2 ^ j ≠ 2 ^ 53 := by omega
  have hnot : ¬ (971 < -(j : Int)) := by omega
  simp only [h53, if_false, hnot]

theorem float64.ofRatio_truncate (s : Bool) (v : Nat) (hv : v ≤ 2 ^ 53) :
    (float64.ofRatio s v 1).truncate = some (signedInt s v) := by
  by_cases h0 : v = 0
  · subst h0
    rw [show float64.ofRatio s 0 1 = float64.finite s 0 (-1074) by simp [float64.ofRatio]]
    simp only [float64.truncate, Nat.zero_div, zero_mul, ite_self]
  by_cases h53 : v = 2 ^ 53
  · subst h53; cases s <;> decide
  obtain ⟨j, hj⟩ := float64.ofRatio_integer s v h0 (by omega)
  rw [hj]
  by_cases hj0 : j = 0
  · subst hj0; simp [float64.truncate]
  · have hneg : ¬ (0 ≤ -(j : Int)) := by omega
    simp [float64.truncate, hneg]

theorem float64.ofInt_truncate (v : Int) (hv : |v| ≤ 2 ^ 53) :
    (float64.ofInt v).truncate = some v := by
  have hnat : v.natAbs ≤ 2 ^ 53 := by
    have := Int.natCast_natAbs v
    omega
  rw [float64.ofInt, float64.ofRatio_truncate _ _ hnat]
  have hcast := Int.natCast_natAbs v
  by_cases h : v < 0
  · have := abs_of_neg h
    simp [signedInt, h]; omega
  · have := abs_of_nonneg (not_lt.mp h)
    simp [signedInt, h]; omega

theorem float64.ofRatio_exact (s : Bool) (v : Nat) (hv : v ≤ 2 ^ 53) :
    (float64.ofRatio s v 1).toRat = some ((signedInt s v : Int) : ℚ) := by
  by_cases h0 : v = 0
  · subst h0
    rw [show float64.ofRatio s 0 1 = float64.finite s 0 (-1074) by simp [float64.ofRatio]]
    cases s <;> simp [float64.toRat, signedInt]
  by_cases h53 : v = 2 ^ 53
  · subst h53
    rw [show float64.ofRatio s (2 ^ 53) 1 = float64.finite s (2 ^ 52) 1 by cases s <;> decide]
    cases s <;> simp [float64.toRat, signedInt] <;> norm_num
  obtain ⟨j, hj⟩ := float64.ofRatio_integer s v h0 (by omega)
  rw [hj]
  have hpow : ((2 : ℚ) ^ j) ≠ 0 := pow_ne_zero _ (by norm_num)
  cases s <;> simp [float64.toRat, signedInt, zpow_neg]

theorem float64.ofInt_exact (v : Int) (hv : |v| ≤ 2 ^ 53) :
    (float64.ofInt v).toRat = some (v : ℚ) := by
  have hcast := Int.natCast_natAbs v
  have hnat : v.natAbs ≤ 2 ^ 53 := by omega
  rw [float64.ofInt, float64.ofRatio_exact _ _ hnat]
  by_cases h : v < 0
  · have := abs_of_neg h
    have hv2 : signedInt (decide (v < 0)) v.natAbs = v := by simp [signedInt, h]; omega
    rw [hv2]
  · have := abs_of_nonneg (not_lt.mp h)
    have hv2 : signedInt (decide (v < 0)) v.natAbs = v := by simp [signedInt, h]; omega
    rw [hv2]

theorem Nat.land_div_two_pow (a b k : Nat) : (a &&& b) / 2 ^ k = (a / 2 ^ k) &&& (b / 2 ^ k) := by
  apply Nat.eq_of_testBit_eq
  intro i
  simp [← Nat.shiftRight_eq_div_pow, Nat.testBit_shiftRight]

theorem Nat.lor_div_two_pow (a b k : Nat) : (a ||| b) / 2 ^ k = (a / 2 ^ k) ||| (b / 2 ^ k) := by
  apply Nat.eq_of_testBit_eq
  intro i
  simp [← Nat.shiftRight_eq_div_pow, Nat.testBit_shiftRight]

theorem Nat.xor_div_two_pow (a b k : Nat) : (a ^^^ b) / 2 ^ k = (a / 2 ^ k) ^^^ (b / 2 ^ k) := by
  apply Nat.eq_of_testBit_eq
  intro i
  simp [← Nat.shiftRight_eq_div_pow, Nat.testBit_shiftRight]

theorem int64.toBits_small (v : Int) (hlo : -2 ^ 53 ≤ v) (hhi : v < 2 ^ 53) :
    int64.toBits v < 2 ^ 64 ∧ (int64.toBits v / 2 ^ 53 = 0 ∨ int64.toBits v / 2 ^ 53 = 2047) := by
  unfold int64.toBits
  omega

theorem int64.ofBits_small (n : Nat) (h : n / 2 ^ 53 = 0 ∨ n / 2 ^ 53 = 2047) :
    -2 ^ 53 ≤ int64.ofBits n ∧ int64.ofBits n < 2 ^ 53 := by
  unfold int64.ofBits
  split <;> omega

theorem int64.ofBits_toBits (v : Int) (hlo : -2 ^ 63 ≤ v) (hhi : v < 2 ^ 63) :
    int64.ofBits (int64.toBits v) = v := by
  unfold int64.ofBits int64.toBits
  split <;> omega

theorem float64.toInt64_ofInt (other : float64 → Int) (v : Int) (hv : |v| ≤ 2 ^ 53) :
    float64.toInt64 other (float64.ofInt v) = v := by
  have hlo : -2 ^ 63 ≤ v := by have := neg_abs_le v; omega
  have hhi : v < 2 ^ 63 := by have := le_abs_self v; omega
  rw [float64.toInt64, float64.ofInt_truncate v hv]
  exact if_pos ⟨hlo, hhi⟩

theorem float64.toInt64_of_truncate (other : float64 → Int) (x : float64) (t : Int)
    (hx : x.truncate = some t) (hlo : -2 ^ 63 ≤ t) (hhi : t < 2 ^ 63) :
    float64.toInt64 other x = t := by
  rw [float64.toInt64, hx]
  exact if_pos ⟨hlo, hhi⟩

theorem int64.and_small (a b : Int) (ha : -2 ^ 53 ≤ a ∧ a < 2 ^ 53) (hb : -2 ^ 53 ≤ b ∧ b < 2 ^ 53) :
    -2 ^ 53 ≤ int64.and a b ∧ int64.and a b < 2 ^ 53 := by
  obtain ⟨_, ha2⟩ := int64.toBits_small a ha.1 ha.2
  obtain ⟨_, hb2⟩ := int64.toBits_small b hb.1 hb.2
  apply int64.ofBits_small
  rw [Nat.land_div_two_pow]
  rcases ha2 with h1 | h1 <;> rcases hb2 with h2 | h2 <;> rw [h1, h2] <;> decide

theorem int64.or_small (a b : Int) (ha : -2 ^ 53 ≤ a ∧ a < 2 ^ 53) (hb : -2 ^ 53 ≤ b ∧ b < 2 ^ 53) :
    -2 ^ 53 ≤ int64.or a b ∧ int64.or a b < 2 ^ 53 := by
  obtain ⟨_, ha2⟩ := int64.toBits_small a ha.1 ha.2
  obtain ⟨_, hb2⟩ := int64.toBits_small b hb.1 hb.2
  apply int64.ofBits_small
  rw [Nat.lor_div_two_pow]
  rcases ha2 with h1 | h1 <;> rcases hb2 with h2 | h2 <;> rw [h1, h2] <;> decide

theorem int64.xor_small (a b : Int) (ha : -2 ^ 53 ≤ a ∧ a < 2 ^ 53) (hb : -2 ^ 53 ≤ b ∧ b < 2 ^ 53) :
    -2 ^ 53 ≤ int64.xor a b ∧ int64.xor a b < 2 ^ 53 := by
  obtain ⟨_, ha2⟩ := int64.toBits_small a ha.1 ha.2
  obtain ⟨_, hb2⟩ := int64.toBits_small b hb.1 hb.2
  apply int64.ofBits_small
  rw [Nat.xor_div_two_pow]
  rcases ha2 with h1 | h1 <;> rcases hb2 with h2 | h2 <;> rw [h1, h2] <;> decide

theorem Nat.ones_xor (n : Nat) (hn : n < 2 ^ 64) : (2 ^ 64 - 1) ^^^ n = 2 ^ 64 - (n + 1) := by
  apply Nat.eq_of_testBit_eq
  intro i
  rw [Nat.testBit_xor, Nat.testBit_two_pow_sub_one, Nat.testBit_two_pow_sub_succ hn]
  by_cases hi : i < 64
  · simp [hi]
  · have : n < 2 ^ i := lt_of_lt_of_le hn (Nat.pow_le_pow_right (by decide) (by omega))
    simp [hi, Nat.testBit_lt_two_pow this]

theorem int64.not_eq (x : Int) (hlo : -2 ^ 63 ≤ x) (hhi : x < 2 ^ 63) : int64.not x = -x - 1 := by
  have hones : int64.toBits (-1) = 2 ^ 64 - 1 := by decide
  have hbits : int64.toBits x < 2 ^ 64 := by unfold int64.toBits; omega
  rw [int64.not, int64.xor, hones, Nat.ones_xor _ hbits]
  unfold int64.ofBits int64.toBits
  split <;> omega

theorem float64.truncate_spec (x : float64) (q : ℚ) (hq : x.toRat = some q) :
    x.truncate = some (if 0 ≤ q then ⌊q⌋ else ⌈q⌉) := by
  cases x with
  | inf s => simp [float64.toRat] at hq
  | nan => simp [float64.toRat] at hq
  | finite s m e =>
    simp only [float64.toRat, Option.some.injEq] at hq
    simp only [float64.truncate, Option.some.injEq]
    by_cases he : 0 ≤ e
    · obtain ⟨k, rfl⟩ := Int.eq_ofNat_of_zero_le he
      have hqz : q = ((signedInt s (m * 2 ^ k) : Int) : ℚ) := by
        rw [← hq]; cases s <;> simp [signedInt]
      simp only [he, if_true, Int.toNat_ofNat, hqz, Int.floor_intCast, Int.ceil_intCast, ite_self]
    · have hk : ∃ k : Nat, e = -(k : Int) := ⟨(-e).toNat, by omega⟩
      obtain ⟨k, rfl⟩ := hk
      simp only [he, if_false, neg_neg, Int.toNat_ofNat]
      have hfloor : ⌊((m : ℚ) / ((2 ^ k : Nat) : ℚ))⌋ = ((m / 2 ^ k : Nat) : Int) := by
        have := Rat.floor_intCast_div_natCast (m : Int) (2 ^ k)
        simpa using this
      have hdiv : (m : ℚ) * (2 : ℚ) ^ (-(k : Int)) = (m : ℚ) / ((2 ^ k : Nat) : ℚ) := by
        rw [zpow_neg, zpow_natCast]; push_cast; ring
      have hnonneg : (0 : ℚ) ≤ (m : ℚ) / ((2 ^ k : Nat) : ℚ) := by positivity
      cases s with
      | false =>
        have hqv : q = (m : ℚ) / ((2 ^ k : Nat) : ℚ) := by rw [← hq, ← hdiv]; simp
        rw [hqv, if_pos hnonneg, hfloor]
        simp [signedInt]
      | true =>
        have hqv : q = -((m : ℚ) / ((2 ^ k : Nat) : ℚ)) := by rw [← hq, ← hdiv]; simp
        rw [hqv]
        by_cases hz : (m : ℚ) / ((2 ^ k : Nat) : ℚ) = 0
        · have hm0 : m / 2 ^ k = 0 := by
            have h0 : ((m / 2 ^ k : Nat) : Int) = 0 := by rw [← hfloor, hz]; simp
            exact Int.ofNat_eq_zero.mp h0
          rw [hz]; simp [signedInt, hm0]
        · have hneg : ¬ (0 ≤ -((m : ℚ) / ((2 ^ k : Nat) : ℚ))) := by
            intro h
            apply hz
            linarith
          rw [if_neg hneg, Int.ceil_neg, hfloor]
          simp [signedInt]
theorem truncation_small (p : ℚ) (hp : |p| < 2 ^ 53) :
    -2 ^ 53 ≤ (if 0 ≤ p then ⌊p⌋ else ⌈p⌉) ∧ (if 0 ≤ p then ⌊p⌋ else ⌈p⌉) < 2 ^ 53 := by
  have h1 := abs_lt.mp hp
  by_cases h : 0 ≤ p
  · rw [if_pos h]
    have hfl : (0 : Int) ≤ ⌊p⌋ := Int.floor_nonneg.mpr h
    have hlt : ⌊p⌋ < 2 ^ 53 := by
      rw [Int.floor_lt]; push_cast; exact h1.2
    omega
  · rw [if_neg h]
    have hce : ⌈p⌉ ≤ 0 := by
      rw [Int.ceil_le]; push_cast; linarith
    have hgt : -2 ^ 53 < ⌈p⌉ := by
      rw [Int.lt_ceil]; push_cast; exact h1.1
    omega

theorem bitwiseStages_integers (other : float64 → Int) (left : Value) (parameters : Parameters)
    (a b : Int) (ha : -2 ^ 53 ≤ a ∧ a < 2 ^ 53) (hb : -2 ^ 53 ≤ b ∧ b < 2 ^ 53) :
    (bitwiseAndStage other (Value.number (float64.ofInt a)) (Value.number (float64.ofInt b))
        parameters = Result.ok (Value.number (float64.ofInt (int64.and a b)), none)
      ∧ (float64.ofInt (int64.and a b)).toRat = some ((int64.and a b : Int) : ℚ))
    ∧ (bitwiseOrStage other (Value.number (float64.ofInt a)) (Value.number (float64.ofInt b))
        parameters = Result.ok (Value.number (float64.ofInt (int64.or a b)), none)
      ∧ (float64.ofInt (int64.or a b)).toRat = some ((int64.or a b : Int) : ℚ))
    ∧ (bitwiseXORStage other (Value.number (float64.ofInt a)) (Value.number (float64.ofInt b))
        parameters = Result.ok (Value.number (float64.ofInt (int64.xor a b)), none)
      ∧ (float64.ofInt (int64.xor a b)).toRat = some ((int64.xor a b : Int) : ℚ))
    ∧ (bitwiseNotStage other left (Value.number (float64.ofInt a)) parameters
        = Result.ok (Value.number (float64.ofInt (-a - 1)), none)
      ∧ (float64.ofInt (-a - 1)).toRat = some ((-a - 1 : Int) : ℚ)) := by
  have habs : ∀ v : Int, -2 ^ 53 ≤ v ∧ v < 2 ^ 53 → |v| ≤ 2 ^ 53 := by
    intro v hv; rw [abs_le]; omega
  have hca := float64.toInt64_ofInt other a (habs a ha)
  have hcb := float64.toInt64_ofInt other b (habs b hb)
  have hnot : int64.not a = -a - 1 := int64.not_eq a (by omega) (by omega)
  refine ⟨⟨?_, float64.ofInt_exact _ (habs _ (int64.and_small a b ha hb))⟩,
    ⟨?_, float64.ofInt_exact _ (habs _ (int64.or_small a b ha hb))⟩,
    ⟨?_, float64.ofInt_exact _ (habs _ (int64.xor_small a b ha hb))⟩,
    ?_, float64.ofInt_exact _ (habs _ (by omega))⟩
  · simp only [bitwiseAndStage, hca, hcb]
  · simp only [bitwiseOrStage, hca, hcb]
  · simp only [bitwiseXORStage, hca, hcb]
  · simp only [bitwiseNotStage, hca, hnot]
theorem int64.toBits_natCast (m : Nat) (hm : m < 2 ^ 63) : int64.toBits (m : Int) = m := by
  unfold int64.toBits
  omega

theorem int64.toBits_negSucc (n : Nat) (hn : n < 2 ^ 63) :
    int64.toBits (Int.negSucc n) = 2 ^ 64 - (n + 1) := by
  unfold int64.toBits
  have : Int.negSucc n = -((n : Int) + 1) := rfl
  omega

theorem int64.ofBits_low (k : Nat) (hk : k < 2 ^ 63) : int64.ofBits k = (k : Int) := by
  unfold int64.ofBits
  split <;> omega

theorem int64.ofBits_high (k : Nat) (hk : k < 2 ^ 63) :
    int64.ofBits (2 ^ 64 - (k + 1)) = Int.negSucc k := by
  unfold int64.ofBits
  have : Int.negSucc k = -((k : Int) + 1) := rfl
  split <;> omega

theorem Nat.testBit_high (m i : Nat) (hm : m < 2 ^ 63) (hi : ¬ i < 64) : m.testBit i = false :=
  Nat.testBit_lt_two_pow (lt_of_lt_of_le hm (Nat.pow_le_pow_right (by decide) (by omega)))

theorem Nat.lt_of_testBit_high (x : Nat) (h : ∀ i, 63 ≤ i → x.testBit i = false) : x < 2 ^ 63 :=
  Nat.lt_pow_two_of_testBit x h

theorem Nat.ldiff_lt (m n : Nat) (hm : m < 2 ^ 63) : Nat.ldiff m n < 2 ^ 63 := by
  apply Nat.lt_of_testBit_high
  intro i hi
  rw [Nat.testBit_ldiff]
  have : m.testBit i = false :=
    Nat.testBit_lt_two_pow (lt_of_lt_of_le hm (Nat.pow_le_pow_right (by decide) hi))
  simp [this]

theorem Nat.land_complement (m n : Nat) (hm : m < 2 ^ 63) (hn : n < 2 ^ 63) :
    m &&& (2 ^ 64 - (n + 1)) = Nat.ldiff m n := by
  have hn2 : n < 2 ^ 64 := by omega
  apply Nat.eq_of_testBit_eq
  intro i
  rw [Nat.testBit_and, Nat.testBit_two_pow_sub_succ hn2, Nat.testBit_ldiff]
  by_cases hi : i < 64
  · simp [hi]
  · simp [hi, Nat.testBit_high m i hm hi]

theorem Nat.land_complements (m n : Nat) (hm : m < 2 ^ 63) (hn : n < 2 ^ 63) :
    (2 ^ 64 - (m + 1)) &&& (2 ^ 64 - (n + 1)) = 2 ^ 64 - ((m ||| n) + 1) := by
  have hm2 : m < 2 ^ 64 := by omega
  have hn2 : n < 2 ^ 64 := by omega
  have hor : m ||| n < 2 ^ 64 := Nat.or_lt_two_pow hm2 hn2
  apply Nat.eq_of_testBit_eq
  intro i
  rw [Nat.testBit_and, Nat.testBit_two_pow_sub_succ hm2, Nat.testBit_two_pow_sub_succ hn2,
    Nat.testBit_two_pow_sub_succ hor, Nat.testBit_or]
  by_cases hi : i < 64 <;> simp [hi]

theorem Nat.lor_complement (m n : Nat) (hm : m < 2 ^ 63) (hn : n < 2 ^ 63) :
    m ||| (2 ^ 64 - (n + 1)) = 2 ^ 64 - (Nat.ldiff n m + 1) := by
  have hn2 : n < 2 ^ 64 := by omega
  have hd : Nat.ldiff n m < 2 ^ 64 := by have := Nat.ldiff_lt n m hn; omega
  apply Nat.eq_of_testBit_eq
  intro i
  rw [Nat.testBit_or, Nat.testBit_two_pow_sub_succ hn2, Nat.testBit_two_pow_sub_succ hd,
    Nat.testBit_ldiff]
  by_cases hi : i < 64
  · cases m.testBit i <;> cases n.testBit i <;> simp [hi]
  · simp [hi, Nat.testBit_high m i hm hi]

theorem Nat.lor_complements (m n : Nat) (hm : m < 2 ^ 63) (hn : n < 2 ^ 63) :
    (2 ^ 64 - (m + 1)) ||| (2 ^ 64 - (n + 1)) = 2 ^ 64 - ((m &&& n) + 1) := by
  have hm2 : m < 2 ^ 64 := by omega
  have hn2 : n < 2 ^ 64 := by omega
  have hand : m &&& n < 2 ^ 64 := Nat.and_lt_two_pow m hn2
  apply Nat.eq_of_testBit_eq
  intro i
  rw [Nat.testBit_or, Nat.testBit_two_pow_sub_succ hm2, Nat.testBit_two_pow_sub_succ hn2,
    Nat.testBit_two_pow_sub_succ hand, Nat.testBit_and]
  by_cases hi : i < 64
  · cases m.testBit i <;> cases n.testBit i <;> simp [hi]
  · simp [hi]

theorem Nat.xor_complement (m n : Nat) (hm : m < 2 ^ 63) (hn : n < 2 ^ 63) :
    m ^^^ (2 ^ 64 - (n + 1)) = 2 ^ 64 - ((m ^^^ n) + 1) := by
  have hm2 : m < 2 ^ 64 := by omega
  have hn2 : n < 2 ^ 64 := by omega
  have hx : m ^^^ n < 2 ^ 64 := Nat.xor_lt_two_pow hm2 hn2
  apply Nat.eq_of_testBit_eq
  intro i
  rw [Nat.testBit_xor, Nat.testBit_two_pow_sub_succ hn2, Nat.testBit_two_pow_sub_succ hx,
    Nat.testBit_xor]
  by_cases hi : i < 64
  · cases m.testBit i <;> cases n.testBit i <;> simp [hi]
  · simp [hi, Nat.testBit_high m i hm hi]

theorem Nat.xor_complements (m n : Nat) (hm : m < 2 ^ 63) (hn : n < 2 ^ 63) :
    (2 ^ 64 - (m + 1)) ^^^ (2 ^ 64 - (n + 1)) = m ^^^ n := by
  have hm2 : m < 2 ^ 64 := by omega
  have hn2 : n < 2 ^ 64 := by omega
  apply Nat.eq_of_testBit_eq
  intro i
  rw [Nat.testBit_xor, Nat.testBit_two_pow_sub_succ hm2, Nat.testBit_two_pow_sub_succ hn2,
    Nat.testBit_xor]
  by_cases hi : i < 64
  · cases m.testBit i <;> cases n.testBit i <;> simp [hi]
  · simp [hi, Nat.testBit_high m i hm hi, Nat.testBit_high n i hn hi]

theorem int64.range_cases (v : Int) (hlo : -2 ^ 63 ≤ v) (hhi : v < 2 ^ 63) :
    (∃ m : Nat, m < 2 ^ 63 ∧ v = (m : Int)) ∨ (∃ n : Nat, n < 2 ^ 63 ∧ v = Int.negSucc n) := by
  cases v with
  | ofNat m => left; exact ⟨m, by have : Int.ofNat m = (m : Int) := rfl; omega, rfl⟩
  | negSucc n =>
    right
    exact ⟨n, by have : Int.negSucc n = -((n : Int) + 1) := rfl; omega, rfl⟩

/-- On the range of `int64`, the operators on 64-bit patterns are the bitwise
    operations of the integers in two's complement. -/
theorem int64.and_eq_land (a b : Int) (ha : -2 ^ 63 ≤ a ∧ a < 2 ^ 63)
    (hb : -2 ^ 63 ≤ b ∧ b < 2 ^ 63) : int64.and a b = Int.land a b := by
  rcases int64.range_cases a ha.1 ha.2 with ⟨m, hm, rfl⟩ | ⟨m, hm, rfl⟩ <;>
    rcases int64.range_cases b hb.1 hb.2 with ⟨n, hn, rfl⟩ | ⟨n, hn, rfl⟩
  · rw [int64.and, int64.toBits_natCast m hm, int64.toBits_natCast n hn,
      int64.ofBits_low _ (lt_of_le_of_lt Nat.and_le_left hm)]
    rfl
  · rw [int64.and, int64.toBits_natCast m hm, int64.toBits_negSucc n hn,
      Nat.land_complement m n hm hn, int64.ofBits_low _ (Nat.ldiff_lt m n hm)]
    rfl
  · rw [int64.and, int64.toBits_negSucc m hm, int64.toBits_natCast n hn, Nat.land_comm,
      Nat.land_complement n m hn hm, int64.ofBits_low _ (Nat.ldiff_lt n m hn)]
    rfl
  · rw [int64.and, int64.toBits_negSucc m hm, int64.toBits_negSucc n hn,
      Nat.land_complements m n hm hn,
      int64.ofBits_high _ (Nat.or_lt_two_pow hm hn)]
    rfl

theorem int64.or_eq_lor (a b : Int) (ha : -2 ^ 63 ≤ a ∧ a < 2 ^ 63)
    (hb : -2 ^ 63 ≤ b ∧ b < 2 ^ 63) : int64.or a b = Int.lor a b := by
  rcases int64.range_cases a ha.1 ha.2 with ⟨m, hm, rfl⟩ | ⟨m, hm, rfl⟩ <;>
    rcases int64.range_cases b hb.1 hb.2 with ⟨n, hn, rfl⟩ | ⟨n, hn, rfl⟩
  · rw [int64.or, int64.toBits_natCast m hm, int64.toBits_natCast n hn,
      int64.ofBits_low _ (Nat.or_lt_two_pow hm hn)]
    rfl
  · rw [int64.or, int64.toBits_natCast m hm, int64.toBits_negSucc n hn,
      Nat.lor_complement m n hm hn, int64.ofBits_high _ (Nat.ldiff_lt n m hn)]
    rfl
  · rw [int64.or, int64.toBits_negSucc m hm, int64.toBits_natCast n hn, Nat.lor_comm,
      Nat.lor_complement n m hn hm, int64.ofBits_high _ (Nat.ldiff_lt m n hm)]
    rfl
  · rw [int64.or, int64.toBits_negSucc m hm, int64.toBits_negSucc n hn,
      Nat.lor_complements m n hm hn,
      int64.ofBits_high _ (lt_of_le_of_lt Nat.and_le_left hm)]
    rfl

theorem int64.xor_eq_xor (a b : Int) (ha : -2 ^ 63 ≤ a ∧ a < 2 ^ 63)
    (hb : -2 ^ 63 ≤ b ∧ b < 2 ^ 63) : int64.xor a b = Int.xor a b := by
  rcases int64.range_cases a ha.1 ha.2 with ⟨m, hm, rfl⟩ | ⟨m, hm, rfl⟩ <;>
    rcases int64.range_cases b hb.1 hb.2 with ⟨n, hn, rfl⟩ | ⟨n, hn, rfl⟩
  · rw [int64.xor, int64.toBits_natCast m hm, int64.toBits_natCast n hn,
      int64.ofBits_low _ (Nat.xor_lt_two_pow hm hn)]
    rfl
  · rw [int64.xor, int64.toBits_natCast m hm, int64.toBits_negSucc n hn,
      Nat.xor_complement m n hm hn, int64.ofBits_high _ (Nat.xor_lt_two_pow hm hn)]
    rfl
  · rw [int64.xor, int64.toBits_negSucc m hm, int64.toBits_natCast n hn, Nat.xor_comm,
      Nat.xor_complement n m hn hm, int64.ofBits_high _ (Nat.xor_lt_two_pow hn hm)]
    rw [Nat.xor_comm]
    rfl
  · rw [int64.xor, int64.toBits_negSucc m hm, int64.toBits_negSucc n hn,
      Nat.xor_complements m n hm hn, int64.ofBits_low _ (Nat.xor_lt_two_pow hm hn)]
    rfl

/-- C21: on integers `a`, `b` of magnitude below `2^53`, given as Numbers,
    `bitwiseAndStage`, `bitwiseOrStage` and `bitwiseXORStage` return the Number
    that is exactly the two's-complement 64-bit AND, OR and XOR of `a` and `b`,
    which are the bitwise operations `Int.land`, `Int.lor` and `Int.xor` of the
    integers; `bitwiseNotStage` returns the Number `-a - 1`, and applied to
    that result it gives `a` back. An operand with a fractional part counts
    as its truncation toward zero: the stages give on `x`, `y` what they give
    on the integers `truncateTowardZero` of their values. -/
theorem bitwiseStages_contract (other : float64 → Int) (left : Value) (parameters : Parameters)
    (a b : Int) (ha : |a| < 2 ^ 53) (hb : |b| < 2 ^ 53) :
    (bitwiseAndStage other (Value.number (float64.ofInt a)) (Value.number (float64.ofInt b))
        parameters = Result.ok (Value.number (float64.ofInt (int64.and a b)), none)
      ∧ int64.and a b = Int.land a b
      ∧ (float64.ofInt (int64.and a b)).toRat = some ((int64.and a b : Int) : ℚ))
    ∧ (bitwiseOrStage other (Value.number (float64.ofInt a)) (Value.number (float64.ofInt b))
        parameters = Result.ok (Value.number (float64.ofInt (int64.or a b)), none)
      ∧ int64.or a b = Int.lor a b
      ∧ (float64.ofInt (int64.or a b)).toRat = some ((int64.or a b : Int) : ℚ))
    ∧ (bitwiseXORStage other (Value.number (float64.ofInt a)) (Value.number (float64.ofInt b))
        parameters = Result.ok (Value.number (float64.ofInt (int64.xor a b)), none)
      ∧ int64.xor a b = Int.xor a b
      ∧ (float64.ofInt (int64.xor a b)).toRat = some ((int64.xor a b : Int) : ℚ))
    ∧ (bitwiseNotStage other left (Value.number (float64.ofInt a)) parameters
        = Result.ok (Value.number (float64.ofInt (-a - 1)), none)
      ∧ (float64.ofInt (-a - 1)).toRat = some ((-a - 1 : Int) : ℚ)
      ∧ bitwiseNotStage other left (Value.number (float64.ofInt (-a - 1))) parameters
        = Result.ok (Value.number (float64.ofInt a), none))
    ∧ (∀ (x y : float64) (p q : ℚ), x.toRat = some p → y.toRat = some q →
        |p| < 2 ^ 53 → |q| < 2 ^ 53 →
        bitwiseAndStage other (Value.number x) (Value.number y) parameters
          = bitwiseAndStage other (Value.number (float64.ofInt (truncateTowardZero p)))
              (Value.number (float64.ofInt (truncateTowardZero q))) parameters
        ∧ bitwiseOrStage other (Value.number x) (Value.number y) parameters
          = bitwiseOrStage other (Value.number (float64.ofInt (truncateTowardZero p)))
              (Value.number (float64.ofInt (truncateTowardZero q))) parameters
        ∧ bitwiseXORStage other (Value.number x) (Value.number y) parameters
          = bitwiseXORStage other (Value.number (float64.ofInt (truncateTowardZero p)))
              (Value.number (float64.ofInt (truncateTowardZero q))) parameters
        ∧ bitwiseNotStage other left (Value.number x) parameters
          = bitwiseNotStage other left (Value.number (float64.ofInt (truncateTowardZero p)))
              parameters) := by
  have ha2 : -2 ^ 53 ≤ a ∧ a < 2 ^ 53 := by have := abs_lt.mp ha; omega
  have hb2 : -2 ^ 53 ≤ b ∧ b < 2 ^ 53 := by have := abs_lt.mp hb; omega
  obtain ⟨hand, hor, hxor, hnot, hnotExact⟩ :=
    bitwiseStages_integers other left parameters a b ha2 hb2
  have hback := (bitwiseStages_integers other left parameters (-a - 1) b
    (by omega) hb2).2.2.2.1
  have hneg : -(-a - 1) - 1 = a := by ring
  rw [hneg] at hback
  have ha3 : -2 ^ 63 ≤ a ∧ a < 2 ^ 63 := by omega
  have hb3 : -2 ^ 63 ≤ b ∧ b < 2 ^ 63 := by omega
  refine ⟨⟨hand.1, int64.and_eq_land a b ha3 hb3, hand.2⟩,
    ⟨hor.1, int64.or_eq_lor a b ha3 hb3, hor.2⟩,
    ⟨hxor.1, int64.xor_eq_xor a b ha3 hb3, hxor.2⟩, ⟨hnot, hnotExact, hback⟩, ?_⟩
  intro x y p q hx hy hp hq
  have hp2 := truncation_small p hp
  have hq2 := truncation_small q hq
  have habs : ∀ v : Int, -2 ^ 53 ≤ v ∧ v < 2 ^ 53 → |v| ≤ 2 ^ 53 := by
    intro v hv; rw [abs_le]; omega
  have hxt := float64.toInt64_of_truncate other x _ (float64.truncate_spec x p hx)
    (by have := hp2.1; omega) (by have := hp2.2; omega)
  have hyt := float64.toInt64_of_truncate other y _ (float64.truncate_spec y q hy)
    (by have := hq2.1; omega) (by have := hq2.2; omega)
  have hxi := float64.toInt64_ofInt other _ (habs _ hp2)
  have hyi := float64.toInt64_ofInt other _ (habs _ hq2)
  simp only [bitwiseAndStage, bitwiseOrStage, bitwiseXORStage, bitwiseNotStage, truncateTowardZero]
  rw [hxt, hyt, hxi, hyi]
  exact ⟨rfl, rfl, rfl, rfl⟩

theorem bitwiseStages_contract_witness :
    (|(-5 : Int)| < 2 ^ 53 ∧ |(3 : Int)| < 2 ^ 53)
    ∧ bitwiseAndStage (fun _ => 0) (Value.number (float64.ofInt (-5)))
        (Value.number (float64.ofInt 3)) noParameters
      = Result.ok (Value.number (float64.ofInt 3), none)
    ∧ bitwiseNotStage (fun _ => 0) Value.null (Value.number (float64.ofInt (-5))) noParameters
      = Result.ok (Value.number (float64.ofInt 4), none) :=
  have h := bitwiseStages_contract (fun _ => 0) Value.null noParameters (-5) 3
    (by decide) (by decide)
  ⟨⟨by decide, by decide⟩, h.1.1, h.2.2.2.1.1⟩

/-! ## The names of the token kinds -/

/-- C23: `TokenKind.String` is injective on the fourteen kinds that
    `TestTokenKindStrings` lists: their strings have no duplicate, and two of
    these kinds with the same string are the same kind. -/
theorem tokenKindStrings_distinct :
    (testedKinds.map TokenKind.String).Nodup
    ∧ ∀ a ∈ testedKinds, ∀ b ∈ testedKinds, a.String = b.String → a = b := by
  decide

/-! ## The positions of the character stream -/

theorem lexerStream.readCharacter_inBounds (s : lexerStream) (h : s.inBounds) :
    s.readCharacter = Result.panic ∨
    ∃ c, s.readCharacter = Result.ok (c, { s with position := s.position + 1 }) ∧
      s.position < s.length := by
  obtain ⟨hlen, hpos, _⟩ := h
  unfold lexerStream.readCharacter
  rw [if_pos hpos]
  cases hget : s.source.get? s.position.toNat with
  | none => left; rfl
  | some c =>
    right
    refine ⟨c, rfl, ?_⟩
    have := List.get?_eq_some.mp hget
    obtain ⟨hlt, _⟩ := this
    omega

theorem lexerStream.readCharacter_canRead (s : lexerStream) (h : s.inBounds)
    (hcan : s.canRead = true) :
    ∃ c, s.readCharacter = Result.ok (c, { s with position := s.position + 1 }) := by
  obtain ⟨hlen, hpos, _⟩ := h
  have hlt : s.position < s.length := by simpa [lexerStream.canRead] using hcan
  unfold lexerStream.readCharacter
  rw [if_pos hpos]
  have hidx : s.position.toNat < s.source.length := by omega
  rw [List.get?_eq_get hidx]
  exact ⟨_, rfl⟩

theorem scanBounded_panic (s : lexerStream) (bw : Bool) (buffer : String) :
    scanBounded s bw buffer Result.panic :=
  ⟨by simp, by intro _ _ _ h; cases h⟩

theorem readUntilFalseLoop_bounded (iw bw : Bool) (condition : Char → Bool) :
    ∀ (fuel : Nat) (s : lexerStream) (buffer : String), s.inBounds → s.remaining ≤ fuel →
      scanBounded s bw buffer (readUntilFalseLoop iw bw condition fuel s buffer) := by
  intro fuel
  induction fuel with
  | zero =>
    intro s buffer _ hrem
    simp [lexerStream.remaining] at hrem
  | succ fuel ih =>
    intro s buffer hin hrem
    have hin2 := hin
    obtain ⟨hlen, hpos, hle⟩ := hin2
    rw [readUntilFalseLoop]
    by_cases hcan : s.canRead = true
    · have hlt : s.position < s.length := by simpa [lexerStream.canRead] using hcan
      obtain ⟨c, hc⟩ := lexerStream.readCharacter_canRead s hin hcan
      simp only [hcan, Bool.not_true, Bool.false_eq_true, if_false, hc]
      have hin1 : lexerStream.inBounds { s with position := s.position + 1 } :=
        ⟨hlen, by show 0 ≤ s.position + 1; omega, by show s.position + 1 ≤ s.length; omega⟩
      have hrem1 : lexerStream.remaining { s with position := s.position + 1 } ≤ fuel := by
        simp only [lexerStream.remaining] at hrem ⊢
        omega
      -- the result of continuing after one character
      have hstep : ∀ buffer2, scanBounded s bw buffer
          (readUntilFalseLoop iw bw condition fuel { s with position := s.position + 1 } buffer2) := by
        intro buffer2
        obtain ⟨hne, hall⟩ := ih _ buffer2 hin1 hrem1
        refine ⟨hne, ?_⟩
        intro text completed stream hr
        obtain ⟨h1, h2, h3, h4, h5, _⟩ := hall text completed stream hr
        simp only at h1 h2 h3 h4 h5
        exact ⟨h1, h2, by omega, h4, h5, by intro h; omega⟩
      by_cases hbs : c = '\\'
      · simp only [hbs, if_true]
        rcases lexerStream.readCharacter_inBounds _ hin1 with hp | ⟨c2, hc2, hlt2⟩
        · rw [hp]; exact scanBounded_panic _ _ _
        · rw [hc2]
          simp only at hlt2
          have hin2 : lexerStream.inBounds { s with position := s.position + 1 + 1 } :=
            ⟨hlen, by show 0 ≤ s.position + 1 + 1; omega, by show s.position + 1 + 1 ≤ s.length; omega⟩
          have hrem2 : lexerStream.remaining { s with position := s.position + 1 + 1 } ≤ fuel := by
            simp only [lexerStream.remaining] at hrem ⊢
            omega
          obtain ⟨hne, hall⟩ := ih _ (buffer.push c2) hin2 hrem2
          refine ⟨hne, ?_⟩
          intro text completed stream hr
          obtain ⟨h1, h2, h3, h4, h5, _⟩ := hall text completed stream hr
          simp only at h1 h2 h3 h4 h5
          exact ⟨h1, h2, by omega, h4, h5, by intro h; omega⟩
      · simp only [hbs, if_false]
        split
        · refine ⟨by simp, ?_⟩
          intro text completed stream hr
          simp only [Result.ok.injEq, Prod.mk.injEq] at hr
          obtain ⟨rfl, rfl, rfl⟩ := hr
          rename_i hws
          have hbw : bw = true := by
            simp only [Bool.and_eq_true] at hws
            exact hws.2.1
          refine ⟨rfl, rfl, by show s.position ≤ s.position + 1; omega,
            by show s.position + 1 ≤ s.length; omega, ?_, ?_⟩
          · intro _ h; rw [hbw] at h; cases h
          · intro h; simp only at h; omega
        · split
          · exact hstep _
          · split
            · exact hstep _
            · refine ⟨by simp, ?_⟩
              intro text completed stream hr
              simp only [Result.ok.injEq, Prod.mk.injEq] at hr
              obtain ⟨rfl, rfl, rfl⟩ := hr
              refine ⟨rfl, rfl, ?_, ?_, ?_, ?_⟩
              · show s.position ≤ s.position + 1 - 1; omega
              · show s.position + 1 - 1 ≤ s.length; omega
              · intro _ _; show s.position + 1 - 1 < s.length; omega
              · intro _; rfl
    · have hcan2 : s.canRead = false := by simpa using hcan
      simp only [hcan2, Bool.not_false, if_true]
      refine ⟨by simp, ?_⟩
      intro text completed stream hr
      simp only [Result.ok.injEq, Prod.mk.injEq] at hr
      obtain ⟨rfl, rfl, rfl⟩ := hr
      refine ⟨rfl, rfl, le_refl _, hle, ?_, ?_⟩
      · intro h; cases h
      · intro _; rfl

theorem readUntilFalse_bounded (iw bw : Bool) (condition : Char → Bool) (s : lexerStream)
    (h : s.inBounds) : scanBounded s bw "" (readUntilFalse s iw bw condition) :=
  readUntilFalseLoop_bounded iw bw condition _ s "" h (le_refl _)

theorem readBounded_panic (source : List Char) (length position : Int) :
    readBounded source length position Result.panic :=
  ⟨by simp, by intro _ _ _ _ h; cases h⟩

theorem readBounded_finish (source : List Char) (length position : Int) (kind : TokenKind)
    (v : TokenValue) (s : lexerStream) (h1 : s.source = source) (h2 : s.length = length)
    (h3 : 0 ≤ s.position) (h4 : s.position ≤ length) (h5 : position < s.position) :
    readBounded source length position (readTokenFinish kind v s) := by
  refine ⟨by simp [readTokenFinish], ?_⟩
  intro token found err stream h
  simp only [readTokenFinish, Result.ok.injEq, Prod.mk.injEq] at h
  obtain ⟨_, _, _, rfl⟩ := h
  exact ⟨h1, h2, h3, h4, fun _ => h5⟩

theorem readBounded_error (source : List Char) (length position : Int) (m : String)
    (s : lexerStream) (h1 : s.source = source) (h2 : s.length = length)
    (h3 : 0 ≤ s.position) (h4 : s.position ≤ length) :
    readBounded source length position (readTokenError m s) := by
  refine ⟨by simp [readTokenError], ?_⟩
  intro token found err stream h
  simp only [readTokenError, Result.ok.injEq, Prod.mk.injEq] at h
  obtain ⟨_, rfl, _, rfl⟩ := h
  exact ⟨h1, h2, h3, h4, by intro h; cases h⟩

theorem readBounded_unknown (source : List Char) (length position : Int) (v : TokenValue)
    (s : lexerStream) (h1 : s.source = source) (h2 : s.length = length)
    (h3 : 0 ≤ s.position) (h4 : s.position ≤ length) :
    readBounded source length position (readTokenFinish TokenKind.UNKNOWN v s) := by
  refine ⟨by simp [readTokenFinish], ?_⟩
  intro token found err stream h
  simp only [readTokenFinish, Result.ok.injEq, Prod.mk.injEq] at h
  obtain ⟨_, rfl, _, rfl⟩ := h
  exact ⟨h1, h2, h3, h4, by intro h; simp at h⟩

theorem readBounded_mono (source : List Char) (length p q : Int) (hpq : p ≤ q)
    (r : ReadTokenReturn) (h : readBounded source length q r) :
    readBounded source length p r := by
  refine ⟨h.1, ?_⟩
  intro token found err stream hr
  obtain ⟨h1, h2, h3, h4, h5⟩ := h.2 token found err stream hr
  exact ⟨h1, h2, h3, h4, fun hf => lt_of_le_of_lt hpq (h5 hf)⟩

/-- What `readTokenUntilFalse` returns on a stream that has just read a
    character: it does not go back before that character, and it stands on it
    again only with an empty text. -/
theorem readTokenUntilFalse_bounded (condition : Char → Bool) (stream : lexerStream)
    (h : (stream.rewind 1).inBounds) :
    readTokenUntilFalse stream condition ≠ Result.fuel ∧
    ∀ text s, readTokenUntilFalse stream condition = Result.ok (text, s) →
      s.source = stream.source ∧ s.length = stream.length ∧ stream.position - 1 ≤ s.position ∧
      s.position ≤ stream.length ∧ (s.position = stream.position - 1 → text = "") := by
  obtain ⟨hne, hall⟩ := readUntilFalse_bounded false true condition (stream.rewind 1) h
  unfold readTokenUntilFalse
  generalize readUntilFalse (stream.rewind 1) false true condition = r at hne hall
  cases r with
  | panic => exact ⟨by simp, by intro _ _ h; cases h⟩
  | fuel => exact absurd rfl hne
  | ok v =>
    obtain ⟨text, completed, s⟩ := v
    refine ⟨by simp, ?_⟩
    intro text2 s2 h2
    simp only [Result.ok.injEq, Prod.mk.injEq] at h2
    obtain ⟨rfl, rfl⟩ := h2
    obtain ⟨h1, h2, h3, h4, _, h6⟩ := hall text completed s rfl
    exact ⟨h1, h2, h3, h4, h6⟩

/-- After a character that is no backslash, no white space and satisfies the
    condition, `readTokenUntilFalse` ends behind that character. -/
theorem readTokenUntilFalse_progress (condition : Char → Bool) (s0 : lexerStream)
    (h0 : s0.inBounds) (c : Char) (stream : lexerStream)
    (hread : s0.readCharacter = Result.ok (c, stream))
    (hbs : c ≠ '\\') (hsp : unicodeIsSpace c = false) (hcond : condition c = true) :
    readTokenUntilFalse stream condition ≠ Result.fuel ∧
    ∀ text s, readTokenUntilFalse stream condition = Result.ok (text, s) →
      s.source = s0.source ∧ s.length = s0.length ∧ s0.position < s.position ∧
      s.position ≤ s0.length := by
  rcases lexerStream.readCharacter_inBounds s0 h0 with hp | ⟨c2, hc2, hlt⟩
  · rw [hp] at hread; cases hread
  rw [hc2] at hread
  simp only [Result.ok.injEq, Prod.mk.injEq] at hread
  obtain ⟨rfl, rfl⟩ := hread
  obtain ⟨hlen, hpos, hle⟩ := h0
  have hrew : lexerStream.rewind { s0 with position := s0.position + 1 } 1 = s0 := by
    cases s0
    simp [lexerStream.rewind]
  have hcan : s0.canRead = true := by simpa [lexerStream.canRead] using hlt
  have hin1 : lexerStream.inBounds { s0 with position := s0.position + 1 } :=
    ⟨hlen, by show 0 ≤ s0.position + 1; omega, by show s0.position + 1 ≤ s0.length; omega⟩
  obtain ⟨n, hn⟩ : ∃ n, s0.remaining = n + 1 := ⟨(s0.length - s0.position).toNat, rfl⟩
  have hrem1 : lexerStream.remaining { s0 with position := s0.position + 1 } ≤ n := by
    simp only [lexerStream.remaining] at hn ⊢
    omega
  have hstep : readUntilFalse s0 false true condition =
      readUntilFalseLoop false true condition n { s0 with position := s0.position + 1 }
        ("".push c2) := by
    rw [readUntilFalse, hn, readUntilFalseLoop]
    simp [hcan, hc2, hbs, hsp, hcond]
  obtain ⟨hne, hall⟩ := readUntilFalseLoop_bounded false true condition n _ ("".push c2) hin1 hrem1
  unfold readTokenUntilFalse
  rw [hrew, hstep]
  generalize readUntilFalseLoop false true condition n { s0 with position := s0.position + 1 }
    ("".push c2) = r at hne hall
  cases r with
  | panic => exact ⟨by simp, by intro _ _ h; cases h⟩
  | fuel => exact absurd rfl hne
  | ok v =>
    obtain ⟨text, completed, s⟩ := v
    refine ⟨by simp, ?_⟩
    intro text2 s2 h2
    simp only [Result.ok.injEq, Prod.mk.injEq] at h2
    obtain ⟨rfl, rfl⟩ := h2
    obtain ⟨h1, h2, h3, h4, _, _⟩ := hall text completed s rfl
    simp only at h1 h2 h3 h4
    exact ⟨h1, h2, by omega, h4⟩

theorem ParseFloat_empty (other : String → Option float64) : ParseFloat other "" = none := by
  simp [ParseFloat]

theorem ParseUint_empty (base bitSize : Nat) : ParseUint "" base bitSize = none := by
  simp [ParseUint]

theorem readBounded_decimal (L : Library) (source : List Char) (length position : Int)
    (stream : lexerStream) (hin : (stream.rewind 1).inBounds) (hsrc : stream.source = source)
    (hlen : stream.length = length) (hp : position ≤ stream.position - 1) :
    readBounded source length position
      (match readTokenUntilFalse stream (isNumeric L.unicode) with
      | Result.panic => Result.panic
      | Result.fuel => Result.fuel
      | Result.ok (tokenString, stream) =>
        match ParseFloat L.parseFloatOther tokenString with
        | none =>
          readTokenError ("Unable to parse numeric value '" ++ tokenString ++ "' to float64") stream
        | some tokenValue =>
          readTokenFinish TokenKind.NUMERIC (TokenValue.number tokenValue) stream) := by
  obtain ⟨hne, hall⟩ := readTokenUntilFalse_bounded (isNumeric L.unicode) stream hin
  generalize readTokenUntilFalse stream (isNumeric L.unicode) = r at hne hall
  have hpos0 : 0 ≤ stream.position - 1 := hin.2.1
  cases r with
  | panic => exact readBounded_panic _ _ _
  | fuel => exact absurd rfl hne
  | ok v =>
    obtain ⟨text, s⟩ := v
    obtain ⟨h1, h2, h3, h4, h5⟩ := hall text s rfl
    simp only
    cases hpf : ParseFloat L.parseFloatOther text with
    | none =>
      exact readBounded_error _ _ _ _ _ (h1.trans hsrc) (h2.trans hlen) (by omega) (by omega)
    | some value =>
      have hne2 : s.position ≠ stream.position - 1 := by
        intro heq
        rw [h5 heq, ParseFloat_empty] at hpf
        cases hpf
      exact readBounded_finish _ _ _ _ _ _ (h1.trans hsrc) (h2.trans hlen) (by omega) (by omega)
        (by omega)

theorem lexerStream.readCharacter_eq (s0 : lexerStream) (h0 : s0.inBounds) (c : Char)
    (stream : lexerStream) (hread : s0.readCharacter = Result.ok (c, stream)) :
    stream = { s0 with position := s0.position + 1 } ∧ s0.position < s0.length := by
  rcases lexerStream.readCharacter_inBounds s0 h0 with hp | ⟨c2, hc2, hlt⟩
  · rw [hp] at hread; cases hread
  · rw [hc2] at hread
    simp only [Result.ok.injEq, Prod.mk.injEq] at hread
    exact ⟨hread.2.symm, hlt⟩

theorem readBounded_numeric (L : Library) (s0 : lexerStream) (h0 : s0.inBounds) (c : Char)
    (stream : lexerStream) (hread : s0.readCharacter = Result.ok (c, stream)) :
    readBounded s0.source s0.length s0.position (readTokenNumeric L c stream) := by
  obtain ⟨rfl, hlt⟩ := lexerStream.readCharacter_eq s0 h0 c stream hread
  obtain ⟨hlen, hpos, hle⟩ := h0
  have hin1 : lexerStream.inBounds { s0 with position := s0.position + 1 } :=
    ⟨hlen, by show 0 ≤ s0.position + 1; omega, by show s0.position + 1 ≤ s0.length; omega⟩
  unfold readTokenNumeric
  simp only []
  split
  · rcases lexerStream.readCharacter_inBounds _ hin1 with hp | ⟨c2, hc2, hlt2⟩
    · rw [hp]; exact readBounded_panic _ _ _
    · rw [hc2]
      simp only at hlt2 ⊢
      have hin2 : lexerStream.inBounds { s0 with position := s0.position + 1 + 1 } :=
        ⟨hlen, by show 0 ≤ s0.position + 1 + 1; omega,
          by show s0.position + 1 + 1 ≤ s0.length; omega⟩
      split
      · obtain ⟨hne, hall⟩ := readUntilFalse_bounded false true (isHexDigit L.unicode) _ hin2
        generalize readUntilFalse { s0 with position := s0.position + 1 + 1 } false true
          (isHexDigit L.unicode) = r at hne hall
        cases r with
        | panic => exact readBounded_panic _ _ _
        | fuel => exact absurd rfl hne
        | ok v =>
          obtain ⟨text, completed, s⟩ := v
          obtain ⟨h1, h2, h3, h4, _, _⟩ := hall text completed s rfl
          simp only at h1 h2 h3 h4 ⊢
          split
          · exact readBounded_error _ _ _ _ _ h1 h2 (by omega) (by omega)
          · exact readBounded_finish _ _ _ _ _ _ h1 h2 (by omega) (by omega) (by omega)
      · apply readBounded_decimal
        · exact ⟨hlen, by show 0 ≤ s0.position + 1 + 1 - 1 - 1; omega,
            by show s0.position + 1 + 1 - 1 - 1 ≤ s0.length; omega⟩
        · rfl
        · rfl
        · show s0.position ≤ s0.position + 1 + 1 - 1 - 1; omega
  · apply readBounded_decimal
    · exact ⟨hlen, by show 0 ≤ s0.position + 1 - 1; omega,
        by show s0.position + 1 - 1 ≤ s0.length; omega⟩
    · rfl
    · rfl
    · show s0.position ≤ s0.position + 1 - 1; omega

theorem hasKey_empty :
    hasKey prefixSymbols "" = false ∧ hasKey modifierSymbols "" = false ∧
    hasKey logicalSymbols "" = false ∧ hasKey comparatorSymbols "" = false ∧
    hasKey ternarySymbols "" = false := by
  decide

theorem readBounded_symbol (L : Library) (state : lexerState) (s0 : lexerStream)
    (h0 : s0.inBounds) (c : Char) (stream : lexerStream)
    (hread : s0.readCharacter = Result.ok (c, stream)) :
    readBounded s0.source s0.length s0.position (readTokenSymbol L state stream) := by
  obtain ⟨rfl, hlt⟩ := lexerStream.readCharacter_eq s0 h0 c stream hread
  obtain ⟨hlen, hpos, hle⟩ := h0
  have hin : (lexerStream.rewind { s0 with position := s0.position + 1 } 1).inBounds :=
    ⟨hlen, by show 0 ≤ s0.position + 1 - 1; omega, by show s0.position + 1 - 1 ≤ s0.length; omega⟩
  obtain ⟨hne, hall⟩ := readTokenUntilFalse_bounded (isNotAlphanumeric L.unicode) _ hin
  unfold readTokenSymbol
  generalize readTokenUntilFalse { s0 with position := s0.position + 1 }
    (isNotAlphanumeric L.unicode) = r at hne hall
  cases r with
  | panic => exact readBounded_panic _ _ _
  | fuel => exact absurd rfl hne
  | ok v =>
    obtain ⟨text, s⟩ := v
    obtain ⟨h1, h2, h3, h4, h5⟩ := hall text s rfl
    simp only at h1 h2 h3 h4 h5 ⊢
    by_cases hempty : s.position = s0.position + 1 - 1
    · rw [h5 hempty]
      simp only [hasKey_empty, Bool.and_false, Bool.false_eq_true, if_false]
      exact readBounded_error _ _ _ _ _ h1 h2 (by omega) (by omega)
    · repeat' split
      all_goals first
        | exact readBounded_error _ _ _ _ _ h1 h2 (by omega) (by omega)
        | exact readBounded_finish _ _ _ _ _ _ h1 h2 (by omega) (by omega) (by omega)

theorem unicodeIsLetter_backslash (U : UnicodeTables) : unicodeIsLetter U '\\' = false := by
  simp [unicodeIsLetter, inRange]

theorem readBounded_identifier (L : Library) (functions : String → Option ExpressionFunction)
    (source : List Char) (length position : Int) (tokenString : String) (s : lexerStream)
    (h1 : s.source = source) (h2 : s.length = length)
    (h3 : 0 ≤ s.position) (h4 : s.position ≤ length) (h5 : position < s.position) :
    readBounded source length position (identifierOutcome L functions tokenString s) := by
  unfold identifierOutcome
  simp only []
  repeat' split
  all_goals first
    | exact readBounded_error _ _ _ _ _ h1 h2 h3 h4
    | exact readBounded_finish _ _ _ _ _ _ h1 h2 h3 h4 h5

theorem readBounded_variable (L : Library) (functions : String → Option ExpressionFunction)
    (s0 : lexerStream) (h0 : s0.inBounds) (c : Char) (stream : lexerStream)
    (hread : s0.readCharacter = Result.ok (c, stream)) (hsp : unicodeIsSpace c = false)
    (hletter : unicodeIsLetter L.unicode c = true) :
    readBounded s0.source s0.length s0.position (readTokenVariable L functions stream) := by
  have hbs : c ≠ '\\' := by
    intro h
    rw [h, unicodeIsLetter_backslash] at hletter
    cases hletter
  have hcond : isVariableName L.unicode c = true := by simp [isVariableName, hletter]
  obtain ⟨hne, hall⟩ := readTokenUntilFalse_progress (isVariableName L.unicode) s0 h0 c stream
    hread hbs hsp hcond
  rw [readTokenVariable_eq]
  generalize readTokenUntilFalse stream (isVariableName L.unicode) = r at hne hall
  cases r with
  | panic => exact readBounded_panic _ _ _
  | fuel => exact absurd rfl hne
  | ok v =>
    obtain ⟨text, s⟩ := v
    obtain ⟨h1, h2, h3, h4⟩ := hall text s rfl
    have := h0.2.1
    exact readBounded_identifier L functions _ _ _ text s h1 h2 (by omega) h4 h3

theorem readBounded_quoted (source : List Char) (length position : Int) (s1 : lexerStream)
    (hin : s1.inBounds) (hsrc : s1.source = source) (hlen : s1.length = length)
    (hp : position < s1.position) (condition : Char → Bool) (message : String)
    (finish : String → lexerStream → ReadTokenReturn)
    (hfinish : ∀ text s, s.source = source → s.length = length → 0 ≤ s.position →
      s.position ≤ length → position < s.position → readBounded source length position (finish text s)) :
    readBounded source length position
      (match readUntilFalse s1 true false condition with
      | Result.panic => Result.panic
      | Result.fuel => Result.fuel
      | Result.ok (tokenValue, completed, stream) =>
        if !completed then readTokenError message stream
        else finish tokenValue (stream.rewind (-1))) := by
  obtain ⟨hne, hall⟩ := readUntilFalse_bounded true false condition s1 hin
  generalize readUntilFalse s1 true false condition = r at hne hall
  have hpos := hin.2.1
  cases r with
  | panic => exact readBounded_panic _ _ _
  | fuel => exact absurd rfl hne
  | ok v =>
    obtain ⟨text, completed, s⟩ := v
    obtain ⟨h1, h2, h3, h4, h5, _⟩ := hall text completed s rfl
    simp only
    cases completed with
    | false =>
      simp only [Bool.not_false, if_true]
      exact readBounded_error _ _ _ _ _ (h1.trans hsrc) (h2.trans hlen) (by omega) (by omega)
    | true =>
      simp only [Bool.not_true, Bool.false_eq_true, if_false]
      have hlt := h5 rfl rfl
      apply hfinish
      · exact h1.trans hsrc
      · exact h2.trans hlen
      · show 0 ≤ s.position - -1; omega
      · show s.position - -1 ≤ length; omega
      · show position < s.position - -1; omega

theorem readTokenLoop_bounded (L : Library) (state : lexerState)
    (functions : String → Option ExpressionFunction) :
    ∀ (fuel : Nat) (s : lexerStream), s.inBounds → s.remaining ≤ fuel →
      readBounded s.source s.length s.position (readTokenLoop L state functions fuel s) := by
  intro fuel
  induction fuel with
  | zero =>
    intro s _ hrem
    simp [lexerStream.remaining] at hrem
  | succ fuel ih =>
    intro s hin hrem
    have hin0 := hin
    obtain ⟨hlen, hpos, hle⟩ := hin0
    rw [readTokenLoop]
    by_cases hcan : s.canRead = true
    · have hlt : s.position < s.length := by simpa [lexerStream.canRead] using hcan
      obtain ⟨c, hc⟩ := lexerStream.readCharacter_canRead s hin hcan
      simp only [hcan, Bool.not_true, Bool.false_eq_true, if_false, hc]
      have hin1 : lexerStream.inBounds { s with position := s.position + 1 } :=
        ⟨hlen, by show 0 ≤ s.position + 1; omega, by show s.position + 1 ≤ s.length; omega⟩
      have hrem1 : lexerStream.remaining { s with position := s.position + 1 } ≤ fuel := by
        simp only [lexerStream.remaining] at hrem ⊢
        omega
      have hfin : ∀ kind v, readBounded s.source s.length s.position
          (readTokenFinish kind v { s with position := s.position + 1 }) := fun kind v =>
        readBounded_finish _ _ _ kind v _ rfl rfl (by show 0 ≤ s.position + 1; omega)
          (by show s.position + 1 ≤ s.length; omega) (by show s.position < s.position + 1; omega)
      split
      · exact readBounded_mono _ _ _ _ (by show s.position ≤ s.position + 1; omega) _
          (ih _ hin1 hrem1)
      · rename_i hsp
        split
        · exact readBounded_numeric L s hin c _ hc
        · split
          · exact hfin _ _
          · split
            · exact readBounded_quoted _ _ _ _ hin1 rfl rfl
                (by show s.position < s.position + 1; omega) _ _
                (fun text st => readTokenFinish TokenKind.VARIABLE (TokenValue.string text) st)
                (fun text st h1 h2 h3 h4 h5 => readBounded_finish _ _ _ _ _ _ h1 h2 h3 h4 h5)
            · split
              · rename_i hletter
                exact readBounded_variable L functions s hin c _ hc (by simpa using hsp) hletter
              · split
                · exact readBounded_quoted _ _ _ _ hin1 rfl rfl
                    (by show s.position < s.position + 1; omega) _ _
                    (fun text st =>
                      match L.tryParseTime text with
                      | some tokenTime =>
                        readTokenFinish TokenKind.TIME (TokenValue.time tokenTime) st
                      | none => readTokenFinish TokenKind.STRING (TokenValue.string text) st)
                    (fun text st h1 h2 h3 h4 h5 => by
                      dsimp only
                      split <;> exact readBounded_finish _ _ _ _ _ _ h1 h2 h3 h4 h5)
                · split
                  · exact hfin _ _
                  · split
                    · exact hfin _ _
                    · exact readBounded_symbol L state s hin c _ hc
    · have hcan2 : s.canRead = false := by simpa using hcan
      simp only [hcan2, Bool.not_false, if_true]
      exact readBounded_unknown _ _ _ _ _ rfl rfl hpos hle

theorem readToken_bounded (L : Library) (stream : lexerStream) (state : lexerState)
    (functions : String → Option ExpressionFunction) (h : stream.inBounds) :
    readBounded stream.source stream.length stream.position
      (readToken L stream state functions) :=
  readTokenLoop_bounded L state functions _ stream h (le_refl _)

theorem parseTokensLoop_bounded (L : Library) (states : lexerStates)
    (functions : String → Option ExpressionFunction) :
    ∀ (fuel : Nat) (stream : lexerStream) (state : lexerState) (ret : List ExpressionToken),
      stream.inBounds → stream.remaining ≤ fuel →
      parseTokensLoop L states functions fuel stream state ret ≠ Result.fuel ∧
      ∀ tokens err, parseTokensLoop L states functions fuel stream state ret =
          Result.ok (tokens, err) →
        (tokens.length : Int) + stream.position ≤ (ret.length : Int) + stream.length := by
  intro fuel
  induction fuel with
  | zero =>
    intro s _ _ _ hrem
    simp [lexerStream.remaining] at hrem
  | succ fuel ih =>
    intro s state ret hin hrem
    have hin0 := hin
    obtain ⟨hlen, hpos, hle⟩ := hin0
    rw [parseTokensLoop]
    have hdone : ∀ e : error, (Result.ok (ret, e) : Result (List ExpressionToken × error)) ≠
          Result.fuel ∧
        ∀ tokens err, (Result.ok (ret, e) : Result (List ExpressionToken × error)) =
            Result.ok (tokens, err) →
          (tokens.length : Int) + s.position ≤ (ret.length : Int) + s.length := by
      intro e
      refine ⟨by simp, ?_⟩
      intro tokens err h
      simp only [Result.ok.injEq, Prod.mk.injEq] at h
      obtain ⟨rfl, _⟩ := h
      omega
    by_cases hcan : s.canRead = true
    · simp only [hcan, Bool.not_true, Bool.false_eq_true, if_false]
      obtain ⟨hne, hall⟩ := readToken_bounded L s state functions hin
      generalize readToken L s state functions = r at hne hall
      cases r with
      | panic => exact ⟨by simp, by intro _ _ h; cases h⟩
      | fuel => exact absurd rfl hne
      | ok v =>
        obtain ⟨token, found, err, s2⟩ := v
        obtain ⟨h1, h2, h3, h4, h5⟩ := hall token found err s2 rfl
        simp only
        cases err with
        | some e => exact hdone _
        | none =>
          simp only
          cases found with
          | false => simpa using hdone none
          | true =>
            simp only [Bool.not_true, Bool.false_eq_true, if_false]
            have hprog := h5 rfl
            cases hst : states.getLexerStateForToken token.Kind with
            | mk st e =>
              cases e with
              | some e => exact hdone _
              | none =>
                simp only
                have hin2 : s2.inBounds := ⟨by rw [h2, h1]; exact hlen, h3, by rw [h2]; exact h4⟩
                have hrem2 : s2.remaining ≤ fuel := by
                  simp only [lexerStream.remaining] at hrem ⊢
                  rw [h2]
                  omega
                obtain ⟨hne2, hall2⟩ := ih s2 st (ret ++ [token]) hin2 hrem2
                refine ⟨hne2, ?_⟩
                intro tokens err hr
                have := hall2 tokens err hr
                rw [h2] at this
                simp only [List.length_append, List.length_singleton, Nat.cast_add,
                  Nat.cast_one] at this
                omega
    · have hcan2 : s.canRead = false := by simpa using hcan
      simp only [hcan2, Bool.not_false, if_true]
      exact hdone none

theorem newLexerStream_inBounds (expression : String) : (newLexerStream expression).inBounds :=
  ⟨rfl, le_refl _, by simp [newLexerStream]⟩

theorem parseTokens_bounded (L : Library) (states : lexerStates) (expression : String)
    (functions : String → Option ExpressionFunction) :
    parseTokens L states expression functions ≠ Result.fuel ∧
    ∀ tokens err, parseTokens L states expression functions = Result.ok (tokens, err) →
      tokens.length ≤ expression.toList.length := by
  obtain ⟨hne, hall⟩ := parseTokensLoop_bounded L states functions _ (newLexerStream expression)
    states.initial [] (newLexerStream_inBounds expression) (le_refl _)
  unfold parseTokens
  simp only []
  generalize parseTokensLoop L states functions (newLexerStream expression).remaining
    (newLexerStream expression) states.initial [] = r at hne hall
  cases r with
  | panic => exact ⟨by simp, by intro _ _ h; cases h⟩
  | fuel => exact absurd rfl hne
  | ok v =>
    obtain ⟨ret, e⟩ := v
    have hlen := hall ret e rfl
    simp only [newLexerStream, List.length_nil, Nat.cast_zero, zero_add, add_zero] at hlen
    cases e with
    | some e =>
      refine ⟨by simp, ?_⟩
      intro tokens err h
      simp only [Result.ok.injEq, Prod.mk.injEq] at h
      obtain ⟨rfl, _⟩ := h
      exact_mod_cast hlen
    | none =>
      simp only [checkBalance_eq]
      split
      · rename_i heq
        split at heq <;> simp at heq
      · rename_i heq
        split at heq <;> simp at heq
      · refine ⟨by simp, ?_⟩
        intro tokens err h
        simp only [Result.ok.injEq, Prod.mk.injEq] at h
        obtain ⟨rfl, _⟩ := h
        simp
      · refine ⟨by simp, ?_⟩
        intro tokens err h
        simp only [Result.ok.injEq, Prod.mk.injEq] at h
        obtain ⟨rfl, _⟩ := h
        exact_mod_cast hlen

/-- C25: `parseTokens` terminates on every input. Its loops, unrolled by the
    number of unread code points, are never cut short; a `readToken` call on a
    stream in bounds that yields a token leaves the stream in bounds at a
    strictly greater position; and the tokens returned are at most as many as
    the code points of the input. -/
theorem parseTokens_terminates (L : Library) (states : lexerStates) (expression : String)
    (functions : String → Option ExpressionFunction) :
    parseTokens L states expression functions ≠ Result.fuel ∧
    (∀ tokens err, parseTokens L states expression functions = Result.ok (tokens, err) →
      tokens.length ≤ expression.toList.length) ∧
    (∀ (stream : lexerStream) (state : lexerState), stream.inBounds →
      readToken L stream state functions ≠ Result.fuel ∧
      ∀ token err stream2,
        readToken L stream state functions = Result.ok (token, true, err, stream2) →
        stream.position < stream2.position ∧ stream2.inBounds) := by
  obtain ⟨h1, h2⟩ := parseTokens_bounded L states expression functions
  refine ⟨h1, h2, ?_⟩
  intro stream state hin
  obtain ⟨hne, hall⟩ := readToken_bounded L stream state functions hin
  refine ⟨hne, ?_⟩
  intro token err stream2 hr
  obtain ⟨h3, h4, h5, h6, h7⟩ := hall token true err stream2 hr
  exact ⟨h7 rfl, by rw [h4, h3]; exact hin.1, h5, by rw [h4]; exact h6⟩

/-- C24: on the five code points `'abc\` the lexer reads the backslash at the
    last position and then one more character, at a position outside the
    source: `parseTokens` panics and returns neither tokens nor an error. -/
theorem parseTokens_trailing_backslash_panics (L : Library) (states : lexerStates)
    (functions : String → Option ExpressionFunction) :
    parseTokens L states "'abc\\" functions = Result.panic := by
  rfl

/-! ## The state machine in `parseTokens` -/

theorem readTokenLoop_state (L : Library) (functions : String → Option ExpressionFunction)
    (a b : lexerState)
    (h : a.canTransitionTo TokenKind.PREFIX = b.canTransitionTo TokenKind.PREFIX) :
    ∀ (fuel : Nat) (stream : lexerStream),
      readTokenLoop L a functions fuel stream = readTokenLoop L b functions fuel stream := by
  intro fuel
  induction fuel with
  | zero => intro stream; rfl
  | succ fuel ih =>
    intro stream
    rw [readTokenLoop, readTokenLoop]
    have hsym : ∀ s, readTokenSymbol L a s = readTokenSymbol L b s := by
      intro s
      unfold readTokenSymbol
      rw [h]
    simp only [ih, hsym]

theorem parseTokensLoop_states (L : Library) (functions : String → Option ExpressionFunction)
    (a b : lexerStates) (h : a.sameAnswers b) :
    ∀ (fuel : Nat) (stream : lexerStream) (sa sb : lexerState) (ret : List ExpressionToken),
      sa.canTransitionTo TokenKind.PREFIX = sb.canTransitionTo TokenKind.PREFIX →
      parseTokensLoop L a functions fuel stream sa ret =
        parseTokensLoop L b functions fuel stream sb ret := by
  intro fuel
  induction fuel with
  | zero => intro _ _ _ _ _; rfl
  | succ fuel ih =>
    intro stream sa sb ret hs
    rw [parseTokensLoop, parseTokensLoop, readToken, readToken,
      readTokenLoop_state L functions sa sb hs]
    split
    · rfl
    · generalize readTokenLoop L sb functions stream.remaining stream = r
      cases r with
      | panic => rfl
      | fuel => rfl
      | ok v =>
        obtain ⟨token, found, err, s2⟩ := v
        simp only
        cases err with
        | some e => rfl
        | none =>
          simp only
          split
          · rfl
          · obtain ⟨herr, hpre⟩ := h.2 token.Kind
            cases hsa : a.getLexerStateForToken token.Kind with
            | mk sta ea =>
              cases hsb : b.getLexerStateForToken token.Kind with
              | mk stb eb =>
                rw [hsa, hsb] at herr hpre
                simp only at herr hpre
                subst herr
                cases ea with
                | some e => rfl
                | none => exact ih s2 sta stb _ hpre

theorem lexerStates.sameAnswers_onlyPrefixKept (states : lexerStates) :
    states.sameAnswers states.onlyPrefixKept := by
  have hcut : ∀ state : lexerState,
      state.canTransitionTo TokenKind.PREFIX =
        lexerState.canTransitionTo
          { validNextKinds := state.validNextKinds.filter (fun kind => kind = TokenKind.PREFIX) }
          TokenKind.PREFIX := by
    intro state
    simp only [lexerState.canTransitionTo]
    rw [Bool.eq_iff_iff]
    simp [List.mem_filter]
  exact ⟨hcut _, fun kind => ⟨rfl, hcut _⟩⟩

/-- C22 as stated fails: `+` is a MODIFIER, which the initial state does not
    allow, and in `1 1` a NUMERIC follows a NUMERIC, which the state after a
    NUMERIC does not allow; `parseTokens` returns both token lists without an
    error. -/
theorem parseTokens_disallowed_transition_counterexample :
    initialState.canTransitionTo TokenKind.MODIFIER = false
    ∧ parseTokens plainLibrary sampleStates "+" noFunctions =
        Result.ok ([{ Kind := TokenKind.MODIFIER, Value := TokenValue.string "+" }], none)
    ∧ (sampleStates.getLexerStateForToken TokenKind.NUMERIC).1.canTransitionTo TokenKind.NUMERIC
        = false
    ∧ parseTokens plainLibrary sampleStates "1 1" noFunctions =
        Result.ok ([{ Kind := TokenKind.NUMERIC, Value := TokenValue.number (float64.ofNat 1) },
          { Kind := TokenKind.NUMERIC, Value := TokenValue.number (float64.ofNat 1) }], none) :=
  ⟨by decide, rfl, by decide, rfl⟩

/-- C22 (amended): `parseTokens` does not compare the kind of a token with the
    kinds its state allows. It asks a state only whether PREFIX may come next,
    and the table only for the state of a kind and the error of that lookup: two
    tables that answer these alike give the same tokens and the same error on
    every input, whatever else their states allow. -/
theorem parseTokens_transitions_unchecked (L : Library) (a b : lexerStates)
    (h : a.sameAnswers b) (expression : String)
    (functions : String → Option ExpressionFunction) :
    parseTokens L a expression functions = parseTokens L b expression functions := by
  unfold parseTokens
  simp only []
  rw [parseTokensLoop_states L functions a b h _ _ a.initial b.initial [] h.1]

theorem parseTokens_transitions_unchecked_witness :
    sampleStates.sameAnswers sampleStates.onlyPrefixKept
    ∧ sampleStates.onlyPrefixKept.initial.canTransitionTo TokenKind.NUMERIC = false
    ∧ parseTokens plainLibrary sampleStates.onlyPrefixKept "1 + 2" noFunctions =
        parseTokens plainLibrary sampleStates "1 + 2" noFunctions :=
  have hsame : sampleStates.sameAnswers sampleStates.onlyPrefixKept :=
    ⟨rfl, fun kind => by cases kind <;> exact ⟨rfl, rfl⟩⟩
  ⟨hsame, by decide,
    (parseTokens_transitions_unchecked plainLibrary sampleStates sampleStates.onlyPrefixKept
      hsame "1 + 2" noFunctions).symm⟩

/-! ## The position behind a regex comparator -/

theorem Result.map_eq_panic {α β : Type} (f : α → β) (r : Result α) (h : r = Result.panic) :
    r.map f = Result.panic := by
  rw [h]; rfl

theorem regexComparatorsFollowed_eq (tokens : List ExpressionToken) :
    regexComparatorsFollowed tokens = !endsInRegexComparator tokens := by
  induction tokens with
  | nil => rfl
  | cons t rest ih =>
    rw [regexComparatorsFollowed, ih]
    cases rest with
    | nil =>
      simp only [endsInRegexComparator, List.getLast?_singleton, List.getLast?_nil,
        List.isEmpty_nil]
      cases isRegexComparator t <;> rfl
    | cons u rest2 =>
      have hlast : (t :: u :: rest2).getLast? = (u :: rest2).getLast? := by
        simp [List.getLast?_cons_cons]
      simp only [endsInRegexComparator, hlast, List.isEmpty_cons, Bool.not_false, ite_self,
        Bool.true_and]

theorem isRegexComparator_kind (token : ExpressionToken) (h : isRegexComparator token = true) :
    token.Kind = TokenKind.COMPARATOR := by
  unfold isRegexComparator at h
  split at h
  · simp only [Bool.and_eq_true, beq_iff_eq] at h
    exact h.1
  · cases h

/-- On tokens typed as the lexer types them, with a `=~` or `!~` that no
    token follows, the loop of `optimizeTokens` reads behind the end of the
    list, unless a regex before that fails to compile. -/
theorem rewriteTokens_unfollowed (compile : String → Except String Regexp) (n : Nat) :
    ∀ tokens : List ExpressionToken, tokens.length ≤ n →
      (∀ t ∈ tokens, lexerTyped t) → regexComparatorsFollowed tokens = false →
      (∀ expected, patternsExpected compile false tokens = Except.ok expected →
        rewriteTokens compile tokens = Result.panic) ∧
      (∀ err, patternsExpected compile false tokens = Except.error err →
        ∃ out, rewriteTokens compile tokens = Result.ok (out, some err)) := by
  induction n with
  | zero =>
    intro tokens hn _ hunf
    have htokens : tokens = [] := List.length_eq_zero.mp (Nat.le_zero.mp hn)
    subst htokens
    simp [regexComparatorsFollowed] at hunf
  | succ n ih =>
    intro tokens hn htyped hunf
    cases tokens with
    | nil => simp [regexComparatorsFollowed] at hunf
    | cons t rest =>
      have hn1 : rest.length ≤ n := by simpa using hn
      have htyped1 : ∀ x ∈ rest, lexerTyped x := fun x hx => htyped x (List.mem_cons_of_mem _ hx)
      rw [regexComparatorsFollowed] at hunf
      rw [patternsExpected_cons_false, rewriteTokens_cons]
      by_cases hreg : isRegexComparator t = true
      · simp only [hreg, if_true] at hunf ⊢
        cases rest with
        | nil =>
          refine ⟨fun _ _ => rfl, ?_⟩
          intro err h
          simp [patternsExpected, consToken] at h
        | cons u rest2 =>
          have hunf1 : regexComparatorsFollowed (u :: rest2) = false := by
            simpa using hunf
          have hn2 : rest2.length ≤ n := by simp at hn1; omega
          have htyped2 : ∀ x ∈ rest2, lexerTyped x :=
            fun x hx => htyped1 x (List.mem_cons_of_mem _ hx)
          by_cases hu : u.Kind = TokenKind.STRING
          · have hureg : isRegexComparator u = false := by
              cases h : isRegexComparator u with
              | false => rfl
              | true =>
                have := isRegexComparator_kind u h
                rw [hu] at this
                cases this
            have hunf2 : regexComparatorsFollowed rest2 = false := by
              rw [regexComparatorsFollowed] at hunf1
              simpa [hureg] using hunf1
            obtain ⟨expr, hexpr⟩ := htyped1 u (List.mem_cons_self _ _) (Or.inr hu)
            rw [patternsExpected_cons_string compile u rest2 expr hu hexpr]
            simp only [hu, if_true, hexpr]
            cases hc : compile expr with
            | error err2 =>
              refine ⟨?_, ?_⟩
              · intro expected h; simp [consToken] at h
              · intro err h
                simp only [consToken, Except.error.injEq] at h
                subst h
                exact ⟨_, rfl⟩
            | ok compiled =>
              obtain ⟨ih1, ih2⟩ := ih rest2 hn2 htyped2 hunf2
              refine ⟨?_, ?_⟩
              · intro expected h
                obtain ⟨tail, htail, hexp⟩ := consToken_eq_ok _ _ _ h
                obtain ⟨tail2, htail2, hexp2⟩ := consToken_eq_ok _ _ _ htail
                simp only []
                rw [Result.map_eq_panic _ _ (ih1 tail2 htail2)]
              · intro err h
                have h2 := consToken_eq_error _ _ _ (consToken_eq_error _ _ _ h)
                obtain ⟨out, hout⟩ := ih2 err h2
                simp only []
                rw [Result.map_eq_ok _ _ _ hout]
                exact ⟨_, rfl⟩
          · rw [patternsExpected_cons_other compile true u rest2 hu,
              ← patternsExpected_cons_false compile u rest2]
            simp only [hu, if_false]
            obtain ⟨ih1, ih2⟩ := ih (u :: rest2) hn1 htyped1 hunf1
            refine ⟨?_, ?_⟩
            · intro expected h
              obtain ⟨tail, htail, hexp⟩ := consToken_eq_ok _ _ _ h
              rw [Result.map_eq_panic _ _ (ih1 tail htail)]
            · intro err h
              obtain ⟨out, hout⟩ := ih2 err (consToken_eq_error _ _ _ h)
              rw [Result.map_eq_ok _ _ _ hout]
              exact ⟨_, rfl⟩
      · have hreg2 : isRegexComparator t = false := by simpa using hreg
        have hnc : (t.Kind == TokenKind.COMPARATOR && !t.Value.isString) = false := by
          by_cases hk : t.Kind = TokenKind.COMPARATOR
          · obtain ⟨text, htext⟩ := htyped t (List.mem_cons_self _ _) (Or.inl hk)
            simp [htext, TokenValue.isString]
          · simp [hk]
        have hunf1 : regexComparatorsFollowed rest = false := by
          simpa [hreg2] using hunf
        simp only [hreg2, hnc, Bool.false_eq_true, if_false]
        obtain ⟨ih1, ih2⟩ := ih rest hn1 htyped1 hunf1
        refine ⟨?_, ?_⟩
        · intro expected h
          obtain ⟨tail, htail, hexp⟩ := consToken_eq_ok _ _ _ h
          rw [Result.map_eq_panic _ _ (ih1 tail htail)]
        · intro err h
          obtain ⟨out, hout⟩ := ih2 err (consToken_eq_error _ _ _ h)
          rw [Result.map_eq_ok _ _ _ hout]
          exact ⟨_, rfl⟩

/-- C26 as stated fails: the lexer turns the text `x =~` into a list whose
    last token is the `=~` COMPARATOR, and on that list `optimizeTokens` reads
    the position behind the end and faults. -/
theorem optimizeTokens_trailing_regex_counterexample :
    parseTokens plainLibrary sampleStates "x =~" noFunctions =
      Result.ok (trailingRegexTokens, none) ∧
    endsInRegexComparator trailingRegexTokens = true ∧
    optimizeTokens sampleCompile trailingRegexTokens = Result.panic :=
  ⟨rfl, rfl, rfl⟩

/-- C26, amended. On a token list typed as the lexer types it,
    `optimizeTokens` faults exactly when the last token is a `=~` or `!~`
    COMPARATOR and no regex before it fails to compile: it then reads the
    position behind the end of the list. On every other such list, among them
    every list in which each `=~` and `!~` is followed by a token, as in the
    complete expressions its doc comment asks for, it indexes inside the list
    only and returns. -/
theorem optimizeTokens_index_contract (compile : String → Except String Regexp)
    (tokens : List ExpressionToken) (htyped : ∀ t ∈ tokens, lexerTyped t) :
    (optimizeTokens compile tokens = Result.panic ↔
      (endsInRegexComparator tokens = true ∧
        ∃ expected, patternsExpected compile false tokens = Except.ok expected)) ∧
    (optimizeTokens compile tokens ≠ Result.panic →
      ∃ out err, optimizeTokens compile tokens = Result.ok (out, err)) := by
  have hloop := optimizeTokensLoop_split compile tokens.length tokens [] (Nat.le_refl _)
  simp only [List.length_nil, List.nil_append] at hloop
  have hends := regexComparatorsFollowed_eq tokens
  rw [optimizeTokens, hloop]
  cases hf : regexComparatorsFollowed tokens with
  | true =>
    have hno : endsInRegexComparator tokens = false := by
      rw [hf] at hends
      cases h : endsInRegexComparator tokens with
      | false => rfl
      | true => rw [h] at hends; cases hends
    obtain ⟨h1, h2⟩ := rewriteTokens_expected compile tokens.length tokens (Nat.le_refl _)
      htyped hf
    have hok : ∃ out err, (rewriteTokens compile tokens).map (fun r => (r.1, r.2)) =
        Result.ok (out, err) := by
      cases hx : patternsExpected compile false tokens with
      | ok expected => exact ⟨_, _, Result.map_eq_ok _ _ _ (h1 expected hx)⟩
      | error err =>
        obtain ⟨out, hout⟩ := h2 err hx
        exact ⟨_, _, Result.map_eq_ok _ _ _ hout⟩
    refine ⟨⟨?_, ?_⟩, fun _ => hok⟩
    · intro hp
      obtain ⟨out, err, hr⟩ := hok
      rw [hr] at hp
      cases hp
    · intro h
      rw [hno] at h
      cases h.1
  | false =>
    have hyes : endsInRegexComparator tokens = true := by
      rw [hf] at hends
      cases h : endsInRegexComparator tokens with
      | true => rfl
      | false => rw [h] at hends; cases hends
    obtain ⟨h1, h2⟩ := rewriteTokens_unfollowed compile tokens.length tokens (Nat.le_refl _)
      htyped hf
    refine ⟨⟨?_, ?_⟩, ?_⟩
    · intro hp
      cases hx : patternsExpected compile false tokens with
      | ok expected => exact ⟨hyes, expected, rfl⟩
      | error err =>
        obtain ⟨out, hout⟩ := h2 err hx
        rw [Result.map_eq_ok _ _ _ hout] at hp
        cases hp
    · intro h
      obtain ⟨_, expected, hx⟩ := h
      exact Result.map_eq_panic _ _ (h1 expected hx)
    · intro hnp
      cases hx : patternsExpected compile false tokens with
      | ok expected => exact absurd (Result.map_eq_panic _ _ (h1 expected hx)) hnp
      | error err =>
        obtain ⟨out, hout⟩ := h2 err hx
        exact ⟨_, _, Result.map_eq_ok _ _ _ hout⟩

theorem optimizeTokens_index_contract_witness :
    (∀ t ∈ trailingRegexTokens, lexerTyped t) ∧
    optimizeTokens sampleCompile trailingRegexTokens = Result.panic :=
  have htyped : ∀ t ∈ trailingRegexTokens, lexerTyped t := by
    intro t ht _
    simp only [trailingRegexTokens, List.mem_cons, List.mem_singleton, List.not_mem_nil,
      or_false] at ht
    rcases ht with h | h <;> subst h <;> exact ⟨_, rfl⟩
  ⟨htyped, (optimizeTokens_index_contract sampleCompile trailingRegexTokens htyped).1.mpr
    ⟨rfl, _, rfl⟩⟩

/-! ## Addition -/

end Govaluate
